import Mathlib

/-!
# SimpleCache: the blocking cache of `learning_gem5/part2/simple_cache.cc`

A shallow embedding of the cache controller: every member function of
`SimpleCache`, `SimpleCache::CPUSidePort` and `SimpleCache::MemSidePort`
becomes a function on an explicit state.

* Addresses, sizes, ticks and bytes are natural numbers.
* A call that ends in `panic`, a failed `assert` or a loop that cannot end
  returns `Except.error` with the fault and the state reached at that point.
* Everything the host decides (whether a peer accepts a packet, the random
  draws of the eviction, the current tick) is an explicit input, `Env`.
* Calls made on peers are recorded in trace fields of the ports
  (`sentReq`, `sentFunctional`, `sentResp`, `retries`); `completed` counts the
  replies handed over by `sendResponse`. A peer reacts to a call in a later
  step, never inside the call.
-/

namespace Gem5

/-! ## Packets -/

/-- Modelled from the spec: the read/write kind of the host's packet
abstraction (section 6). `writeback` is the kind of `MemCmd::WritebackDirty`,
`other` stands for every command that is neither a read nor a write. -/
inductive PacketKind
  | read
  | write
  | writeback
  | other
deriving DecidableEq

/-- Modelled from the spec: the host's packet (section 6): address, size,
read/write kind, completion flag and byte payload. A packet built from a
request carries the request's address. -/
structure Packet where
  addr : Nat
  size : Nat
  kind : PacketKind
  isResponse : Bool
  data : List Nat
deriving DecidableEq

namespace Packet

/-- Modelled from the spec: `getBlockAddr`, the byte address truncated to the
block boundary (section 3). The host computes it with a bit mask, which is the
same number for the power-of-two line sizes of the host. -/
def getBlockAddr (pkt : Packet) (blkSize : Nat) : Nat :=
  pkt.addr - pkt.addr % blkSize

/-- Modelled from the spec: `getOffset`, the distance of the address from its
block address. -/
def getOffset (pkt : Packet) (blkSize : Nat) : Nat :=
  pkt.addr % blkSize

/-- Modelled from the spec: `isRead` of the host's packet. -/
def isRead (pkt : Packet) : Bool :=
  decide (pkt.kind = PacketKind.read)

/-- Modelled from the spec: `isWrite` of the host's packet; a writeback
carries data to store, so it is a write. -/
def isWrite (pkt : Packet) : Bool :=
  decide (pkt.kind = PacketKind.write) || decide (pkt.kind = PacketKind.writeback)

/-- Modelled from the spec: `needsResponse`; requests other than writebacks
are answered (section 4.3: no response is awaited for writebacks). -/
def needsResponse (pkt : Packet) : Bool :=
  !pkt.isResponse && !decide (pkt.kind = PacketKind.writeback)

/-- Modelled from the spec: `makeResponse`, "mark as response". -/
def makeResponse (pkt : Packet) : Packet :=
  { pkt with isResponse := true }

/-- Modelled from the spec: `writeDataToBlock`, "write from packet into
storage": the `size` bytes of the packet are copied to the block starting at
the packet's offset. The result is the block's `blkSize` bytes; a byte the
copy would put past the end of the block is outside the modelled storage. -/
def writeDataToBlock (pkt : Packet) (blk : List Nat) (blkSize : Nat) : List Nat :=
  (List.range blkSize).map fun i =>
    if pkt.getOffset blkSize ≤ i ∧ i < pkt.getOffset blkSize + pkt.size then
      pkt.data.getD (i - pkt.getOffset blkSize) 0
    else blk.getD i 0

/-- Modelled from the spec: `setDataFromBlock`, "read from storage into
packet": the packet's `size` bytes are copied from the block starting at the
packet's offset. A byte read past the end of the block reads as 0. -/
def setDataFromBlock (pkt : Packet) (blk : List Nat) (blkSize : Nat) : Packet :=
  { pkt with data := (List.range pkt.size).map fun i => blk.getD (pkt.getOffset blkSize + i) 0 }

end Packet

/-! ## Faults -/

/-- The ways a call can fail to return. -/
inductive Fault
  /-- Panic "Should never try to send if blocked!". -/
  | sendWhileBlocked
  /-- Panic "Cannot handle accesses that span multiple cache lines". -/
  | spanMultipleLines
  /-- Panic "Unknown packet type in upgrade size". -/
  | unknownUpgradeType
  /-- Panic "Unknown packet type!". -/
  | unknownPacketType
  /-- Panic "Should always hit after inserting". -/
  | missAfterInsert
  /-- A failed `assert`. -/
  | assertion
  /-- The victim search of `insert` never finds a non-empty bucket. -/
  | noVictim
  /-- An index into `cpuPorts` that names no port. -/
  | noSuchPort
deriving DecidableEq

/-! ## The block store (`std::unordered_map<Addr, uint8_t*> cacheStore`) -/

/-- The stored lines, keyed by block address. -/
abbrev CacheStore := List (Nat × List Nat)

namespace CacheStore

/-- The stored block addresses. -/
def keys (s : CacheStore) : List Nat :=
  s.map Prod.fst

/-- Lookup, `cacheStore.find(a)`. -/
def find : CacheStore → Nat → Option (List Nat)
  | [], _ => none
  | (k, l) :: rest, a => if k = a then some l else find rest a

/-- In-place update of the line found at `a` (writing through `it->second`). -/
def setLine : CacheStore → Nat → List Nat → CacheStore
  | [], _, _ => []
  | (k, l) :: rest, a, line => if k = a then (k, line) :: rest else (k, l) :: setLine rest a line

/-- Removal, `cacheStore.erase(a)`. -/
def erase : CacheStore → Nat → CacheStore
  | [], _ => []
  | (k, l) :: rest, a => if k = a then rest else (k, l) :: erase rest a

/-- Assignment, `cacheStore[a] = line`: a new entry when `a` is absent. -/
def assign (s : CacheStore) (a : Nat) (line : List Nat) : CacheStore :=
  if (find s a).isSome then setLine s a line else (a, line) :: s

end CacheStore

/-! ## Ports -/

/-- What the host decides during one call. -/
structure Env where
  /-- Value of `curTick()`. -/
  now : Nat
  /-- The random draws of the eviction; they select a stored entry. -/
  rnd : Nat
  /-- Result of `sendTimingReq` on the memory side. -/
  memAccepts : Bool
  /-- Result of `sendTimingResp` on the CPU side. -/
  cpuAccepts : Bool
deriving DecidableEq

/-- State of a `CPUSidePort`, with the trace of its calls on the peer. -/
structure CPUSidePort where
  id : Int
  blockedPacket : Option Packet
  needRetry : Bool
  /-- Trace: packets offered to the peer by `sendTimingResp`, oldest first. -/
  sentResp : List Packet
  /-- Trace: number of `sendRetryReq` notifications. -/
  retries : Nat
deriving DecidableEq

/-- State of the `MemSidePort`, with the trace of its calls on the peer. -/
structure MemSidePort where
  blockedPacket : Option Packet
  /-- Trace: packets offered to the peer by `sendTimingReq`, oldest first. -/
  sentReq : List Packet
  /-- Trace: packets passed to `sendFunctional`, oldest first. -/
  sentFunctional : List Packet
  /-- Trace: requests the peer has accepted that need a response and have
  not been answered yet. -/
  awaiting : List Packet
deriving DecidableEq

namespace CPUSidePort

/-- Source: `CPUSidePort::sendPacket`. -/
def sendPacket (p : CPUSidePort) (pkt : Packet) (accepted : Bool) : Except Fault CPUSidePort :=
  if p.blockedPacket.isSome then Except.error Fault.sendWhileBlocked
  else if accepted then Except.ok { p with sentResp := p.sentResp ++ [pkt] }
  else Except.ok { p with sentResp := p.sentResp ++ [pkt], blockedPacket := some pkt }

/-- Source: `CPUSidePort::trySendRetry`. -/
def trySendRetry (p : CPUSidePort) : CPUSidePort :=
  if p.needRetry = true ∧ p.blockedPacket = none then
    { p with needRetry := false, retries := p.retries + 1 }
  else p

/-- Source: `CPUSidePort::recvRespRetry`. -/
def recvRespRetry (p : CPUSidePort) (accepted : Bool) : Except Fault CPUSidePort :=
  match p.blockedPacket with
  | none => Except.error Fault.assertion
  | some pkt =>
    match sendPacket { p with blockedPacket := none } pkt accepted with
    | Except.error f => Except.error f
    | Except.ok p1 => Except.ok (trySendRetry p1)

end CPUSidePort

namespace MemSidePort

/-- Source: `MemSidePort::sendPacket`. -/
def sendPacket (m : MemSidePort) (pkt : Packet) (accepted : Bool) : Except Fault MemSidePort :=
  if m.blockedPacket.isSome then Except.error Fault.sendWhileBlocked
  else if accepted then
    Except.ok { m with sentReq := m.sentReq ++ [pkt],
                       awaiting := if pkt.needsResponse then m.awaiting ++ [pkt] else m.awaiting }
  else Except.ok { m with sentReq := m.sentReq ++ [pkt], blockedPacket := some pkt }

/-- Source: `MemSidePort::recvReqRetry`. -/
def recvReqRetry (m : MemSidePort) (accepted : Bool) : Except Fault MemSidePort :=
  match m.blockedPacket with
  | none => Except.error Fault.assertion
  | some pkt => sendPacket { m with blockedPacket := none } pkt accepted

/-- The host's `sendFunctional`: the packet is handed to the peer. -/
def sendFunctional (m : MemSidePort) (pkt : Packet) : MemSidePort :=
  { m with sentFunctional := m.sentFunctional ++ [pkt] }

end MemSidePort

/-! ## The controller -/

/-- The members of `SimpleCache`, the scheduled access events and the count of
replies handed over by `sendResponse`. -/
structure SimpleCache where
  latency : Nat
  blockSize : Nat
  capacity : Nat
  memPort : MemSidePort
  blocked : Bool
  originalPacket : Option Packet
  waitingPortId : Int
  cpuPorts : List CPUSidePort
  cacheStore : CacheStore
  missTime : Nat
  hits : Nat
  misses : Nat
  /-- Samples of `stats.missLatency`, oldest first. -/
  missLatency : List Nat
  /-- Scheduled `accessTiming` events, oldest first: delay in cycles and packet. -/
  events : List (Nat × Packet)
  /-- Number of replies `sendResponse` has handed to a CPU-side port. -/
  completed : Nat
deriving DecidableEq

/-- The recognised options of `SimpleCacheParams`. -/
structure SimpleCacheParams where
  latency : Nat
  /-- Value of `system->cacheLineSize()`. -/
  cacheLineSize : Nat
  size : Nat
  port_cpu_side_connection_count : Nat
deriving DecidableEq

/-- Result of a call on the controller: the value, or the fault together with
the state reached when the call stopped. -/
abbrev Result (α : Type) := Except (Fault × SimpleCache) α

namespace SimpleCache

/-- Source: the constructor `SimpleCache::SimpleCache`. -/
def construct (params : SimpleCacheParams) : SimpleCache where
  latency := params.latency
  blockSize := params.cacheLineSize
  capacity := params.size / params.cacheLineSize
  memPort := { blockedPacket := none, sentReq := [], sentFunctional := [], awaiting := [] }
  blocked := false
  originalPacket := none
  waitingPortId := -1
  cpuPorts := (List.range params.port_cpu_side_connection_count).map fun (i : Nat) =>
    { id := Int.ofNat i, blockedPacket := none, needRetry := false, sentResp := [], retries := 0 }
  cacheStore := []
  missTime := 0
  hits := 0
  misses := 0
  missLatency := []
  events := []
  completed := 0

/-- The call `memPort.sendPacket(pkt)` made by the controller. -/
def memPortSendPacket (c : SimpleCache) (pkt : Packet) (accepted : Bool) : Result SimpleCache :=
  match c.memPort.sendPacket pkt accepted with
  | Except.error f => Except.error (f, c)
  | Except.ok m => Except.ok { c with memPort := m }

/-- Source: `SimpleCache::accessFunctional`. Returns the state, the packet as
the call leaves it, and the hit flag. -/
def accessFunctional (c : SimpleCache) (pkt : Packet) : Result (SimpleCache × Packet × Bool) :=
  match CacheStore.find c.cacheStore (pkt.getBlockAddr c.blockSize) with
  | some line =>
    if pkt.isWrite then
      let line1 := pkt.writeDataToBlock line c.blockSize
      let store1 := CacheStore.setLine c.cacheStore (pkt.getBlockAddr c.blockSize) line1
      Except.ok ({ c with cacheStore := store1 }, pkt, true)
    else if pkt.isRead then
      Except.ok (c, pkt.setDataFromBlock line c.blockSize, true)
    else Except.error (Fault.unknownPacketType, c)
  | none => Except.ok (c, pkt, false)

/-- The packet `new Packet(req, MemCmd::WritebackDirty, blockSize)` of `insert`
after `dataDynamic(block->second)`. -/
def writebackPacket (c : SimpleCache) (block : Nat × List Nat) : Packet :=
  { addr := block.1, size := c.blockSize, kind := PacketKind.writeback,
    isResponse := false, data := block.2 }

/-- The eviction of `insert` (the body of `if (cacheStore.size() >= capacity)`):
the draws select a stored entry, its writeback is sent, the entry is erased.
With no stored entry the search loop never ends. -/
def evict (c : SimpleCache) (env : Env) : Result SimpleCache :=
  match c.cacheStore[env.rnd % c.cacheStore.length]? with
  | none => Except.error (Fault.noVictim, c)
  | some block =>
    match c.memPortSendPacket (c.writebackPacket block) env.memAccepts with
    | Except.error e => Except.error e
    | Except.ok c1 =>
      Except.ok { c1 with cacheStore := CacheStore.erase c1.cacheStore block.1 }

/-- The tail of `insert`: a fresh line of `blockSize` bytes is stored under the
packet's address and the packet's data is written to it. -/
def store (c : SimpleCache) (pkt : Packet) : SimpleCache :=
  let data := List.replicate c.blockSize 0
  { c with cacheStore := CacheStore.assign c.cacheStore pkt.addr (pkt.writeDataToBlock data c.blockSize) }

/-- Source: `SimpleCache::insert`. -/
def insert (c : SimpleCache) (pkt : Packet) (env : Env) : Result SimpleCache :=
  if pkt.addr ≠ pkt.getBlockAddr c.blockSize then Except.error (Fault.assertion, c)
  else if (CacheStore.find c.cacheStore pkt.addr).isSome then Except.error (Fault.assertion, c)
  else if pkt.isResponse = false then Except.error (Fault.assertion, c)
  else if c.cacheStore.length ≥ c.capacity then
    match c.evict env with
    | Except.error e => Except.error e
    | Except.ok c1 => Except.ok (c1.store pkt)
  else Except.ok (c.store pkt)

/-- Source: `SimpleCache::sendResponse`. -/
def sendResponse (c : SimpleCache) (pkt : Packet) (env : Env) : Result SimpleCache :=
  if c.blocked = false then Except.error (Fault.assertion, c)
  else
    let port := c.waitingPortId
    let c1 := { c with blocked := false, waitingPortId := -1 }
    if port < 0 then Except.error (Fault.noSuchPort, c1)
    else
      match c1.cpuPorts[port.toNat]? with
      | none => Except.error (Fault.noSuchPort, c1)
      | some p =>
        match p.sendPacket pkt env.cpuAccepts with
        | Except.error f => Except.error (f, c1)
        | Except.ok p1 =>
          Except.ok { c1 with
            cpuPorts := (c1.cpuPorts.set port.toNat p1).map CPUSidePort.trySendRetry,
            completed := c1.completed + 1 }

/-- Source: `SimpleCache::handleRequest`. -/
def handleRequest (c : SimpleCache) (pkt : Packet) (port_id : Int) : Result (SimpleCache × Bool) :=
  if c.blocked then Except.ok (c, false)
  else
    let c1 := { c with blocked := true }
    if c1.waitingPortId ≠ -1 then Except.error (Fault.assertion, c1)
    else Except.ok ({ c1 with waitingPortId := port_id,
                              events := c1.events ++ [(c1.latency, pkt)] }, true)

/-- Source: `SimpleCache::handleResponse`. -/
def handleResponse (c : SimpleCache) (pkt : Packet) (env : Env) : Result (SimpleCache × Bool) :=
  if c.blocked = false then Except.error (Fault.assertion, c)
  else
    match c.insert pkt env with
    | Except.error e => Except.error e
    | Except.ok c1 =>
      let c2 := { c1 with missLatency := c1.missLatency ++ [env.now - c1.missTime] }
      match c2.originalPacket with
      | some orig =>
        match c2.accessFunctional orig with
        | Except.error e => Except.error e
        | Except.ok (c3, orig1, hit) =>
          if hit = false then Except.error (Fault.missAfterInsert, c3)
          else
            let c3a : SimpleCache := { c3 with originalPacket := none }
            match c3a.sendResponse orig1.makeResponse env with
            | Except.error e => Except.error e
            | Except.ok c4 => Except.ok (c4, true)
      | none =>
        match c2.sendResponse pkt env with
        | Except.error e => Except.error e
        | Except.ok c4 => Except.ok (c4, true)

/-- Source: `SimpleCache::handleFunctional`. Returns the state and the packet
as the call leaves it. -/
def handleFunctional (c : SimpleCache) (pkt : Packet) : Result (SimpleCache × Packet) :=
  match c.accessFunctional pkt with
  | Except.error e => Except.error e
  | Except.ok (c1, pkt1, hit) =>
    if hit then Except.ok (c1, pkt1.makeResponse)
    else Except.ok ({ c1 with memPort := c1.memPort.sendFunctional pkt1 }, pkt1)

/-- The packet `new Packet(pkt->req, MemCmd::ReadReq, blockSize)` of
`accessTiming` after `allocate()`. -/
def upgradePacket (c : SimpleCache) (pkt : Packet) : Packet :=
  { addr := pkt.getBlockAddr c.blockSize, size := c.blockSize, kind := PacketKind.read,
    isResponse := false, data := List.replicate c.blockSize 0 }

/-- Source: `SimpleCache::accessTiming`. -/
def accessTiming (c : SimpleCache) (pkt : Packet) (env : Env) : Result SimpleCache :=
  match c.accessFunctional pkt with
  | Except.error e => Except.error e
  | Except.ok (c1, pkt1, hit) =>
    if hit then
      let c2 : SimpleCache := { c1 with hits := c1.hits + 1 }
      c2.sendResponse pkt1.makeResponse env
    else
      let c2 := { c1 with misses := c1.misses + 1, missTime := env.now }
      if pkt1.addr = pkt1.getBlockAddr c2.blockSize ∧ pkt1.size = c2.blockSize then
        c2.memPortSendPacket pkt1 env.memAccepts
      else if pkt1.addr - pkt1.getBlockAddr c2.blockSize + pkt1.size > c2.blockSize then
        Except.error (Fault.spanMultipleLines, c2)
      else if pkt1.needsResponse = false then Except.error (Fault.assertion, c2)
      else if pkt1.isWrite = false ∧ pkt1.isRead = false then
        Except.error (Fault.unknownUpgradeType, c2)
      else if (c2.upgradePacket pkt1).addr ≠ (c2.upgradePacket pkt1).getBlockAddr c2.blockSize then
        Except.error (Fault.assertion, c2)
      else
        let c3 : SimpleCache := { c2 with originalPacket := some pkt1 }
        c3.memPortSendPacket (c2.upgradePacket pkt1) env.memAccepts

/-- Source: `CPUSidePort::recvTimingReq`, called on `cpuPorts[i]`. -/
def recvTimingReq (c : SimpleCache) (i : Nat) (pkt : Packet) : Result (SimpleCache × Bool) :=
  match c.cpuPorts[i]? with
  | none => Except.error (Fault.noSuchPort, c)
  | some p =>
    if p.blockedPacket.isSome ∨ p.needRetry = true then
      Except.ok ({ c with cpuPorts := c.cpuPorts.set i { p with needRetry := true } }, false)
    else
      match c.handleRequest pkt p.id with
      | Except.error e => Except.error e
      | Except.ok (c1, accepted) =>
        if accepted then Except.ok (c1, true)
        else Except.ok ({ c1 with cpuPorts := c1.cpuPorts.set i { p with needRetry := true } }, false)

/-- Source: `CPUSidePort::recvRespRetry`, called on `cpuPorts[i]`. -/
def recvRespRetry (c : SimpleCache) (i : Nat) (env : Env) : Result SimpleCache :=
  match c.cpuPorts[i]? with
  | none => Except.error (Fault.noSuchPort, c)
  | some p =>
    match p.recvRespRetry env.cpuAccepts with
    | Except.error f => Except.error (f, c)
    | Except.ok p1 => Except.ok { c with cpuPorts := c.cpuPorts.set i p1 }

/-- Source: `MemSidePort::recvReqRetry`, called on `memPort`. -/
def recvReqRetry (c : SimpleCache) (env : Env) : Result SimpleCache :=
  match c.memPort.recvReqRetry env.memAccepts with
  | Except.error f => Except.error (f, c)
  | Except.ok m => Except.ok { c with memPort := m }

end SimpleCache

/-! ## Executions -/

/-- A call the host makes on the cache. -/
inductive Event
  /-- The peer of `cpuPorts[i]` sends a request: `recvTimingReq`. -/
  | cpuReq (i : Nat) (pkt : Packet)
  /-- The scheduler runs the oldest scheduled access event: `accessTiming`. -/
  | fire (env : Env)
  /-- The memory side delivers a response: `recvTimingResp`. -/
  | memResp (pkt : Packet) (env : Env)
  /-- The peer of `cpuPorts[i]` asks for the blocked response: `recvRespRetry`. -/
  | cpuRetry (i : Nat) (env : Env)
  /-- The memory side asks for the blocked request: `recvReqRetry`. -/
  | memRetry (env : Env)
  /-- A functional access: `recvFunctional`. -/
  | functional (pkt : Packet)
deriving DecidableEq

/-- The response `resp` answers the request `req`: same address, size and
kind, marked as a response, and for a write still carrying the written bytes. -/
def answers (req resp : Packet) : Bool :=
  decide (resp.addr = req.addr) && decide (resp.size = req.size) &&
    decide (resp.kind = req.kind) && resp.isResponse &&
    (!req.isWrite || decide (resp.data = req.data))

namespace SimpleCache

/-- The port protocol on the host's side: a request names an existing port,
the scheduler runs only a scheduled event, the memory side answers only a
request it has accepted and not answered, and a retry goes only to a port that
holds a blocked packet. -/
def follows (c : SimpleCache) : Event → Bool
  | Event.cpuReq i _ => decide (i < c.cpuPorts.length)
  | Event.fire _ => !c.events.isEmpty
  | Event.memResp pkt _ => c.memPort.awaiting.any fun req => answers req pkt
  | Event.cpuRetry i _ =>
    match c.cpuPorts[i]? with
    | some p => p.blockedPacket.isSome
    | none => false
  | Event.memRetry _ => c.memPort.blockedPacket.isSome
  | Event.functional _ => true

/-- The memory side forgets the request that `pkt` answers. -/
def answered (c : SimpleCache) (pkt : Packet) : SimpleCache :=
  let m : MemSidePort := { c.memPort with awaiting := c.memPort.awaiting.eraseP fun req => answers req pkt }
  { c with memPort := m }

/-- The call an event makes, and the state it leaves. -/
def exec (c : SimpleCache) : Event → Result SimpleCache
  | Event.cpuReq i pkt =>
    match c.recvTimingReq i pkt with
    | Except.error e => Except.error e
    | Except.ok (c1, _) => Except.ok c1
  | Event.fire env =>
    match c.events with
    | [] => Except.ok c
    | (_, pkt) :: rest =>
      let c1 : SimpleCache := { c with events := rest }
      c1.accessTiming pkt env
  | Event.memResp pkt env =>
    match (c.answered pkt).handleResponse pkt env with
    | Except.error e => Except.error e
    | Except.ok (c1, _) => Except.ok c1
  | Event.cpuRetry i env => c.recvRespRetry i env
  | Event.memRetry env => c.recvReqRetry env
  | Event.functional pkt =>
    match c.handleFunctional pkt with
    | Except.error e => Except.error e
    | Except.ok (c1, _) => Except.ok c1

/-- Runs a sequence of events; `none` when an event breaks the port protocol
or a call does not return. -/
def run : SimpleCache → List Event → Option SimpleCache
  | c, [] => some c
  | c, ev :: rest =>
    if c.follows ev then
      match c.exec ev with
      | Except.error _ => none
      | Except.ok c1 => run c1 rest
    else none

/-- The states a cache built from `params` reaches under a host that follows
the port protocol. -/
def Reachable (params : SimpleCacheParams) (c : SimpleCache) : Prop :=
  ∃ evs : List Event, run (construct params) evs = some c

/-- A sequence of `insert` calls, each with its packet and the host's choices. -/
def insertAll : SimpleCache → List (Packet × Env) → Result SimpleCache
  | c, [] => Except.ok c
  | c, (pkt, env) :: rest =>
    match c.insert pkt env with
    | Except.error e => Except.error e
    | Except.ok c1 => insertAll c1 rest

end SimpleCache

end Gem5

namespace Gem5

/-- The contents of the line of block `a` after the accesses `ps`, starting
from `line`: every write to the block is applied in order, every other access
leaves the line as it is. -/
def latestContents (blkSize a : Nat) (line : List Nat) (ps : List Packet) : List Nat :=
  ps.foldl (fun l p =>
    if p.isWrite = true ∧ p.getBlockAddr blkSize = a then p.writeDataToBlock l blkSize else l) line

namespace SimpleCache

/-- A sequence of accesses, each made by `accessFunctional`. -/
def accessAll : SimpleCache → List Packet → Result SimpleCache
  | c, [] => Except.ok c
  | c, pkt :: rest =>
    match c.accessFunctional pkt with
    | Except.error e => Except.error e
    | Except.ok (c1, _, _) => accessAll c1 rest

end SimpleCache

end Gem5

namespace Gem5

namespace SimpleCache

/-- The number of retry notifications each CPU-side port has emitted. -/
def retryCounts (c : SimpleCache) : List Nat :=
  c.cpuPorts.map CPUSidePort.retries

end SimpleCache

end Gem5

namespace Gem5

namespace SimpleCache

/-- The bookkeeping that every reachable state keeps: at most one access event
is scheduled and only while the controller is busy; the memory side owes at
most one response and only while the controller is busy with no event
scheduled; a blocked request that needs a response is the forwarded miss; and
the counters `hits + misses` equal the replies handed over, plus one while a
counted miss waits for the memory side. -/
structure Coherent (c : SimpleCache) : Prop where
  eventsBusy : c.events ≠ [] → c.blocked = true
  eventsLe : c.events.length ≤ 1
  awaitingBusy : c.memPort.awaiting ≠ [] → c.blocked = true ∧ c.events = []
  awaitingLe : c.memPort.awaiting.length ≤ 1
  blockedReq : ∀ p, c.memPort.blockedPacket = some p → p.needsResponse = true →
    c.blocked = true ∧ c.events = [] ∧ c.memPort.awaiting = []
  count : c.hits + c.misses =
    c.completed + (if c.blocked = true ∧ c.events = [] then 1 else 0)

end SimpleCache

end Gem5

namespace Gem5

namespace SimpleCache

/-- The `id` members of the CPU-side ports, in the order of `cpuPorts`. -/
def portIds (c : SimpleCache) : List Int :=
  c.cpuPorts.map CPUSidePort.id

/-- The request `req` is in flight on the memory side: the peer has accepted it
and owes its response, or it needs a response and waits in the blocked slot of
the memory-side port. -/
def inFlight (c : SimpleCache) (req : Packet) : Prop :=
  req ∈ c.memPort.awaiting ∨ (c.memPort.blockedPacket = some req ∧ req.needsResponse = true)

/-- How the controller, its ports and the request in flight hang together in
every reachable state of a cache built from `params`: the ports keep the ids
the constructor gave them; the controller is busy exactly when a waiting port
is recorded, and that port exists and holds no blocked packet; an original
packet is kept only while the busy controller waits for the memory side, and
it is a read or a write; the memory-side port holds no blocked packet while
the memory side owes a response; and a request in flight is one whole aligned
block that is not stored and is the block of the original packet, if any. -/
structure Tracked (params : SimpleCacheParams) (c : SimpleCache) : Prop where
  ids : c.portIds = (List.range params.port_cpu_side_connection_count).map Int.ofNat
  busyIff : c.blocked = true ↔ c.waitingPortId ≠ -1
  waiting : c.blocked = true → 0 ≤ c.waitingPortId ∧
    ∃ p, c.cpuPorts[c.waitingPortId.toNat]? = some p ∧ p.blockedPacket = none
  original : ∀ o, c.originalPacket = some o →
    c.blocked = true ∧ c.events = [] ∧ (o.kind = PacketKind.read ∨ o.kind = PacketKind.write)
  memFree : c.memPort.awaiting ≠ [] → c.memPort.blockedPacket = none
  flight : ∀ req, c.inFlight req →
    req.addr = req.getBlockAddr c.blockSize ∧ req.size = c.blockSize ∧
      CacheStore.find c.cacheStore req.addr = none ∧
      ∀ o, c.originalPacket = some o → o.getBlockAddr c.blockSize = req.addr

end SimpleCache

end Gem5

/-! ## Concrete inputs -/

namespace Gem5

/-- A cache of two 4-byte lines with two CPU-side ports. -/
def demoParams : SimpleCacheParams :=
  { latency := 1, cacheLineSize := 4, size := 8, port_cpu_side_connection_count := 2 }

/-- A host whose peers accept every packet. -/
def demoEnv : Env :=
  { now := 0, rnd := 0, memAccepts := true, cpuAccepts := true }

/-- The response to a read of the 4-byte block at `a`, carrying `d`. -/
def demoResp (a : Nat) (d : List Nat) : Packet :=
  { addr := a, size := 4, kind := PacketKind.read, isResponse := true, data := d }

/-- Three insertions into the two-line cache. -/
def demoInserts : List (Packet × Env) :=
  [(demoResp 0 [1, 2, 3, 4], demoEnv), (demoResp 4 [5, 6, 7, 8], demoEnv),
   (demoResp 8 [9, 10, 11, 12], demoEnv)]

/-- The state a result carries, returned or reached at the fault. -/
def stateOf : Result SimpleCache → SimpleCache
  | Except.ok c => c
  | Except.error (_, c) => c

/-- The two-line cache holding one block. -/
def demoOne : SimpleCache :=
  stateOf ((SimpleCache.construct demoParams).insertAll (demoInserts.take 1))

/-- The two-line cache holding two blocks: it is full. -/
def demoFull : SimpleCache :=
  stateOf ((SimpleCache.construct demoParams).insertAll (demoInserts.take 2))

/-- The two-line cache after the three insertions. -/
def demoAfter : SimpleCache :=
  stateOf ((SimpleCache.construct demoParams).insertAll demoInserts)

/-- The state the two-line cache reaches by a sequence of events (the initial
state when the sequence is no execution). -/
def demoRun (evs : List Event) : SimpleCache :=
  ((SimpleCache.construct demoParams).run evs).getD (SimpleCache.construct demoParams)

/-- A write of the whole block 0. -/
def demoWrite : Packet :=
  { addr := 0, size := 4, kind := PacketKind.write, isResponse := false, data := [1, 2, 3, 4] }

/-- A read of the whole block 0. -/
def demoRead : Packet :=
  { addr := 0, size := 4, kind := PacketKind.read, isResponse := false, data := [0, 0, 0, 0] }

/-- The write of block 0 has missed and waits for the memory side. -/
def demoMissWait : SimpleCache :=
  demoRun [Event.cpuReq 0 demoWrite, Event.fire demoEnv]

/-- The memory side is delivering the response to the write of block 0. -/
def demoAnswered : SimpleCache :=
  demoMissWait.answered demoWrite.makeResponse

/-- The write of block 0 has been answered and the line is stored. -/
def demoWritten : SimpleCache :=
  demoRun [Event.cpuReq 0 demoWrite, Event.fire demoEnv,
    Event.memResp demoWrite.makeResponse demoEnv]

/-- After the write, port 1 has asked for a read of block 0. -/
def demoReadPending : SimpleCache :=
  demoRun [Event.cpuReq 0 demoWrite, Event.fire demoEnv,
    Event.memResp demoWrite.makeResponse demoEnv, Event.cpuReq 1 demoRead]

/-- A two-byte write into the middle of block 4. -/
def demoSmallWrite : Packet :=
  { addr := 5, size := 2, kind := PacketKind.write, isResponse := false, data := [9, 8] }

/-- The block 4 as the memory side returns it. -/
def demoFetched : Packet :=
  { addr := 4, size := 4, kind := PacketKind.read, isResponse := true, data := [5, 6, 7, 8] }

/-- The full two-line cache after the two-byte write has hit block 4. -/
def demoFullWritten : SimpleCache :=
  stateOf (demoFull.accessAll [demoSmallWrite])

/-- The cache after block 8 has replaced the written block 4. -/
def demoEvicted : SimpleCache :=
  stateOf (demoFullWritten.insert (demoResp 8 [9, 10, 11, 12]) demoEnv)

/-- Port 1 as constructed. -/
def demoPort1 : CPUSidePort :=
  { id := 1, blockedPacket := none, needRetry := false, sentResp := [], retries := 0 }

/-- A host whose memory side refuses the packet it is offered. -/
def demoEnvRefuse : Env :=
  { now := 0, rnd := 0, memAccepts := false, cpuAccepts := true }

/-- A read of the whole block at `a`. -/
def demoReadAt (a : Nat) : Packet :=
  { addr := a, size := 4, kind := PacketKind.read, isResponse := false, data := [0, 0, 0, 0] }

/-- An execution that fills the two-line cache with blocks 0 and 4, then
fetches block 8: the insertion evicts a block and the memory side refuses the
writeback. Port 0 then asks for block 12. -/
def demoRefusedEvents : List Event :=
  [Event.cpuReq 0 (demoReadAt 0), Event.fire demoEnv,
   Event.memResp (demoResp 0 [1, 2, 3, 4]) demoEnv,
   Event.cpuReq 0 (demoReadAt 4), Event.fire demoEnv,
   Event.memResp (demoResp 4 [5, 6, 7, 8]) demoEnv,
   Event.cpuReq 0 (demoReadAt 8), Event.fire demoEnv,
   Event.memResp (demoResp 8 [9, 10, 11, 12]) demoEnvRefuse,
   Event.cpuReq 0 (demoReadAt 12)]

/-- The state after `demoRefusedEvents`: the memory-side port still holds the
refused writeback and the read of block 12 is scheduled. -/
def demoRefused : SimpleCache :=
  demoRun demoRefusedEvents

/-- The state in which the scheduler runs the read of block 12. -/
def demoRefusedAccess : SimpleCache :=
  { demoRefused with events := [] }

/-- A four-byte read at address 6: it runs over the end of block 4. -/
def demoSpanning : Packet :=
  { addr := 6, size := 4, kind := PacketKind.read, isResponse := false, data := [0, 0, 0, 0] }

/-- A host whose CPU side refuses the response it is offered. -/
def demoEnvBusyCpu : Env :=
  { now := 0, rnd := 0, memAccepts := true, cpuAccepts := false }

/-- An execution in which port 0 refuses the response to its read of block 0
and is then refused a new request, after which port 1 has a request accepted:
the controller is busy for port 1 while port 0 holds a blocked response and
waits for a retry. -/
def demoBusyEvents : List Event :=
  [Event.cpuReq 0 (demoReadAt 0), Event.fire demoEnv,
   Event.memResp (demoResp 0 [1, 2, 3, 4]) demoEnvBusyCpu,
   Event.cpuReq 0 (demoReadAt 4), Event.cpuReq 1 (demoReadAt 4)]

/-- The state after `demoBusyEvents`. -/
def demoBusy : SimpleCache :=
  demoRun demoBusyEvents

/-- The state after port 0 has then asked for its blocked response. -/
def demoBusyRetried : SimpleCache :=
  stateOf (demoBusy.exec (Event.cpuRetry 0 demoEnv))

/-- An execution in which port 1 is refused while the read of port 0 waits for
the memory side. -/
def demoWaitingEvents : List Event :=
  [Event.cpuReq 0 (demoReadAt 0), Event.cpuReq 1 (demoReadAt 0), Event.fire demoEnv]

/-- The state after `demoWaitingEvents`. -/
def demoWaiting : SimpleCache :=
  demoRun demoWaitingEvents

/-- The state after the memory side has then answered. -/
def demoWaitingDone : SimpleCache :=
  stateOf (demoWaiting.exec (Event.memResp (demoResp 0 [1, 2, 3, 4]) demoEnv))

/-- An execution that stores block 4, after which port 0 sends the four-byte
read at address 6, which runs over the end of block 4. -/
def demoSpanEvents : List Event :=
  [Event.cpuReq 0 (demoReadAt 4), Event.fire demoEnv,
   Event.memResp (demoResp 4 [5, 6, 7, 8]) demoEnv, Event.cpuReq 0 demoSpanning]

/-- The state after `demoSpanEvents`. -/
def demoSpanPending : SimpleCache :=
  demoRun demoSpanEvents

/-- The state after the scheduler has then run the access. -/
def demoSpanDone : SimpleCache :=
  stateOf (demoSpanPending.exec (Event.fire demoEnv))

/-- A cache whose size is less than one line: its capacity is 0. -/
def demoTinyParams : SimpleCacheParams :=
  { latency := 1, cacheLineSize := 4, size := 2, port_cpu_side_connection_count := 1 }

/-- The cache of capacity 0 after the read of block 0 has missed and has been
accepted by the memory side. -/
def demoTinyWait : SimpleCache :=
  ((SimpleCache.construct demoTinyParams).run
    [Event.cpuReq 0 (demoReadAt 0), Event.fire demoEnv]).getD (SimpleCache.construct demoTinyParams)

end Gem5

namespace Gem5

/-! ## The block store: lemmas -/

namespace CacheStore

theorem find_isSome_iff (s : CacheStore) (a : Nat) : (find s a).isSome = true ↔ a ∈ keys s := by
  induction s with
  | nil => simp [find, keys]
  | cons e rest ih =>
    obtain ⟨k, l⟩ := e
    by_cases hk : k = a
    · simp [find, keys, hk]
    · have hk2 : ¬ a = k := fun h => hk h.symm
      simpa [find, keys, hk, hk2] using ih

theorem find_eq_none_iff (s : CacheStore) (a : Nat) : find s a = none ↔ a ∉ keys s := by
  rw [← find_isSome_iff]
  cases find s a <;> simp

theorem keys_setLine (s : CacheStore) (a : Nat) (line : List Nat) :
    keys (setLine s a line) = keys s := by
  induction s with
  | nil => simp [setLine]
  | cons e rest ih =>
    obtain ⟨k, l⟩ := e
    by_cases hk : k = a
    · simp [setLine, keys, hk]
    · simp only [setLine, hk, if_false, keys, List.map_cons] at ih ⊢
      rw [ih]

theorem length_setLine (s : CacheStore) (a : Nat) (line : List Nat) :
    (setLine s a line).length = s.length := by
  have h := congrArg List.length (keys_setLine s a line)
  simpa [keys] using h

theorem find_setLine_self (s : CacheStore) (a : Nat) (line : List Nat)
    (h : a ∈ keys s) : find (setLine s a line) a = some line := by
  induction s with
  | nil => simp [keys] at h
  | cons e rest ih =>
    obtain ⟨k, l⟩ := e
    by_cases hk : k = a
    · simp [setLine, find, hk]
    · have h2 : a ∈ keys rest := by
        have hk2 : ¬ a = k := fun h => hk h.symm
        simpa [keys, hk2] using h
      simp [setLine, find, hk, ih h2]

theorem find_setLine_ne (s : CacheStore) (a b : Nat) (line : List Nat) (h : b ≠ a) :
    find (setLine s a line) b = find s b := by
  induction s with
  | nil => simp [setLine]
  | cons e rest ih =>
    obtain ⟨k, l⟩ := e
    by_cases hk : k = a
    · have hkb : ¬ k = b := fun h2 => h (h2.symm.trans hk)
      have hab : ¬ a = b := fun h2 => h h2.symm
      simp [setLine, find, hk, hab]
    · by_cases hkb : k = b
      · subst hkb
        simp [setLine, find, hk]
      · simp [setLine, find, hk, hkb, ih]

theorem find_erase_ne (s : CacheStore) (a b : Nat) (h : b ≠ a) :
    find (erase s a) b = find s b := by
  induction s with
  | nil => simp [erase]
  | cons e rest ih =>
    obtain ⟨k, l⟩ := e
    by_cases hk : k = a
    · have hab : ¬ a = b := fun h2 => h h2.symm
      simp [erase, find, hk, hab]
    · by_cases hkb : k = b
      · subst hkb
        simp [erase, find, hk]
      · simp [erase, find, hk, hkb, ih]

theorem length_erase (s : CacheStore) (a : Nat) (h : a ∈ keys s) :
    (erase s a).length + 1 = s.length := by
  induction s with
  | nil => simp [keys] at h
  | cons e rest ih =>
    obtain ⟨k, l⟩ := e
    by_cases hk : k = a
    · simp [erase, hk]
    · have h2 : a ∈ keys rest := by
        have hk2 : ¬ a = k := fun h => hk h.symm
        simpa [keys, hk2] using h
      simp [erase, hk, ih h2]

theorem keys_erase_subset (s : CacheStore) (a b : Nat) (h : b ∈ keys (erase s a)) : b ∈ keys s := by
  induction s with
  | nil => simp [erase, keys] at h
  | cons e rest ih =>
    obtain ⟨k, l⟩ := e
    by_cases hk : k = a
    · simp only [erase, hk, if_true] at h
      simp [keys] at h ⊢
      exact Or.inr h
    · simp only [erase, hk, if_false, keys, List.map_cons, List.mem_cons] at h ⊢
      rcases h with h | h
      · exact Or.inl h
      · exact Or.inr (ih h)

theorem nodup_erase (s : CacheStore) (a : Nat) (h : (keys s).Nodup) : (keys (erase s a)).Nodup := by
  induction s with
  | nil => simp [erase, keys]
  | cons e rest ih =>
    obtain ⟨k, l⟩ := e
    have hr : (keys rest).Nodup := (List.nodup_cons.mp h).2
    have hk0 : k ∉ keys rest := (List.nodup_cons.mp h).1
    by_cases hk : k = a
    · simpa [erase, hk] using hr
    · simp only [erase, hk, if_false]
      exact List.nodup_cons.mpr ⟨fun hm => hk0 (keys_erase_subset rest a k hm), ih hr⟩

theorem find_erase_self (s : CacheStore) (a : Nat) (h : (keys s).Nodup) :
    find (erase s a) a = none := by
  induction s with
  | nil => simp [erase, find]
  | cons e rest ih =>
    obtain ⟨k, l⟩ := e
    have hr : (keys rest).Nodup := (List.nodup_cons.mp h).2
    have hk0 : k ∉ keys rest := (List.nodup_cons.mp h).1
    by_cases hk : k = a
    · subst hk
      simpa [erase] using (find_eq_none_iff rest k).mpr hk0
    · simp [erase, find, hk, ih hr]

theorem mem_keys_of_mem (s : CacheStore) (e : Nat × List Nat) (h : e ∈ s) : e.1 ∈ keys s :=
  List.mem_map_of_mem Prod.fst h

theorem find_of_mem (s : CacheStore) (e : Nat × List Nat) (hn : (keys s).Nodup) (h : e ∈ s) :
    find s e.1 = some e.2 := by
  induction s with
  | nil => simp at h
  | cons x rest ih =>
    obtain ⟨k, l⟩ := x
    have hr : (keys rest).Nodup := (List.nodup_cons.mp hn).2
    have hk0 : k ∉ keys rest := (List.nodup_cons.mp hn).1
    rcases List.mem_cons.mp h with h1 | h1
    · subst h1
      simp [find]
    · have hne : ¬ k = e.1 := fun hk => hk0 (hk ▸ mem_keys_of_mem rest e h1)
      simp [find, hne, ih hr h1]

theorem assign_of_absent (s : CacheStore) (a : Nat) (line : List Nat) (h : find s a = none) :
    assign s a line = (a, line) :: s := by
  simp [assign, h]

end CacheStore

end Gem5

namespace Gem5

/-! ## The ports: lemmas -/

theorem MemSidePort.sendPacket_ok (m m1 : MemSidePort) (pkt : Packet) (accepted : Bool)
    (h : m.sendPacket pkt accepted = Except.ok m1) :
    m.blockedPacket = none ∧ m1.sentReq = m.sentReq ++ [pkt] ∧
      m1.sentFunctional = m.sentFunctional ∧
      m1.blockedPacket = (if accepted then none else some pkt) := by
  unfold MemSidePort.sendPacket at h
  cases hb : m.blockedPacket with
  | some q => simp [hb] at h
  | none =>
    cases accepted with
    | true =>
      simp only [hb, Option.isSome_none, if_true, Bool.false_eq_true, if_false,
        Except.ok.injEq] at h
      subst h
      simp [hb]
    | false =>
      simp only [hb, Option.isSome_none, Bool.false_eq_true, if_false, Except.ok.injEq] at h
      subst h
      simp

theorem MemSidePort.sendPacket_free (m : MemSidePort) (pkt : Packet) (accepted : Bool)
    (h : m.blockedPacket = none) : ∃ m1, m.sendPacket pkt accepted = Except.ok m1 := by
  unfold MemSidePort.sendPacket
  cases accepted <;> simp [h]

namespace SimpleCache

/-! ## `insert`: lemmas -/

theorem evict_ok (c c1 : SimpleCache) (env : Env) (h : c.evict env = Except.ok c1) :
    ∃ block m, c.cacheStore[env.rnd % c.cacheStore.length]? = some block ∧
      c.memPort.sendPacket (c.writebackPacket block) env.memAccepts = Except.ok m ∧
      c1 = { c with memPort := m, cacheStore := CacheStore.erase c.cacheStore block.1 } := by
  unfold evict at h
  cases hg : c.cacheStore[env.rnd % c.cacheStore.length]? with
  | none => simp [hg] at h
  | some block =>
    simp only [hg, memPortSendPacket] at h
    cases hs : c.memPort.sendPacket (c.writebackPacket block) env.memAccepts with
    | error f => simp [hs] at h
    | ok m =>
      simp only [hs, Except.ok.injEq] at h
      exact ⟨block, m, rfl, hs, h.symm⟩

theorem insert_ok (c c1 : SimpleCache) (pkt : Packet) (env : Env)
    (h : c.insert pkt env = Except.ok c1) :
    pkt.addr = pkt.getBlockAddr c.blockSize ∧ CacheStore.find c.cacheStore pkt.addr = none ∧
      pkt.isResponse = true ∧
      ((c.cacheStore.length < c.capacity ∧ c1 = c.store pkt) ∨
        (c.capacity ≤ c.cacheStore.length ∧ ∃ c0, c.evict env = Except.ok c0 ∧ c1 = c0.store pkt)) := by
  unfold insert at h
  by_cases h1 : pkt.addr = pkt.getBlockAddr c.blockSize
  · cases h2 : CacheStore.find c.cacheStore pkt.addr with
    | some l => simp [h2, ← h1] at h
    | none =>
      cases h3 : pkt.isResponse with
      | false => simp [h2, h3, ← h1] at h
      | true =>
        refine ⟨h1, rfl, rfl, ?_⟩
        by_cases h4 : c.cacheStore.length ≥ c.capacity
        · right
          refine ⟨h4, ?_⟩
          cases h5 : c.evict env with
          | error e => simp [h2, h3, ← h1, h4, h5] at h
          | ok c0 =>
            simp [h2, h3, ← h1, h4, h5] at h
            exact ⟨c0, rfl, h.symm⟩
        · left
          simp [h2, h3, ← h1, h4] at h
          exact ⟨by omega, h.symm⟩
  · simp [h1] at h

end SimpleCache

end Gem5

namespace Gem5

namespace CacheStore

theorem keys_erase (s : CacheStore) (a : Nat) : keys (erase s a) = (keys s).erase a := by
  induction s with
  | nil => simp [erase, keys]
  | cons e rest ih =>
    obtain ⟨k, l⟩ := e
    by_cases hk : k = a
    · simp [erase, keys, hk]
    · simp only [erase, hk, if_false, keys, List.map_cons] at ih ⊢
      rw [ih, List.erase_cons_tail]
      simpa using hk

theorem find_erase_none (s : CacheStore) (a b : Nat) (h : find s b = none) :
    find (erase s a) b = none := by
  rw [find_eq_none_iff] at h ⊢
  exact fun hm => h (keys_erase_subset s a b hm)

end CacheStore

namespace SimpleCache

theorem store_of_absent (c : SimpleCache) (pkt : Packet)
    (h : CacheStore.find c.cacheStore pkt.addr = none) :
    (c.store pkt).cacheStore =
      (pkt.addr, pkt.writeDataToBlock (List.replicate c.blockSize 0) c.blockSize) :: c.cacheStore := by
  simp [store, CacheStore.assign_of_absent _ _ _ h]

/-- What a returning `insert` leaves behind, in full. -/
theorem insert_ok_state (c c1 : SimpleCache) (pkt : Packet) (env : Env)
    (h : c.insert pkt env = Except.ok c1) :
    pkt.addr = pkt.getBlockAddr c.blockSize ∧ CacheStore.find c.cacheStore pkt.addr = none ∧
      pkt.isResponse = true ∧
      ((c.cacheStore.length < c.capacity ∧
          c1 = { c with cacheStore :=
            (pkt.addr, pkt.writeDataToBlock (List.replicate c.blockSize 0) c.blockSize) ::
              c.cacheStore }) ∨
        (c.capacity ≤ c.cacheStore.length ∧ ∃ block m,
          c.cacheStore[env.rnd % c.cacheStore.length]? = some block ∧
          c.memPort.sendPacket (c.writebackPacket block) env.memAccepts = Except.ok m ∧
          c1 = { c with memPort := m, cacheStore :=
            (pkt.addr, pkt.writeDataToBlock (List.replicate c.blockSize 0) c.blockSize) ::
              CacheStore.erase c.cacheStore block.1 })) := by
  obtain ⟨h1, h2, h3, h4⟩ := insert_ok c c1 pkt env h
  refine ⟨h1, h2, h3, ?_⟩
  rcases h4 with ⟨hlt, hc⟩ | ⟨hge, c0, he, hc⟩
  · left
    refine ⟨hlt, ?_⟩
    rw [hc]
    simp [store, CacheStore.assign_of_absent _ _ _ h2]
  · right
    obtain ⟨block, m, hg, hs, h0⟩ := evict_ok c c0 env he
    refine ⟨hge, block, m, hg, hs, ?_⟩
    have hab : CacheStore.find c0.cacheStore pkt.addr = none := by
      rw [h0]
      exact CacheStore.find_erase_none _ _ _ h2
    rw [hc]
    have := store_of_absent c0 pkt hab
    subst h0
    simp [store, CacheStore.assign_of_absent _ _ _ hab]

theorem insert_length (c c1 : SimpleCache) (pkt : Packet) (env : Env)
    (h : c.insert pkt env = Except.ok c1) :
    c1.capacity = c.capacity ∧ c1.blockSize = c.blockSize ∧
      c1.cacheStore.length =
        (if c.cacheStore.length < c.capacity then c.cacheStore.length + 1 else c.cacheStore.length) := by
  obtain ⟨_, _, _, h4⟩ := insert_ok_state c c1 pkt env h
  rcases h4 with ⟨hlt, hc⟩ | ⟨hge, block, m, hg, _, hc⟩
  · subst hc
    simp [hlt]
  · subst hc
    have hmem : block.1 ∈ CacheStore.keys c.cacheStore :=
      CacheStore.mem_keys_of_mem _ _ (List.getElem?_mem hg)
    have hl := CacheStore.length_erase c.cacheStore block.1 hmem
    have : ¬ c.cacheStore.length < c.capacity := by omega
    simp [this, hl]

theorem insertAll_length (inputs : List (Packet × Env)) (c c1 : SimpleCache)
    (hle : c.cacheStore.length ≤ c.capacity) (h : insertAll c inputs = Except.ok c1) :
    c1.capacity = c.capacity ∧ c1.cacheStore.length ≤ c1.capacity := by
  induction inputs generalizing c with
  | nil =>
    simp only [insertAll, Except.ok.injEq] at h
    subst h
    exact ⟨rfl, hle⟩
  | cons x rest ih =>
    obtain ⟨pkt, env⟩ := x
    simp only [insertAll] at h
    cases hi : c.insert pkt env with
    | error e => simp [hi] at h
    | ok c0 =>
      simp only [hi] at h
      obtain ⟨hcap, _, hlen⟩ := insert_length c c0 pkt env hi
      have hle0 : c0.cacheStore.length ≤ c0.capacity := by
        rw [hlen, hcap]
        split <;> omega
      obtain ⟨h1, h2⟩ := ih c0 hle0 h
      exact ⟨h1.trans hcap, h2⟩

end SimpleCache

end Gem5

namespace Gem5

/-! ## Packet data: lemmas -/

namespace Packet

theorem length_writeDataToBlock (pkt : Packet) (blk : List Nat) (blkSize : Nat) :
    (pkt.writeDataToBlock blk blkSize).length = blkSize := by
  simp [writeDataToBlock]

theorem getElem?_writeDataToBlock (pkt : Packet) (blk : List Nat) (blkSize i : Nat)
    (hi : i < blkSize) :
    (pkt.writeDataToBlock blk blkSize)[i]? =
      some (if pkt.getOffset blkSize ≤ i ∧ i < pkt.getOffset blkSize + pkt.size then
        pkt.data.getD (i - pkt.getOffset blkSize) 0 else blk.getD i 0) := by
  simp [writeDataToBlock, List.getElem?_range hi]

theorem getOffset_eq_zero (pkt : Packet) (blkSize : Nat)
    (h : pkt.addr = pkt.getBlockAddr blkSize) (hsz : pkt.size = blkSize) (hd : pkt.data.length = pkt.size) :
    pkt.getOffset blkSize = 0 ∨ pkt.size = 0 := by
  unfold getBlockAddr at h
  unfold getOffset
  by_cases h0 : blkSize = 0
  · right
    omega
  · left
    have : pkt.addr % blkSize ≤ pkt.addr := Nat.mod_le _ _
    omega

/-- A write of a whole aligned block replaces the line by the packet's data. -/
theorem writeDataToBlock_full (pkt : Packet) (blk : List Nat) (blkSize : Nat)
    (h : pkt.addr = pkt.getBlockAddr blkSize) (hsz : pkt.size = blkSize)
    (hd : pkt.data.length = pkt.size) :
    pkt.writeDataToBlock blk blkSize = pkt.data := by
  apply List.ext_getElem?
  intro i
  by_cases hi : i < blkSize
  · rw [getElem?_writeDataToBlock pkt blk blkSize i hi]
    rcases getOffset_eq_zero pkt blkSize h hsz hd with h0 | h0
    · have hi2 : i < pkt.data.length := by omega
      have hc : pkt.getOffset blkSize ≤ i ∧ i < pkt.getOffset blkSize + pkt.size := by
        rw [h0]
        omega
      rw [if_pos hc, h0]
      simp [List.getElem?_eq_getElem hi2]
    · omega
  · have h1 : (pkt.writeDataToBlock blk blkSize).length ≤ i := by
      rw [length_writeDataToBlock]
      omega
    have h2 : pkt.data.length ≤ i := by omega
    rw [List.getElem?_eq_none h1, List.getElem?_eq_none h2]

/-- A read of a whole aligned block returns the line. -/
theorem setDataFromBlock_full (pkt : Packet) (blk : List Nat) (blkSize : Nat)
    (h : pkt.addr = pkt.getBlockAddr blkSize) (hsz : pkt.size = blkSize)
    (hb : blk.length = blkSize) :
    (pkt.setDataFromBlock blk blkSize).data = blk := by
  apply List.ext_getElem?
  intro i
  have hoff : pkt.getOffset blkSize = 0 ∨ pkt.size = 0 := by
    unfold getBlockAddr at h
    unfold getOffset
    by_cases h0 : blkSize = 0
    · right
      omega
    · left
      have : pkt.addr % blkSize ≤ pkt.addr := Nat.mod_le _ _
      omega
  by_cases hi : i < blkSize
  · rcases hoff with h0 | h0
    · have hi1 : i < pkt.size := by omega
      have hi2 : i < blk.length := by omega
      simp [setDataFromBlock, List.getElem?_range hi1, h0, List.getElem?_eq_getElem hi2]
    · omega
  · have h2 : blk.length ≤ i := by omega
    have h1 : (pkt.setDataFromBlock blk blkSize).data.length ≤ i := by
      simp [setDataFromBlock]
      omega
    rw [List.getElem?_eq_none h1, List.getElem?_eq_none h2]

end Packet

end Gem5

namespace Gem5

namespace SimpleCache

/-! ## The handlers: what a returning call leaves behind -/

theorem accessFunctional_miss (c : SimpleCache) (pkt : Packet)
    (h : CacheStore.find c.cacheStore (pkt.getBlockAddr c.blockSize) = none) :
    c.accessFunctional pkt = Except.ok (c, pkt, false) := by
  simp [accessFunctional, h]

theorem accessFunctional_hit_write (c : SimpleCache) (pkt : Packet) (line : List Nat)
    (h : CacheStore.find c.cacheStore (pkt.getBlockAddr c.blockSize) = some line)
    (hw : pkt.isWrite = true) :
    c.accessFunctional pkt =
      Except.ok ({ c with cacheStore := CacheStore.setLine c.cacheStore (pkt.getBlockAddr c.blockSize) (pkt.writeDataToBlock line c.blockSize) },
        pkt, true) := by
  simp [accessFunctional, h, hw]

theorem accessFunctional_hit_read (c : SimpleCache) (pkt : Packet) (line : List Nat)
    (h : CacheStore.find c.cacheStore (pkt.getBlockAddr c.blockSize) = some line)
    (hw : pkt.isWrite = false) (hr : pkt.isRead = true) :
    c.accessFunctional pkt = Except.ok (c, pkt.setDataFromBlock line c.blockSize, true) := by
  simp [accessFunctional, h, hw, hr]

theorem insert_frame (c c1 : SimpleCache) (pkt : Packet) (env : Env)
    (h : c.insert pkt env = Except.ok c1) :
    c1.latency = c.latency ∧ c1.blockSize = c.blockSize ∧ c1.capacity = c.capacity ∧
      c1.blocked = c.blocked ∧ c1.originalPacket = c.originalPacket ∧
      c1.waitingPortId = c.waitingPortId ∧ c1.cpuPorts = c.cpuPorts ∧
      c1.missTime = c.missTime ∧ c1.hits = c.hits ∧ c1.misses = c.misses ∧
      c1.missLatency = c.missLatency ∧ c1.events = c.events ∧ c1.completed = c.completed := by
  obtain ⟨_, _, _, h4⟩ := insert_ok_state c c1 pkt env h
  rcases h4 with ⟨_, hc⟩ | ⟨_, block, m, _, _, hc⟩ <;> subst hc <;> simp

theorem insert_find_self (c c1 : SimpleCache) (pkt : Packet) (env : Env)
    (h : c.insert pkt env = Except.ok c1) :
    CacheStore.find c1.cacheStore pkt.addr =
      some (pkt.writeDataToBlock (List.replicate c.blockSize 0) c.blockSize) := by
  obtain ⟨_, _, _, h4⟩ := insert_ok_state c c1 pkt env h
  rcases h4 with ⟨_, hc⟩ | ⟨_, block, m, _, _, hc⟩ <;> subst hc <;> simp [CacheStore.find]

theorem sendResponse_ok (c c1 : SimpleCache) (pkt : Packet) (env : Env)
    (h : c.sendResponse pkt env = Except.ok c1) :
    c.blocked = true ∧ 0 ≤ c.waitingPortId ∧ ∃ p p1,
      c.cpuPorts[c.waitingPortId.toNat]? = some p ∧
      p.sendPacket pkt env.cpuAccepts = Except.ok p1 ∧
      c1 = { c with blocked := false, waitingPortId := -1,
                    cpuPorts := (c.cpuPorts.set c.waitingPortId.toNat p1).map CPUSidePort.trySendRetry,
                    completed := c.completed + 1 } := by
  unfold sendResponse at h
  cases hb : c.blocked with
  | false => simp [hb] at h
  | true =>
    simp only [hb, Bool.true_eq_false, if_false] at h
    by_cases hp : c.waitingPortId < 0
    · simp [hp] at h
    · simp only [hp, if_false] at h
      cases hg : c.cpuPorts[c.waitingPortId.toNat]? with
      | none => simp [hg] at h
      | some p =>
        simp only [hg] at h
        cases hs : p.sendPacket pkt env.cpuAccepts with
        | error f => simp [hs] at h
        | ok p1 =>
          simp only [hs, Except.ok.injEq] at h
          exact ⟨rfl, by omega, p, p1, rfl, hs, by rw [← h]⟩

theorem sendResponse_frame (c c1 : SimpleCache) (pkt : Packet) (env : Env)
    (h : c.sendResponse pkt env = Except.ok c1) :
    c1.latency = c.latency ∧ c1.blockSize = c.blockSize ∧ c1.capacity = c.capacity ∧
      c1.memPort = c.memPort ∧ c1.originalPacket = c.originalPacket ∧
      c1.cacheStore = c.cacheStore ∧ c1.missTime = c.missTime ∧ c1.hits = c.hits ∧
      c1.misses = c.misses ∧ c1.missLatency = c.missLatency ∧ c1.events = c.events ∧
      c1.completed = c.completed + 1 ∧ c1.blocked = false ∧ c1.waitingPortId = -1 ∧
      c.blocked = true := by
  obtain ⟨hb, _, p, p1, _, _, hc⟩ := sendResponse_ok c c1 pkt env h
  subst hc
  simp [hb]

/-- Without a pending original packet `handleResponse` is `insert` followed by
`sendResponse` of the arriving packet. -/
theorem handleResponse_plain_ok (c c1 : SimpleCache) (pkt : Packet) (env : Env) (b : Bool)
    (ho : c.originalPacket = none) (h : c.handleResponse pkt env = Except.ok (c1, b)) :
    b = true ∧ c.blocked = true ∧ ∃ c0, c.insert pkt env = Except.ok c0 ∧
      sendResponse { c0 with missLatency := c0.missLatency ++ [env.now - c0.missTime] } pkt env =
        Except.ok c1 := by
  unfold handleResponse at h
  cases hb : c.blocked with
  | false => simp [hb] at h
  | true =>
    simp only [hb, Bool.true_eq_false, if_false] at h
    cases hi : c.insert pkt env with
    | error e => simp [hi] at h
    | ok c0 =>
      have ho0 : c0.originalPacket = none := by
        rw [(insert_frame c c0 pkt env hi).2.2.2.2.1, ho]
      simp only [hi] at h
      split at h
      · rename_i orig heq
        simp [ho0] at heq
      · cases hs : sendResponse { c0 with missLatency := c0.missLatency ++ [env.now - c0.missTime] }
            pkt env with
        | error e => simp [hs] at h
        | ok c4 =>
          simp only [hs, Except.ok.injEq, Prod.mk.injEq] at h
          exact ⟨h.2.symm, rfl, c0, rfl, by rw [← h.1, hs]⟩

end SimpleCache

end Gem5

namespace Gem5

namespace SimpleCache

theorem accessTiming_of_hit (c c1 : SimpleCache) (pkt pkt1 : Packet) (env : Env)
    (h : c.accessFunctional pkt = Except.ok (c1, pkt1, true)) :
    c.accessTiming pkt env =
      sendResponse { c1 with hits := c1.hits + 1 } pkt1.makeResponse env := by
  simp [accessTiming, h]

theorem getBlockAddr_of_aligned (pkt : Packet) (blkSize : Nat)
    (h : pkt.addr = pkt.getBlockAddr blkSize) (q : Packet) (hq : q.addr = pkt.addr) :
    q.getBlockAddr blkSize = pkt.addr := by
  unfold Packet.getBlockAddr at h ⊢
  rw [hq]
  exact h.symm

end SimpleCache

end Gem5

namespace Gem5

namespace SimpleCache

theorem memPortSendPacket_ok (c c1 : SimpleCache) (pkt : Packet) (accepted : Bool)
    (h : c.memPortSendPacket pkt accepted = Except.ok c1) :
    ∃ m, c.memPort.sendPacket pkt accepted = Except.ok m ∧ c1 = { c with memPort := m } := by
  unfold memPortSendPacket at h
  cases hs : c.memPort.sendPacket pkt accepted with
  | error f => simp [hs] at h
  | ok m =>
    simp only [hs, Except.ok.injEq] at h
    exact ⟨m, rfl, h.symm⟩

theorem memPortSendPacket_free (c : SimpleCache) (pkt : Packet) (accepted : Bool)
    (h : c.memPort.blockedPacket = none) : ∃ c1, c.memPortSendPacket pkt accepted = Except.ok c1 := by
  obtain ⟨m, hm⟩ := MemSidePort.sendPacket_free c.memPort pkt accepted h
  exact ⟨{ c with memPort := m }, by simp [memPortSendPacket, hm]⟩

theorem blockAddr_aligned (a blkSize : Nat) : (a - a % blkSize) % blkSize = 0 :=
  Nat.sub_mod_eq_zero_of_mod_eq (Nat.mod_mod _ _).symm

/-- A miss on an aligned, block-sized packet forwards the packet. -/
theorem accessTiming_miss_forward (c : SimpleCache) (pkt : Packet) (env : Env)
    (hmiss : CacheStore.find c.cacheStore (pkt.getBlockAddr c.blockSize) = none)
    (ha : pkt.addr = pkt.getBlockAddr c.blockSize ∧ pkt.size = c.blockSize) :
    c.accessTiming pkt env =
      memPortSendPacket { c with misses := c.misses + 1, missTime := env.now } pkt
        env.memAccepts := by
  simp only [accessTiming, accessFunctional_miss c pkt hmiss]
  simp [← ha.1, ha.2]

/-- A miss on any other read or write request that fits in its block records
the request and forwards the block-sized read. -/
theorem accessTiming_miss_upgrade (c : SimpleCache) (pkt : Packet) (env : Env)
    (hmiss : CacheStore.find c.cacheStore (pkt.getBlockAddr c.blockSize) = none)
    (ha : ¬ (pkt.addr = pkt.getBlockAddr c.blockSize ∧ pkt.size = c.blockSize))
    (hfit : pkt.addr - pkt.getBlockAddr c.blockSize + pkt.size ≤ c.blockSize)
    (hk : pkt.kind = PacketKind.read ∨ pkt.kind = PacketKind.write)
    (hreq : pkt.isResponse = false) :
    c.accessTiming pkt env =
      memPortSendPacket
        { c with misses := c.misses + 1, missTime := env.now, originalPacket := some pkt }
        (c.upgradePacket pkt) env.memAccepts := by
  have hnr : pkt.needsResponse = true := by
    rcases hk with hk | hk <;> simp [Packet.needsResponse, hreq, hk]
  have hrw : ¬ (pkt.isWrite = false ∧ pkt.isRead = false) := by
    rcases hk with hk | hk <;> simp [Packet.isWrite, Packet.isRead, hk]
  have hspan : ¬ pkt.addr - pkt.getBlockAddr c.blockSize + pkt.size > c.blockSize := by omega
  have hal : (c.upgradePacket pkt).addr = (c.upgradePacket pkt).getBlockAddr c.blockSize := by
    simp only [upgradePacket, Packet.getBlockAddr]
    rw [blockAddr_aligned]
    rfl
  simp only [accessTiming, accessFunctional_miss c pkt hmiss]
  simp only [Bool.false_eq_true, if_false, ha, hspan, hnr, hrw, ne_eq]
  have hal2 : ¬ ¬ (upgradePacket { c with misses := c.misses + 1, missTime := env.now } pkt).addr =
      (upgradePacket { c with misses := c.misses + 1, missTime := env.now } pkt).getBlockAddr
        c.blockSize := not_not.mpr hal
  simp only [hal2, if_false]
  rfl

end SimpleCache

end Gem5

namespace Gem5

namespace SimpleCache

theorem memPortSendPacket_error (c s : SimpleCache) (pkt : Packet) (accepted : Bool) (f : Fault)
    (h : c.memPortSendPacket pkt accepted = Except.error (f, s)) :
    f = Fault.sendWhileBlocked ∧ s = c ∧ c.memPort.blockedPacket ≠ none := by
  unfold memPortSendPacket MemSidePort.sendPacket at h
  cases hb : c.memPort.blockedPacket with
  | none => cases accepted <;> simp [hb] at h
  | some q =>
    simp only [hb, Option.isSome_some, if_true, Except.error.injEq, Prod.mk.injEq] at h
    exact ⟨h.1.symm, h.2.symm, by simp⟩

/-- A miss on a packet that is not a whole aligned block and does not fit in
its block stops with the panic of the span check. -/
theorem accessTiming_miss_span (c : SimpleCache) (pkt : Packet) (env : Env)
    (hmiss : CacheStore.find c.cacheStore (pkt.getBlockAddr c.blockSize) = none)
    (hspan : pkt.addr - pkt.getBlockAddr c.blockSize + pkt.size > c.blockSize) :
    c.accessTiming pkt env =
      Except.error (Fault.spanMultipleLines,
        { c with misses := c.misses + 1, missTime := env.now }) := by
  have ha : ¬ (pkt.addr = pkt.getBlockAddr c.blockSize ∧ pkt.size = c.blockSize) := by
    intro h
    omega
  simp only [accessTiming, accessFunctional_miss c pkt hmiss]
  simp [ha, hspan]

end SimpleCache

end Gem5

namespace Gem5

theorem CPUSidePort.sendPacket_state (p p1 : CPUSidePort) (pkt : Packet) (accepted : Bool)
    (h : p.sendPacket pkt accepted = Except.ok p1) :
    p.blockedPacket = none ∧ p1.sentResp = p.sentResp ++ [pkt] ∧ p1.id = p.id ∧
      p1.needRetry = p.needRetry ∧ p1.retries = p.retries ∧
      p1.blockedPacket = (if accepted then none else some pkt) := by
  unfold CPUSidePort.sendPacket at h
  cases hb : p.blockedPacket with
  | some q => simp [hb] at h
  | none =>
    cases accepted with
    | true =>
      simp only [hb, Option.isSome_none, if_true, Bool.false_eq_true, if_false,
        Except.ok.injEq] at h
      subst h
      simp [hb]
    | false =>
      simp only [hb, Option.isSome_none, Bool.false_eq_true, if_false, Except.ok.injEq] at h
      subst h
      simp

theorem CPUSidePort.trySendRetry_sentResp (p : CPUSidePort) :
    p.trySendRetry.sentResp = p.sentResp ∧ p.trySendRetry.id = p.id ∧
      p.trySendRetry.blockedPacket = p.blockedPacket := by
  unfold CPUSidePort.trySendRetry
  split <;> simp

namespace SimpleCache

/-- The reply of a returning `sendResponse` is the one packet added to the
trace of the waiting port. -/
theorem sendResponse_reply (c c1 : SimpleCache) (pkt : Packet) (env : Env)
    (h : c.sendResponse pkt env = Except.ok c1) :
    ∃ p, c.cpuPorts[c.waitingPortId.toNat]? = some p ∧
      (c1.cpuPorts[c.waitingPortId.toNat]?).map CPUSidePort.sentResp =
        some (p.sentResp ++ [pkt]) := by
  obtain ⟨_, _, p, p1, hg, hs, hc⟩ := sendResponse_ok c c1 pkt env h
  obtain ⟨_, hsent, _⟩ := CPUSidePort.sendPacket_state p p1 pkt _ hs
  refine ⟨p, hg, ?_⟩
  have hlt : c.waitingPortId.toNat < c.cpuPorts.length := by
    obtain ⟨hlt, _⟩ := List.getElem?_eq_some.mp hg
    exact hlt
  subst hc
  simp only [List.getElem?_map, List.getElem?_set_self hlt, Option.map_some']
  rw [(CPUSidePort.trySendRetry_sentResp p1).1, hsent]

/-- With a pending original packet `handleResponse` is `insert`, the access of
the original packet, and `sendResponse` of the original packet. -/
theorem handleResponse_upgrade_ok (c c1 : SimpleCache) (pkt o : Packet) (env : Env) (b : Bool)
    (ho : c.originalPacket = some o) (h : c.handleResponse pkt env = Except.ok (c1, b)) :
    b = true ∧ c.blocked = true ∧ ∃ c0 c3 o1, c.insert pkt env = Except.ok c0 ∧
      accessFunctional { c0 with missLatency := c0.missLatency ++ [env.now - c0.missTime] } o =
        Except.ok (c3, o1, true) ∧
      sendResponse { c3 with originalPacket := none } o1.makeResponse env = Except.ok c1 := by
  unfold handleResponse at h
  cases hb : c.blocked with
  | false => simp [hb] at h
  | true =>
    simp only [hb, Bool.true_eq_false, if_false] at h
    cases hi : c.insert pkt env with
    | error e => simp [hi] at h
    | ok c0 =>
      have ho0 : c0.originalPacket = some o := by
        rw [(insert_frame c c0 pkt env hi).2.2.2.2.1, ho]
      simp only [hi] at h
      split at h
      · rename_i orig heq
        have heq2 : orig = o := by
          have : c0.originalPacket = some orig := heq
          rw [ho0] at this
          exact (Option.some.inj this).symm
        subst heq2
        cases ha : accessFunctional
            { c0 with missLatency := c0.missLatency ++ [env.now - c0.missTime] } orig with
        | error e => simp [ha] at h
        | ok r =>
          obtain ⟨c3, o1, hit⟩ := r
          simp only [ha] at h
          cases hit with
          | false => simp at h
          | true =>
            simp only [Bool.true_eq_false, if_false] at h
            cases hs : sendResponse { c3 with originalPacket := none } o1.makeResponse env with
            | error e => simp [hs] at h
            | ok c4 =>
              simp only [hs, Except.ok.injEq, Prod.mk.injEq] at h
              exact ⟨h.2.symm, rfl, c0, c3, o1, rfl, ha, by rw [← h.1, hs]⟩
      · rename_i heq
        have : c0.originalPacket = none := heq
        rw [ho0] at this
        exact absurd this (by simp)

end SimpleCache

end Gem5

namespace Gem5

theorem MemSidePort.sendPacket_awaiting (m m1 : MemSidePort) (pkt : Packet) (accepted : Bool)
    (h : m.sendPacket pkt accepted = Except.ok m1) :
    m1.awaiting = (if accepted = true ∧ pkt.needsResponse = true then m.awaiting ++ [pkt]
      else m.awaiting) := by
  unfold MemSidePort.sendPacket at h
  cases hb : m.blockedPacket with
  | some q => simp [hb] at h
  | none =>
    cases accepted with
    | true =>
      simp only [hb, Option.isSome_none, if_true, Bool.false_eq_true, if_false,
        Except.ok.injEq] at h
      subst h
      cases pkt.needsResponse <;> simp
    | false =>
      simp only [hb, Option.isSome_none, Bool.false_eq_true, if_false, Except.ok.injEq] at h
      subst h
      simp

namespace SimpleCache

/-! ## The handlers, seen from the bookkeeping -/

theorem accessFunctional_frame (c c1 : SimpleCache) (pkt pkt1 : Packet) (hit : Bool)
    (h : c.accessFunctional pkt = Except.ok (c1, pkt1, hit)) :
    c1 = { c with cacheStore := c1.cacheStore } := by
  unfold accessFunctional at h
  split at h
  · split at h
    · simp only [Except.ok.injEq, Prod.mk.injEq] at h
      rw [← h.1]
    · split at h
      · simp only [Except.ok.injEq, Prod.mk.injEq] at h
        rw [← h.1]
      · simp at h
  · simp only [Except.ok.injEq, Prod.mk.injEq] at h
    rw [← h.1]

theorem insert_memPort (c c1 : SimpleCache) (pkt : Packet) (env : Env)
    (h : c.insert pkt env = Except.ok c1) :
    c1.memPort.awaiting = c.memPort.awaiting ∧
      ∀ p, c1.memPort.blockedPacket = some p → p.needsResponse = true →
        c.memPort.blockedPacket = some p := by
  obtain ⟨_, _, _, h4⟩ := insert_ok_state c c1 pkt env h
  rcases h4 with ⟨_, hc⟩ | ⟨_, block, m, _, hs, hc⟩
  · subst hc
    exact ⟨rfl, fun p hp _ => hp⟩
  · obtain ⟨_, _, _, hbp⟩ := MemSidePort.sendPacket_ok _ _ _ _ hs
    have haw := MemSidePort.sendPacket_awaiting _ _ _ _ hs
    have hnr : (c.writebackPacket block).needsResponse = false := by
      simp [writebackPacket, Packet.needsResponse]
    subst hc
    refine ⟨by simpa [hnr] using haw, fun p hp hn => ?_⟩
    simp only at hp
    rw [hbp] at hp
    split at hp
    · exact absurd hp (by simp)
    · have : c.writebackPacket block = p := Option.some.inj hp
      rw [← this, hnr] at hn
      exact absurd hn (by simp)

/-- A returning `accessTiming` is a hit answered by `sendResponse`, or a miss
that offers one packet to the memory side. -/
theorem accessTiming_ok (c c1 : SimpleCache) (pkt : Packet) (env : Env)
    (h : c.accessTiming pkt env = Except.ok c1) :
    (∃ c0 pkt1, c.accessFunctional pkt = Except.ok (c0, pkt1, true) ∧
        sendResponse { c0 with hits := c0.hits + 1 } pkt1.makeResponse env = Except.ok c1) ∨
      (∃ q o, memPortSendPacket
        { c with misses := c.misses + 1, missTime := env.now, originalPacket := o } q
          env.memAccepts = Except.ok c1) := by
  unfold accessTiming at h
  cases ha : c.accessFunctional pkt with
  | error e => simp [ha] at h
  | ok r =>
    obtain ⟨c0, pkt1, hit⟩ := r
    simp only [ha] at h
    cases hit with
    | true =>
      left
      exact ⟨c0, pkt1, rfl, by simpa using h⟩
    | false =>
      right
      have hc0 : c0 = c := by
        unfold accessFunctional at ha
        split at ha
        · split at ha
          · simp at ha
          · split at ha <;> simp at ha
        · simp only [Except.ok.injEq, Prod.mk.injEq] at ha
          exact ha.1.symm
      subst hc0
      simp only [Bool.false_eq_true, if_false] at h
      split at h
      · exact ⟨pkt1, c0.originalPacket, h⟩
      · split at h
        · simp at h
        · split at h
          · simp at h
          · split at h
            · simp at h
            · split at h
              · simp at h
              · exact ⟨_, some pkt1, h⟩

/-- A returning `handleResponse` is a returning `insert` followed by a
returning `sendResponse` from a state with the same bookkeeping. -/
theorem handleResponse_ok (c c1 : SimpleCache) (pkt : Packet) (env : Env) (b : Bool)
    (h : c.handleResponse pkt env = Except.ok (c1, b)) :
    ∃ (c0 c3 : SimpleCache) (reply : Packet), c.insert pkt env = Except.ok c0 ∧
      c3.sendResponse reply env = Except.ok c1 ∧
      c3.memPort = c0.memPort ∧ c3.events = c0.events ∧ c3.hits = c0.hits ∧
      c3.misses = c0.misses ∧ c3.completed = c0.completed ∧ c3.blocked = c0.blocked := by
  cases ho : c.originalPacket with
  | none =>
    obtain ⟨_, _, c0, hi, hs⟩ := handleResponse_plain_ok c c1 pkt env b ho h
    exact ⟨c0, _, pkt, hi, hs, rfl, rfl, rfl, rfl, rfl, rfl⟩
  | some o =>
    obtain ⟨_, _, c0, c3, o1, hi, ha, hs⟩ := handleResponse_upgrade_ok c c1 pkt o env b ho h
    have hfr := accessFunctional_frame _ c3 o o1 true ha
    refine ⟨c0, _, o1.makeResponse, hi, hs, ?_, ?_, ?_, ?_, ?_, ?_⟩ <;> rw [hfr]

/-- A returning `recvTimingReq` either refuses the request and touches only
the CPU-side ports, or accepts it: the idle controller becomes busy and one
access event is scheduled. -/
theorem recvTimingReq_ok (c c1 : SimpleCache) (i : Nat) (pkt : Packet) (b : Bool)
    (h : c.recvTimingReq i pkt = Except.ok (c1, b)) :
    (∃ ports, c1 = { c with cpuPorts := ports }) ∨
      (∃ id, c.blocked = false ∧
        c1 = { c with blocked := true, waitingPortId := id,
                      events := c.events ++ [(c.latency, pkt)] }) := by
  unfold recvTimingReq at h
  split at h
  · simp at h
  · rename_i p hp
    split at h
    · simp only [Except.ok.injEq, Prod.mk.injEq] at h
      exact Or.inl ⟨_, h.1.symm⟩
    · unfold handleRequest at h
      cases hb : c.blocked with
      | true =>
        simp only [hb, if_true, Bool.false_eq_true, if_false, Except.ok.injEq,
          Prod.mk.injEq] at h
        exact Or.inl ⟨_, h.1.symm⟩
      | false =>
        simp only [hb, Bool.false_eq_true, if_false] at h
        by_cases hw : c.waitingPortId = -1
        · simp only [hw, ne_eq, not_true_eq_false, if_false, if_true, Except.ok.injEq,
            Prod.mk.injEq] at h
          exact Or.inr ⟨p.id, rfl, by rw [← h.1]⟩
        · simp [hw] at h

theorem recvRespRetry_ok (c c1 : SimpleCache) (i : Nat) (env : Env)
    (h : c.recvRespRetry i env = Except.ok c1) : ∃ ports, c1 = { c with cpuPorts := ports } := by
  unfold recvRespRetry at h
  split at h
  · simp at h
  · split at h
    · simp at h
    · simp only [Except.ok.injEq] at h
      exact ⟨_, h.symm⟩

theorem handleFunctional_ok (c c1 : SimpleCache) (pkt pkt1 : Packet)
    (h : c.handleFunctional pkt = Except.ok (c1, pkt1)) :
    ∃ store sf, c1 = { c with cacheStore := store,
                              memPort := { c.memPort with sentFunctional := sf } } := by
  unfold handleFunctional at h
  cases ha : c.accessFunctional pkt with
  | error e => simp [ha] at h
  | ok r =>
    obtain ⟨c0, p0, hit⟩ := r
    have hfr := accessFunctional_frame c c0 pkt p0 hit ha
    simp only [ha] at h
    cases hit with
    | true =>
      simp only [if_true, Except.ok.injEq, Prod.mk.injEq] at h
      refine ⟨c0.cacheStore, c.memPort.sentFunctional, ?_⟩
      rw [← h.1]
      exact hfr
    | false =>
      simp only [Bool.false_eq_true, if_false, Except.ok.injEq, Prod.mk.injEq] at h
      refine ⟨c0.cacheStore, c.memPort.sentFunctional ++ [p0], ?_⟩
      rw [← h.1, hfr]
      rfl

end SimpleCache

end Gem5

namespace Gem5

namespace SimpleCache

/-! ## The bookkeeping is kept by every step -/

theorem coherent_construct (params : SimpleCacheParams) : Coherent (construct params) where
  eventsBusy := fun h => absurd rfl h
  eventsLe := by simp [construct]
  awaitingBusy := fun h => absurd rfl h
  awaitingLe := by simp [construct]
  blockedReq := fun p hp _ => by simp [construct] at hp
  count := by simp [construct]

theorem coherent_of_ports (c : SimpleCache) (ports : List CPUSidePort) (hc : Coherent c) :
    Coherent { c with cpuPorts := ports } :=
  ⟨hc.eventsBusy, hc.eventsLe, hc.awaitingBusy, hc.awaitingLe, hc.blockedReq, hc.count⟩

theorem coherent_cpuReq (c c1 : SimpleCache) (i : Nat) (pkt : Packet) (b : Bool)
    (hc : Coherent c) (h : c.recvTimingReq i pkt = Except.ok (c1, b)) : Coherent c1 := by
  rcases recvTimingReq_ok c c1 i pkt b h with ⟨ports, h1⟩ | ⟨id, hb, h1⟩
  · rw [h1]
    exact coherent_of_ports c ports hc
  · have hev : c.events = [] := by
      by_contra hne
      have := hc.eventsBusy hne
      rw [hb] at this
      exact absurd this (by simp)
    have haw : c.memPort.awaiting = [] := by
      by_contra hne
      have := (hc.awaitingBusy hne).1
      rw [hb] at this
      exact absurd this (by simp)
    have hcount := hc.count
    rw [hb] at hcount
    simp only [Bool.false_eq_true, false_and, if_false, Nat.add_zero] at hcount
    subst h1
    refine ⟨fun _ => rfl, by simp [hev], fun hne => absurd haw hne, by simp [haw], ?_, ?_⟩
    · intro p hp hn
      have := (hc.blockedReq p hp hn).1
      rw [hb] at this
      exact absurd this (by simp)
    · simp [hcount]

theorem coherent_sendResponse (c c1 : SimpleCache) (pkt : Packet) (env : Env)
    (h : c.sendResponse pkt env = Except.ok c1)
    (hev : c.events = []) (haw : c.memPort.awaiting = [])
    (hbp : ∀ p, c.memPort.blockedPacket = some p → p.needsResponse = false)
    (hcount : c.hits + c.misses = c.completed + 1) : Coherent c1 := by
  obtain ⟨_, _, _, hm, _, _, _, hh, hmi, _, he, hco, hb, _, _⟩ := sendResponse_frame c c1 pkt env h
  refine ⟨?_, ?_, ?_, ?_, ?_, ?_⟩
  · intro hne
    rw [he, hev] at hne
    exact absurd rfl hne
  · rw [he, hev]
    simp
  · intro hne
    rw [hm, haw] at hne
    exact absurd rfl hne
  · rw [hm, haw]
    simp
  · intro p hp hn
    rw [hm] at hp
    rw [hbp p hp] at hn
    exact absurd hn (by simp)
  · rw [hh, hmi, hco, hb]
    simp [hcount]

theorem coherent_fire (c c1 : SimpleCache) (env : Env) (hc : Coherent c)
    (hf : c.follows (Event.fire env) = true) (h : c.exec (Event.fire env) = Except.ok c1) :
    Coherent c1 := by
  cases hev : c.events with
  | nil => simp [follows, hev] at hf
  | cons e rest =>
    obtain ⟨d, pkt⟩ := e
    have hne : c.events ≠ [] := by simp [hev]
    have hrest : rest = [] := by
      have := hc.eventsLe
      rw [hev] at this
      simp only [List.length_cons] at this
      exact List.length_eq_zero.mp (by omega)
    have hb : c.blocked = true := hc.eventsBusy hne
    have haw : c.memPort.awaiting = [] := by
      by_contra hn
      exact hne (hc.awaitingBusy hn).2
    have hbp : ∀ p, c.memPort.blockedPacket = some p → p.needsResponse = false := by
      intro p hp
      cases hn : p.needsResponse with
      | false => rfl
      | true => exact absurd (hc.blockedReq p hp hn).2.1 hne
    have hcount := hc.count
    simp only [hne, and_false, if_false, Nat.add_zero] at hcount
    simp only [exec, hev] at h
    subst hrest
    rcases accessTiming_ok _ c1 pkt env h with ⟨c0, pkt1, ha, hs⟩ | ⟨q, o, hs⟩
    · have hfr := accessFunctional_frame _ c0 pkt pkt1 true ha
      refine coherent_sendResponse _ c1 _ env hs ?_ ?_ ?_ ?_
      · rw [hfr]
      · rw [hfr]
        exact haw
      · rw [hfr]
        exact hbp
      · rw [hfr]
        simp only
        omega
    · obtain ⟨m, hsp, hc1⟩ := memPortSendPacket_ok _ c1 q _ hs
      obtain ⟨_, _, _, hbp1⟩ := MemSidePort.sendPacket_ok _ _ _ _ hsp
      have haw1 := MemSidePort.sendPacket_awaiting _ _ _ _ hsp
      simp only [haw] at haw1
      subst hc1
      refine ⟨fun _ => hb, by simp, fun _ => ⟨hb, rfl⟩, ?_, ?_, ?_⟩
      · show m.awaiting.length ≤ 1
        rw [haw1]
        split <;> simp
      · intro p hp _
        refine ⟨hb, rfl, ?_⟩
        show m.awaiting = []
        have hp2 : m.blockedPacket = some p := hp
        rw [hbp1] at hp2
        cases hacc : env.memAccepts with
        | true => simp [hacc] at hp2
        | false => simp [haw1, hacc]
      · simp only [hb]
        simp
        omega

theorem follows_memResp (c : SimpleCache) (pkt : Packet) (env : Env) (hc : Coherent c)
    (hf : c.follows (Event.memResp pkt env) = true) :
    c.memPort.awaiting ≠ [] ∧ (c.answered pkt).memPort.awaiting = [] := by
  simp only [follows] at hf
  have hle := hc.awaitingLe
  cases haw : c.memPort.awaiting with
  | nil => simp [haw] at hf
  | cons r rest =>
    rw [haw] at hle hf
    have hrest : rest = [] := by
      simp only [List.length_cons] at hle
      exact List.length_eq_zero.mp (by omega)
    subst hrest
    simp only [List.any_cons, List.any_nil, Bool.or_false] at hf
    refine ⟨by simp, ?_⟩
    simp [answered, haw, List.eraseP_cons, hf]

theorem coherent_memResp (c c1 : SimpleCache) (pkt : Packet) (env : Env) (hc : Coherent c)
    (hf : c.follows (Event.memResp pkt env) = true)
    (h : c.exec (Event.memResp pkt env) = Except.ok c1) : Coherent c1 := by
  obtain ⟨hne, hans⟩ := follows_memResp c pkt env hc hf
  obtain ⟨hb, hev⟩ := hc.awaitingBusy hne
  have hbp : ∀ p, c.memPort.blockedPacket = some p → p.needsResponse = false := by
    intro p hp
    cases hn : p.needsResponse with
    | false => rfl
    | true => exact absurd (hc.blockedReq p hp hn).2.2 hne
  have hcount := hc.count
  simp only [hb, hev, and_self, if_true] at hcount
  simp only [exec] at h
  cases hr : (c.answered pkt).handleResponse pkt env with
  | error e => simp [hr] at h
  | ok r =>
    obtain ⟨c2, b⟩ := r
    simp only [hr, Except.ok.injEq] at h
    subst h
    obtain ⟨c0, c3, reply, hi, hs, hm3, he3, hh3, hmi3, hco3, _⟩ :=
      handleResponse_ok _ c2 pkt env b hr
    obtain ⟨_, _, _, _, _, _, _, _, hh0, hmi0, _, he0, hco0⟩ := insert_frame _ c0 pkt env hi
    obtain ⟨haw0, hbp0⟩ := insert_memPort _ c0 pkt env hi
    refine coherent_sendResponse c3 c2 reply env hs ?_ ?_ ?_ ?_
    · rw [he3, he0]
      exact hev
    · rw [hm3, haw0]
      exact hans
    · intro p hp
      rw [hm3] at hp
      cases hn : p.needsResponse with
      | false => rfl
      | true =>
        have := hbp p (hbp0 p hp hn)
        rw [hn] at this
        exact absurd this (by simp)
    · rw [hh3, hmi3, hco3, hh0, hmi0, hco0]
      exact hcount

theorem coherent_memRetry (c c1 : SimpleCache) (env : Env) (hc : Coherent c)
    (h : c.recvReqRetry env = Except.ok c1) : Coherent c1 := by
  unfold recvReqRetry MemSidePort.recvReqRetry at h
  cases hbp : c.memPort.blockedPacket with
  | none => simp [hbp] at h
  | some p =>
    simp only [hbp] at h
    cases hs : MemSidePort.sendPacket { c.memPort with blockedPacket := none } p env.memAccepts with
    | error f => simp [hs] at h
    | ok m =>
      simp only [hs, Except.ok.injEq] at h
      obtain ⟨_, _, _, hbp1⟩ := MemSidePort.sendPacket_ok _ _ _ _ hs
      have haw1 := MemSidePort.sendPacket_awaiting _ _ _ _ hs
      simp only at haw1
      subst h
      cases hn : p.needsResponse with
      | false =>
        simp only [hn, Bool.false_eq_true, and_false, if_false] at haw1
        refine ⟨hc.eventsBusy, hc.eventsLe, ?_, ?_, ?_, hc.count⟩
        · show m.awaiting ≠ [] → _
          rw [haw1]
          exact hc.awaitingBusy
        · show m.awaiting.length ≤ 1
          rw [haw1]
          exact hc.awaitingLe
        · intro q hq hqn
          have hq2 : m.blockedPacket = some q := hq
          rw [hbp1] at hq2
          split at hq2
          · exact absurd hq2 (by simp)
          · have : p = q := Option.some.inj hq2
            rw [← this, hn] at hqn
            exact absurd hqn (by simp)
      | true =>
        obtain ⟨hb, hev, haw⟩ := hc.blockedReq p hbp hn
        rw [haw] at haw1
        refine ⟨hc.eventsBusy, hc.eventsLe, fun _ => ⟨hb, hev⟩, ?_, ?_, hc.count⟩
        · show m.awaiting.length ≤ 1
          rw [haw1]
          split <;> simp
        · intro q hq _
          refine ⟨hb, hev, ?_⟩
          show m.awaiting = []
          have hq2 : m.blockedPacket = some q := hq
          rw [hbp1] at hq2
          cases hacc : env.memAccepts with
          | true => simp [hacc] at hq2
          | false => simp [haw1, hacc]

theorem coherent_exec (c c1 : SimpleCache) (ev : Event) (hc : Coherent c)
    (hf : c.follows ev = true) (h : c.exec ev = Except.ok c1) : Coherent c1 := by
  cases ev with
  | cpuReq i pkt =>
    simp only [exec] at h
    cases hr : c.recvTimingReq i pkt with
    | error e => simp [hr] at h
    | ok r =>
      obtain ⟨c2, b⟩ := r
      simp only [hr, Except.ok.injEq] at h
      subst h
      exact coherent_cpuReq c c2 i pkt b hc hr
  | fire env => exact coherent_fire c c1 env hc hf h
  | memResp pkt env => exact coherent_memResp c c1 pkt env hc hf h
  | cpuRetry i env =>
    obtain ⟨ports, h1⟩ := recvRespRetry_ok c c1 i env h
    rw [h1]
    exact coherent_of_ports c ports hc
  | memRetry env => exact coherent_memRetry c c1 env hc h
  | functional pkt =>
    simp only [exec] at h
    cases hr : c.handleFunctional pkt with
    | error e => simp [hr] at h
    | ok r =>
      obtain ⟨c2, p2⟩ := r
      simp only [hr, Except.ok.injEq] at h
      subst h
      obtain ⟨store, sf, h1⟩ := handleFunctional_ok c c2 pkt p2 hr
      rw [h1]
      exact ⟨hc.eventsBusy, hc.eventsLe, hc.awaitingBusy, hc.awaitingLe, hc.blockedReq, hc.count⟩

theorem coherent_run (evs : List Event) (c c1 : SimpleCache) (hc : Coherent c)
    (h : c.run evs = some c1) : Coherent c1 := by
  induction evs generalizing c with
  | nil =>
    simp only [run, Option.some.injEq] at h
    exact h ▸ hc
  | cons ev rest ih =>
    simp only [run] at h
    cases hf : c.follows ev with
    | false => simp [hf] at h
    | true =>
      simp only [hf, if_true] at h
      cases he : c.exec ev with
      | error e => simp [he] at h
      | ok c2 =>
        simp only [he] at h
        exact ih c2 (coherent_exec c c2 ev hc hf he) h

theorem coherent_of_reachable (params : SimpleCacheParams) (c : SimpleCache)
    (h : Reachable params c) : Coherent c := by
  obtain ⟨evs, hrun⟩ := h
  exact coherent_run evs _ c (coherent_construct params) hrun

end SimpleCache

end Gem5

namespace Gem5

namespace SimpleCache

/-! ## C1, C2: capacity and eviction -/

theorem insert_empty_zero (c : SimpleCache) (pkt : Packet) (env : Env)
    (h0 : c.cacheStore = []) (hcap : c.capacity = 0) :
    ∃ e, c.insert pkt env = Except.error e := by
  unfold insert
  by_cases h1 : pkt.addr = pkt.getBlockAddr c.blockSize
  · cases h3 : pkt.isResponse with
    | false => exact ⟨(Fault.assertion, c), by simp [← h1, h0, CacheStore.find, h3]⟩
    | true => exact ⟨(Fault.noVictim, c), by simp [← h1, h0, CacheStore.find, h3, hcap, evict]⟩
  · exact ⟨(Fault.assertion, c), by simp [h1]⟩

/-- C1: starting from an empty store, every sequence of `insert` calls that
return leaves at most `capacity` entries in `cacheStore`, and `capacity` keeps
its value; a constructed cache starts with an empty store and
`capacity = size / blockSize`, whatever the parameters are. With `capacity = 0`
no state with an entry arises, because no `insert` into the empty store
returns: its victim search finds nothing to evict. -/
theorem insert_capacity_invariant (c c1 : SimpleCache) (inputs : List (Packet × Env))
    (h0 : c.cacheStore = []) (h : c.insertAll inputs = Except.ok c1) :
    (c1.cacheStore.length ≤ c.capacity ∧ c1.capacity = c.capacity) ∧
      (∀ params : SimpleCacheParams, (construct params).cacheStore = [] ∧
        (construct params).capacity = params.size / params.cacheLineSize) ∧
      (c.capacity = 0 → ∀ pkt env, ∃ e, c.insert pkt env = Except.error e) := by
  refine ⟨?_, fun params => ⟨rfl, rfl⟩, fun hcap pkt env => insert_empty_zero c pkt env h0 hcap⟩
  have hle : c.cacheStore.length ≤ c.capacity := by simp [h0]
  obtain ⟨h1, h2⟩ := insertAll_length inputs c c1 hle h
  exact ⟨h1 ▸ h2, h1⟩

/-- Witness of C1: three insertions into the two-line cache leave two entries. -/
theorem insert_capacity_invariant_witness :
    (construct demoParams).cacheStore = [] ∧
      (construct demoParams).insertAll demoInserts = Except.ok demoAfter ∧
      demoAfter.cacheStore.length = 2 ∧
      (demoAfter.cacheStore.length ≤ (construct demoParams).capacity ∧
        demoAfter.capacity = (construct demoParams).capacity) :=
  ⟨rfl, rfl, rfl,
    (insert_capacity_invariant (construct demoParams) demoAfter demoInserts rfl rfl).1⟩

end SimpleCache

end Gem5

namespace Gem5

namespace SimpleCache

theorem insert_returns (c : SimpleCache) (pkt : Packet) (env : Env)
    (ha : pkt.addr = pkt.getBlockAddr c.blockSize) (hr : pkt.isResponse = true)
    (hf : CacheStore.find c.cacheStore pkt.addr = none)
    (hroom : c.cacheStore.length < c.capacity ∨
      (c.cacheStore ≠ [] ∧ c.memPort.blockedPacket = none)) :
    ∃ c1, c.insert pkt env = Except.ok c1 := by
  unfold insert
  by_cases hlt : c.cacheStore.length ≥ c.capacity
  · have hne : c.cacheStore ≠ [] ∧ c.memPort.blockedPacket = none := by
      rcases hroom with h | h
      · omega
      · exact h
    have hpos : 0 < c.cacheStore.length := List.length_pos.mpr hne.1
    have hi : env.rnd % c.cacheStore.length < c.cacheStore.length := Nat.mod_lt _ hpos
    obtain ⟨m, hm⟩ := MemSidePort.sendPacket_free c.memPort
      (c.writebackPacket c.cacheStore[env.rnd % c.cacheStore.length]) env.memAccepts hne.2
    simp [← ha, hr, hf, hlt, evict, List.getElem?_eq_getElem hi, memPortSendPacket, hm]
  · simp [← ha, hr, hf, hlt]

/-- C2: an `insert` that returns from a full store (as many entries as
`capacity`, which is then at least 1) removes exactly one entry: its key `v`
was stored, differs from the inserted address, and is no longer stored; every
other stored key keeps its line; the inserted address is stored; the size is
still `capacity`; the victim's writeback is the one packet sent. An `insert`
into a store below capacity removes nothing and leaves the memory-side port
untouched. The call returns whenever the packet is an aligned response with a
new address and, if the store is full, the store is not empty and the
memory-side port holds no blocked packet. -/
theorem insert_evicts_exactly_one (c : SimpleCache) (pkt : Packet) (env : Env)
    (hn : (CacheStore.keys c.cacheStore).Nodup) :
    (∀ c1, c.insert pkt env = Except.ok c1 →
      (c.cacheStore.length = c.capacity →
        1 ≤ c.capacity ∧ ∃ v line, (v, line) ∈ c.cacheStore ∧ v ≠ pkt.addr ∧
          CacheStore.keys c1.cacheStore = pkt.addr :: (CacheStore.keys c.cacheStore).erase v ∧
          CacheStore.find c1.cacheStore v = none ∧
          (∀ k, k ≠ v → k ∈ CacheStore.keys c.cacheStore →
            CacheStore.find c1.cacheStore k = CacheStore.find c.cacheStore k) ∧
          (CacheStore.find c1.cacheStore pkt.addr).isSome = true ∧
          c1.cacheStore.length = c.capacity ∧
          c1.memPort.sentReq = c.memPort.sentReq ++ [c.writebackPacket (v, line)]) ∧
      (c.cacheStore.length < c.capacity →
        CacheStore.keys c1.cacheStore = pkt.addr :: CacheStore.keys c.cacheStore ∧
          (∀ k, k ∈ CacheStore.keys c.cacheStore →
            CacheStore.find c1.cacheStore k = CacheStore.find c.cacheStore k) ∧
          c1.memPort = c.memPort)) ∧
    (pkt.addr = pkt.getBlockAddr c.blockSize → pkt.isResponse = true →
      CacheStore.find c.cacheStore pkt.addr = none →
      (c.cacheStore.length < c.capacity ∨
        (c.cacheStore ≠ [] ∧ c.memPort.blockedPacket = none)) →
      ∃ c1, c.insert pkt env = Except.ok c1) := by
  refine ⟨fun c1 h => ?_, insert_returns c pkt env⟩
  obtain ⟨_, habs, _, h4⟩ := insert_ok_state c c1 pkt env h
  have hnot : pkt.addr ∉ CacheStore.keys c.cacheStore := (CacheStore.find_eq_none_iff _ _).mp habs
  have hne_of : ∀ k, k ∈ CacheStore.keys c.cacheStore → ¬ pkt.addr = k :=
    fun k hk hak => hnot (hak ▸ hk)
  rcases h4 with ⟨hlt, hc⟩ | ⟨hge, block, m, hg, hs, hc⟩
  · refine ⟨fun hfull => by omega, fun _ => ?_⟩
    subst hc
    refine ⟨by simp [CacheStore.keys], fun k hk => ?_, rfl⟩
    simp [CacheStore.find, hne_of k hk]
  · refine ⟨fun hfull => ?_, fun hlt => by omega⟩
    have hmem : block ∈ c.cacheStore := List.getElem?_mem hg
    have hkey : block.1 ∈ CacheStore.keys c.cacheStore := CacheStore.mem_keys_of_mem _ _ hmem
    have hpos : 0 < c.cacheStore.length := List.length_pos_of_mem hmem
    have hlen := CacheStore.length_erase c.cacheStore block.1 hkey
    obtain ⟨_, hsent, _, _⟩ := MemSidePort.sendPacket_ok _ _ _ _ hs
    subst hc
    refine ⟨by omega, block.1, block.2, hmem, fun hv => hnot (hv ▸ hkey), ?_, ?_, ?_, ?_, ?_, ?_⟩
    · have hke := CacheStore.keys_erase c.cacheStore block.1
      simp only [CacheStore.keys] at hke
      simp [CacheStore.keys, hke]
    · have hv : ¬ pkt.addr = block.1 := hne_of _ hkey
      simp [CacheStore.find, hv, CacheStore.find_erase_self _ _ hn]
    · intro k hkv hk
      simp [CacheStore.find, hne_of k hk, CacheStore.find_erase_ne _ _ _ hkv]
    · simp [CacheStore.find]
    · simp only [List.length_cons]
      omega
    · simpa using hsent

/-- Witness of C2: inserting block 8 into the full two-line cache and block 4
into the cache holding one block. -/
theorem insert_evicts_exactly_one_witness :
    ((CacheStore.keys demoFull.cacheStore).Nodup ∧
        demoFull.cacheStore.length = demoFull.capacity ∧
        demoFull.insert (demoResp 8 [9, 10, 11, 12]) demoEnv = Except.ok demoAfter ∧
        (1 ≤ demoFull.capacity ∧ ∃ v line, (v, line) ∈ demoFull.cacheStore ∧
          v ≠ (demoResp 8 [9, 10, 11, 12]).addr ∧
          CacheStore.keys demoAfter.cacheStore =
            (demoResp 8 [9, 10, 11, 12]).addr :: (CacheStore.keys demoFull.cacheStore).erase v ∧
          CacheStore.find demoAfter.cacheStore v = none ∧
          (∀ k, k ≠ v → k ∈ CacheStore.keys demoFull.cacheStore →
            CacheStore.find demoAfter.cacheStore k = CacheStore.find demoFull.cacheStore k) ∧
          (CacheStore.find demoAfter.cacheStore (demoResp 8 [9, 10, 11, 12]).addr).isSome = true ∧
          demoAfter.cacheStore.length = demoFull.capacity ∧
          demoAfter.memPort.sentReq =
            demoFull.memPort.sentReq ++ [demoFull.writebackPacket (v, line)])) ∧
      ((CacheStore.keys demoOne.cacheStore).Nodup ∧
        demoOne.cacheStore.length < demoOne.capacity ∧
        demoOne.insert (demoResp 4 [5, 6, 7, 8]) demoEnv = Except.ok demoFull ∧
        demoFull.memPort = demoOne.memPort) :=
  ⟨⟨by decide, by decide, rfl,
      ((insert_evicts_exactly_one demoFull (demoResp 8 [9, 10, 11, 12]) demoEnv
        (by decide)).1 demoAfter rfl).1 (by decide)⟩,
    ⟨by decide, by decide, rfl,
      (((insert_evicts_exactly_one demoOne (demoResp 4 [5, 6, 7, 8]) demoEnv
        (by decide)).1 demoFull rfl).2 (by decide)).2.2⟩⟩

end SimpleCache

end Gem5

namespace Gem5

namespace SimpleCache

/-! ## C3: write/read round trip -/

/-- C3: let `W` be a block-aligned, block-sized write handled by the cache,
either as a hit (`accessTiming` writes it in place) or as a miss (its response,
`W` marked as a response and carrying `W`'s bytes, is inserted by
`handleResponse`). In any later state where the block still has the line that
call left, a block-sized read `R` of the block is a hit, the packet comes back
with exactly `W`'s bytes, and `accessTiming` hands that packet, marked as a
response, to `sendResponse` after counting one hit. -/
theorem write_read_round_trip (c c1 c2 : SimpleCache) (W R : Packet) (env env2 : Env)
    (hW : W.kind = PacketKind.write) (hWa : W.addr = W.getBlockAddr c.blockSize)
    (hWs : W.size = c.blockSize) (hWd : W.data.length = W.size)
    (hR : R.kind = PacketKind.read) (hRa : R.addr = W.addr) (hRs : R.size = c.blockSize)
    (hwrite : ((CacheStore.find c.cacheStore W.addr).isSome = true ∧
        c.accessTiming W env = Except.ok c1) ∨
      (c.originalPacket = none ∧ c.handleResponse W.makeResponse env = Except.ok (c1, true)))
    (hres : CacheStore.find c2.cacheStore W.addr = CacheStore.find c1.cacheStore W.addr)
    (hbs : c2.blockSize = c.blockSize) :
    c2.accessFunctional R = Except.ok (c2, { R with data := W.data }, true) ∧
      c2.accessTiming R env2 =
        sendResponse { c2 with hits := c2.hits + 1 }
          { R with data := W.data, isResponse := true } env2 := by
  have hline : CacheStore.find c1.cacheStore W.addr = some W.data := by
    rcases hwrite with ⟨hsome, ht⟩ | ⟨ho, hr⟩
    · obtain ⟨line, hl⟩ := Option.isSome_iff_exists.mp hsome
      have hbl : W.getBlockAddr c.blockSize = W.addr := hWa.symm
      have hw : W.isWrite = true := by simp [Packet.isWrite, hW]
      have hkey : W.addr ∈ CacheStore.keys c.cacheStore :=
        (CacheStore.find_isSome_iff _ _).mp hsome
      have haf := accessFunctional_hit_write c W line (by rw [hbl]; exact hl) hw
      rw [accessTiming_of_hit c _ W W env haf] at ht
      have hfr := sendResponse_frame _ c1 _ env ht
      rw [hfr.2.2.2.2.2.1]
      simp only [hbl]
      rw [CacheStore.find_setLine_self _ _ _ hkey,
        Packet.writeDataToBlock_full W line c.blockSize hWa hWs hWd]
    · obtain ⟨_, _, c0, hi, hs⟩ := handleResponse_plain_ok c c1 _ env true ho hr
      have hfr := sendResponse_frame _ c1 _ env hs
      rw [hfr.2.2.2.2.2.1]
      have hf := insert_find_self c c0 _ env hi
      have hfull : W.makeResponse.writeDataToBlock (List.replicate c.blockSize 0) c.blockSize =
          W.data :=
        Packet.writeDataToBlock_full W.makeResponse _ c.blockSize hWa hWs hWd
      rw [hfull] at hf
      exact hf
  have hRb : R.getBlockAddr c2.blockSize = W.addr := by
    rw [hbs]
    exact getBlockAddr_of_aligned W c.blockSize hWa R hRa
  have hfind : CacheStore.find c2.cacheStore (R.getBlockAddr c2.blockSize) = some W.data := by
    rw [hRb, hres, hline]
  have hRal : R.addr = R.getBlockAddr c2.blockSize := by rw [hRb, hRa]
  have hrd : R.setDataFromBlock W.data c2.blockSize = { R with data := W.data } := by
    have hd := Packet.setDataFromBlock_full R W.data c2.blockSize hRal (by rw [hRs, hbs])
      (by rw [hWd, hWs, hbs])
    unfold Packet.setDataFromBlock at hd ⊢
    rw [show (List.range R.size).map (fun i => W.data.getD (R.getOffset c2.blockSize + i) 0) =
      W.data from hd]
  have haf : c2.accessFunctional R = Except.ok (c2, { R with data := W.data }, true) := by
    rw [accessFunctional_hit_read c2 R W.data hfind (by simp [Packet.isWrite, hR])
      (by simp [Packet.isRead, hR]), hrd]
  refine ⟨haf, ?_⟩
  rw [accessTiming_of_hit c2 c2 R _ env2 haf]
  rfl

/-- Witness of C3: the write of block 0 misses, its response is inserted, and
the read that port 1 sends next gets the written bytes. -/
theorem write_read_round_trip_witness :
    demoWrite.kind = PacketKind.write ∧
      demoWrite.addr = demoWrite.getBlockAddr demoAnswered.blockSize ∧
      demoWrite.size = demoAnswered.blockSize ∧ demoWrite.data.length = demoWrite.size ∧
      demoRead.kind = PacketKind.read ∧ demoRead.addr = demoWrite.addr ∧
      demoRead.size = demoAnswered.blockSize ∧
      (demoAnswered.originalPacket = none ∧
        demoAnswered.handleResponse demoWrite.makeResponse demoEnv =
          Except.ok (demoWritten, true)) ∧
      CacheStore.find demoReadPending.cacheStore demoWrite.addr =
        CacheStore.find demoWritten.cacheStore demoWrite.addr ∧
      demoReadPending.blockSize = demoAnswered.blockSize ∧
      (demoReadPending.accessFunctional demoRead =
          Except.ok (demoReadPending, { demoRead with data := demoWrite.data }, true) ∧
        demoReadPending.accessTiming demoRead demoEnv =
          sendResponse { demoReadPending with hits := demoReadPending.hits + 1 }
            { demoRead with data := demoWrite.data, isResponse := true } demoEnv) :=
  ⟨rfl, by decide, rfl, rfl, rfl, rfl, rfl, ⟨rfl, rfl⟩, rfl, rfl,
    write_read_round_trip demoAnswered demoWritten demoReadPending demoWrite demoRead demoEnv
      demoEnv rfl (by decide) rfl rfl rfl rfl rfl (Or.inr ⟨rfl, rfl⟩) rfl rfl⟩

end SimpleCache

end Gem5

namespace Gem5

namespace SimpleCache

/-! ## C4: the forwarding decision on a miss -/

end SimpleCache

end Gem5

namespace Gem5

namespace SimpleCache

/-! ## C5: completing an upgraded request -/

end SimpleCache

end Gem5

namespace Gem5

namespace SimpleCache

/-! ## C6: the content of a writeback -/

theorem accessFunctional_store (c c1 : SimpleCache) (pkt pkt1 : Packet) (hit : Bool)
    (h : c.accessFunctional pkt = Except.ok (c1, pkt1, hit)) :
    CacheStore.keys c1.cacheStore = CacheStore.keys c.cacheStore ∧
      c1.blockSize = c.blockSize ∧ c1.capacity = c.capacity ∧ c1.memPort = c.memPort ∧
      ∀ a line, CacheStore.find c.cacheStore a = some line →
        CacheStore.find c1.cacheStore a = some
          (if pkt.isWrite = true ∧ pkt.getBlockAddr c.blockSize = a then
            pkt.writeDataToBlock line c.blockSize else line) := by
  cases hf : CacheStore.find c.cacheStore (pkt.getBlockAddr c.blockSize) with
  | none =>
    rw [accessFunctional_miss c pkt hf] at h
    simp only [Except.ok.injEq, Prod.mk.injEq] at h
    obtain ⟨hc, _, _⟩ := h
    subst hc
    refine ⟨rfl, rfl, rfl, rfl, fun a line ha => ?_⟩
    have hne : ¬ pkt.getBlockAddr c.blockSize = a := by
      intro he
      rw [he, ha] at hf
      exact absurd hf (by simp)
    simp [hne, ha]
  | some l =>
    cases hw : pkt.isWrite with
    | true =>
      rw [accessFunctional_hit_write c pkt l hf hw] at h
      simp only [Except.ok.injEq, Prod.mk.injEq] at h
      obtain ⟨hc, _, _⟩ := h
      subst hc
      refine ⟨CacheStore.keys_setLine _ _ _, rfl, rfl, rfl, fun a line ha => ?_⟩
      by_cases he : pkt.getBlockAddr c.blockSize = a
      · have hkey : a ∈ CacheStore.keys c.cacheStore :=
          (CacheStore.find_isSome_iff _ _).mp (by rw [ha]; rfl)
        have hl : l = line := by
          rw [he, ha] at hf
          exact (Option.some.inj hf).symm
        simp only [he, and_self, if_true]
        rw [CacheStore.find_setLine_self _ _ _ hkey, hl]
      · have hne : a ≠ pkt.getBlockAddr c.blockSize := fun h2 => he h2.symm
        simp only [he, and_false, if_false]
        rw [CacheStore.find_setLine_ne _ _ _ _ hne, ha]
    | false =>
      cases hr : pkt.isRead with
      | true =>
        rw [accessFunctional_hit_read c pkt l hf hw hr] at h
        simp only [Except.ok.injEq, Prod.mk.injEq] at h
        obtain ⟨hc, _, _⟩ := h
        subst hc
        refine ⟨rfl, rfl, rfl, rfl, fun a line ha => ?_⟩
        simp [ha]
      | false => simp [accessFunctional, hf, hw, hr] at h

theorem accessAll_store (ps : List Packet) (c0 c : SimpleCache)
    (h : c0.accessAll ps = Except.ok c) :
    CacheStore.keys c.cacheStore = CacheStore.keys c0.cacheStore ∧
      c.blockSize = c0.blockSize ∧ c.capacity = c0.capacity ∧ c.memPort = c0.memPort ∧
      ∀ a line, CacheStore.find c0.cacheStore a = some line →
        CacheStore.find c.cacheStore a = some (latestContents c0.blockSize a line ps) := by
  induction ps generalizing c0 with
  | nil =>
    simp only [accessAll, Except.ok.injEq] at h
    subst h
    exact ⟨rfl, rfl, rfl, rfl, fun a line ha => by simpa [latestContents] using ha⟩
  | cons p rest ih =>
    simp only [accessAll] at h
    cases ha : c0.accessFunctional p with
    | error e => simp [ha] at h
    | ok r =>
      obtain ⟨c1, p1, hit⟩ := r
      simp only [ha] at h
      obtain ⟨hk1, hb1, hc1, hm1, hf1⟩ := accessFunctional_store c0 c1 p p1 hit ha
      obtain ⟨hk, hb, hc, hm, hf⟩ := ih c1 h
      refine ⟨hk.trans hk1, hb.trans hb1, hc.trans hc1, hm.trans hm1, fun a line hl => ?_⟩
      rw [hf a _ (hf1 a line hl), hb1]
      simp [latestContents]

/-- C6: when `insert` evicts (the store holds at least `capacity` entries and
the call returns), exactly one packet is sent to the memory side: a writeback
request whose address is the victim's block address, whose size is
`blockSize`, and whose data is the victim's line at that moment, which is the
line the block had in an earlier state `c0` with every write that hit the
block since then applied in order. The victim is no longer stored. -/
theorem writeback_carries_latest (c0 c c1 : SimpleCache) (ps : List Packet) (pkt : Packet)
    (env : Env) (hn : (CacheStore.keys c0.cacheStore).Nodup)
    (hhits : c0.accessAll ps = Except.ok c) (hfull : c.capacity ≤ c.cacheStore.length)
    (hins : c.insert pkt env = Except.ok c1) :
    ∃ v line0 wb, CacheStore.find c0.cacheStore v = some line0 ∧
      c1.memPort.sentReq = c.memPort.sentReq ++ [wb] ∧
      wb.addr = v ∧ wb.size = c.blockSize ∧ wb.kind = PacketKind.writeback ∧
      wb.isResponse = false ∧
      wb.data = latestContents c.blockSize v line0 ps ∧
      CacheStore.find c.cacheStore v = some wb.data ∧
      CacheStore.find c1.cacheStore v = none := by
  obtain ⟨hk, hb, _, _, hf⟩ := accessAll_store ps c0 c hhits
  have hnc : (CacheStore.keys c.cacheStore).Nodup := by rw [hk]; exact hn
  obtain ⟨_, habs, _, h4⟩ := insert_ok_state c c1 pkt env hins
  rcases h4 with ⟨hlt, _⟩ | ⟨_, block, m, hg, hs, hc⟩
  · omega
  · have hmem : block ∈ c.cacheStore := List.getElem?_mem hg
    have hkey : block.1 ∈ CacheStore.keys c.cacheStore := CacheStore.mem_keys_of_mem _ _ hmem
    have hfc : CacheStore.find c.cacheStore block.1 = some block.2 :=
      CacheStore.find_of_mem _ _ hnc hmem
    have hkey0 : block.1 ∈ CacheStore.keys c0.cacheStore := hk ▸ hkey
    obtain ⟨line0, hl0⟩ := Option.isSome_iff_exists.mp
      ((CacheStore.find_isSome_iff _ _).mpr hkey0)
    have hdata : block.2 = latestContents c.blockSize block.1 line0 ps := by
      have h1 := hf block.1 line0 hl0
      rw [hfc] at h1
      rw [hb]
      exact Option.some.inj h1
    obtain ⟨_, hsent, _, _⟩ := MemSidePort.sendPacket_ok _ _ _ _ hs
    have hne : ¬ pkt.addr = block.1 := by
      intro he
      rw [he, hfc] at habs
      exact absurd habs (by simp)
    subst hc
    refine ⟨block.1, line0, c.writebackPacket block, hl0, hsent, rfl, rfl, rfl, rfl, hdata, hfc, ?_⟩
    simp [CacheStore.find, hne, CacheStore.find_erase_self _ _ hnc]

/-- Witness of C6: block 4 is written by a hit and then evicted by the
insertion of block 8. -/
theorem writeback_carries_latest_witness :
    (CacheStore.keys demoFull.cacheStore).Nodup ∧
      demoFull.accessAll [demoSmallWrite] = Except.ok demoFullWritten ∧
      demoFullWritten.capacity ≤ demoFullWritten.cacheStore.length ∧
      demoFullWritten.insert (demoResp 8 [9, 10, 11, 12]) demoEnv = Except.ok demoEvicted ∧
      demoEvicted.memPort.sentReq =
        [{ addr := 4, size := 4, kind := PacketKind.writeback, isResponse := false,
           data := [5, 9, 8, 8] }] ∧
      ∃ v line0 wb, CacheStore.find demoFull.cacheStore v = some line0 ∧
        demoEvicted.memPort.sentReq = demoFullWritten.memPort.sentReq ++ [wb] ∧
        wb.addr = v ∧ wb.size = demoFullWritten.blockSize ∧ wb.kind = PacketKind.writeback ∧
        wb.isResponse = false ∧
        wb.data = latestContents demoFullWritten.blockSize v line0 [demoSmallWrite] ∧
        CacheStore.find demoFullWritten.cacheStore v = some wb.data ∧
        CacheStore.find demoEvicted.cacheStore v = none :=
  ⟨by decide, rfl, by decide, rfl, rfl,
    writeback_carries_latest demoFull demoFullWritten demoEvicted [demoSmallWrite]
      (demoResp 8 [9, 10, 11, 12]) demoEnv (by decide) rfl (by decide) rfl⟩

end SimpleCache

end Gem5

namespace Gem5

namespace SimpleCache

/-! ## C7: rejection while busy -/

/-- C7: a request arriving at `recvTimingReq` of port `i` while the controller
is busy (`blocked`) or while the port holds a blocked packet is refused: the
call returns `false`, and the state it leaves is the old state with only
`needRetry` of port `i` set. So `blocked`, `waitingPortId`, `originalPacket`,
the store, the statistics, the scheduled events, the memory-side port, the
other ports and the port's blocked packet and traces are unchanged. -/
theorem recvTimingReq_rejects (c : SimpleCache) (i : Nat) (p : CPUSidePort) (pkt : Packet)
    (hp : c.cpuPorts[i]? = some p)
    (hbusy : c.blocked = true ∨ p.blockedPacket.isSome = true) :
    c.recvTimingReq i pkt =
      Except.ok ({ c with cpuPorts := c.cpuPorts.set i { p with needRetry := true } }, false) := by
  unfold recvTimingReq
  simp only [hp]
  by_cases hq : p.blockedPacket.isSome = true ∨ p.needRetry = true
  · simp [hq]
  · have hb : c.blocked = true := by
      rcases hbusy with h | h
      · exact h
      · exact absurd (Or.inl h) hq
    simp [hq, handleRequest, hb]

/-- Witness of C7: port 1 sends a read while the write of port 0 waits for the
memory side. -/
theorem recvTimingReq_rejects_witness :
    demoMissWait.cpuPorts[1]? = some demoPort1 ∧ demoMissWait.blocked = true ∧
      demoMissWait.recvTimingReq 1 demoRead =
        Except.ok ({ demoMissWait with
          cpuPorts := demoMissWait.cpuPorts.set 1 { demoPort1 with needRetry := true } }, false) :=
  ⟨rfl, rfl, recvTimingReq_rejects demoMissWait 1 demoPort1 demoRead rfl (Or.inl rfl)⟩

end SimpleCache

end Gem5

namespace Gem5

namespace SimpleCache

/-! ## C8: the fatal errors of a miss -/

/-- C8 fails on the code: the execution `demoRefusedEvents` follows the port
protocol and leaves a refused writeback in the blocked slot of the memory-side
port, with the read of the whole block 12 scheduled. When the scheduler runs
it, the read misses and fits within its block, so by the claim the access must
not abort; but forwarding it calls `MemSidePort::sendPacket` on the blocked
port, and `accessTiming` stops with "Should never try to send if blocked!". -/
theorem accessTiming_abort_without_span :
    (construct demoParams).run demoRefusedEvents = some demoRefused ∧
      demoRefused.events = [(1, demoReadAt 12)] ∧
      (demoReadAt 12).kind = PacketKind.read ∧ (demoReadAt 12).isResponse = false ∧
      CacheStore.find demoRefusedAccess.cacheStore
        ((demoReadAt 12).getBlockAddr demoRefusedAccess.blockSize) = none ∧
      ¬ ((demoReadAt 12).addr - (demoReadAt 12).getBlockAddr demoRefusedAccess.blockSize +
        (demoReadAt 12).size > demoRefusedAccess.blockSize) ∧
      demoRefusedAccess.accessTiming (demoReadAt 12) demoEnv =
        Except.error (Fault.sendWhileBlocked,
          { demoRefusedAccess with misses := demoRefusedAccess.misses + 1, missTime := demoEnv.now }) ∧
      demoRefused.exec (Event.fire demoEnv) =
        demoRefusedAccess.accessTiming (demoReadAt 12) demoEnv :=
  ⟨rfl, rfl, rfl, rfl, rfl, by decide, rfl, rfl⟩

/-- The span check of a miss, taken alone: let a read or write request miss in
`accessTiming`. The call stops with the panic "Cannot handle accesses that span
multiple cache lines" if and only if `(addr - blockAddr) + size > blockSize`,
and then the memory-side port is as before the call: no packet was sent. While
the memory-side port holds no blocked packet this is the only way the call
fails to return. -/
theorem accessTiming_span_fatal (c : SimpleCache) (pkt : Packet) (env : Env)
    (hk : pkt.kind = PacketKind.read ∨ pkt.kind = PacketKind.write)
    (hreq : pkt.isResponse = false)
    (hmiss : CacheStore.find c.cacheStore (pkt.getBlockAddr c.blockSize) = none) :
    ((∃ s, c.accessTiming pkt env = Except.error (Fault.spanMultipleLines, s)) ↔
        pkt.addr - pkt.getBlockAddr c.blockSize + pkt.size > c.blockSize) ∧
      (∀ s, c.accessTiming pkt env = Except.error (Fault.spanMultipleLines, s) →
        s.memPort = c.memPort) ∧
      (c.memPort.blockedPacket = none →
        ((∃ e, c.accessTiming pkt env = Except.error e) ↔
          pkt.addr - pkt.getBlockAddr c.blockSize + pkt.size > c.blockSize)) := by
  by_cases hspan : pkt.addr - pkt.getBlockAddr c.blockSize + pkt.size > c.blockSize
  · have he := accessTiming_miss_span c pkt env hmiss hspan
    refine ⟨⟨fun _ => hspan, fun _ => ⟨_, he⟩⟩, fun s hs => ?_, fun _ => ⟨fun _ => hspan, fun _ => ⟨_, he⟩⟩⟩
    rw [he] at hs
    simp only [Except.error.injEq, Prod.mk.injEq, true_and] at hs
    rw [← hs]
  · have hsend : ∃ c2 q, c.accessTiming pkt env = memPortSendPacket c2 q env.memAccepts ∧
        c2.memPort = c.memPort := by
      by_cases ha : pkt.addr = pkt.getBlockAddr c.blockSize ∧ pkt.size = c.blockSize
      · exact ⟨_, _, accessTiming_miss_forward c pkt env hmiss ha, rfl⟩
      · exact ⟨_, _, accessTiming_miss_upgrade c pkt env hmiss ha (by omega) hk hreq, rfl⟩
    obtain ⟨c2, q, heq, hm⟩ := hsend
    have hno : ∀ s, c.accessTiming pkt env ≠ Except.error (Fault.spanMultipleLines, s) := by
      intro s hs
      rw [heq] at hs
      have := (memPortSendPacket_error c2 s q _ _ hs).1
      exact absurd this (by decide)
    refine ⟨⟨fun ⟨s, hs⟩ => absurd hs (hno s), fun h => absurd h hspan⟩,
      fun s hs => absurd hs (hno s), fun hfree => ⟨fun ⟨e, he⟩ => ?_, fun h => absurd h hspan⟩⟩
    exfalso
    obtain ⟨c1, hc1⟩ := memPortSendPacket_free c2 q env.memAccepts (by rw [hm]; exact hfree)
    rw [heq, hc1] at he
    exact absurd he (by simp)

/-- The span check at a concrete input: the four-byte read at address 6 misses
in the empty cache and stops at the span check. -/
theorem accessTiming_span_fatal_witness :
    (demoSpanning.kind = PacketKind.read ∨ demoSpanning.kind = PacketKind.write) ∧
      demoSpanning.isResponse = false ∧
      CacheStore.find (construct demoParams).cacheStore
        (demoSpanning.getBlockAddr (construct demoParams).blockSize) = none ∧
      demoSpanning.addr - demoSpanning.getBlockAddr (construct demoParams).blockSize +
        demoSpanning.size > (construct demoParams).blockSize ∧
      ∃ s, (construct demoParams).accessTiming demoSpanning demoEnv =
        Except.error (Fault.spanMultipleLines, s) :=
  ⟨Or.inl rfl, rfl, rfl, by decide,
    (accessTiming_span_fatal (construct demoParams) demoSpanning demoEnv (Or.inl rfl) rfl rfl).1.mpr
      (by decide)⟩

end SimpleCache

end Gem5

namespace Gem5

namespace SimpleCache

/-! ## C9: functional accesses -/

theorem getD_writeDataToBlock (pkt : Packet) (blk : List Nat) (blkSize i : Nat) (hi : i < blkSize) :
    (pkt.writeDataToBlock blk blkSize).getD i 0 =
      (if pkt.getOffset blkSize ≤ i ∧ i < pkt.getOffset blkSize + pkt.size then
        pkt.data.getD (i - pkt.getOffset blkSize) 0 else blk.getD i 0) := by
  rw [List.getD_eq_getElem?_getD, Packet.getElem?_writeDataToBlock pkt blk blkSize i hi]
  rfl

/-- C9: for every state and every read or write packet `handleFunctional`
returns, and leaves `blocked`, `waitingPortId`, `originalPacket`, the counters,
the scheduled events, the CPU-side ports, the timing trace of the memory-side
port and the stored block addresses unchanged. The packet is passed unmodified
to the memory side if and only if its block address is not stored (then the
store is unchanged too). Otherwise nothing is passed on and the packet comes
back marked as a response: a read leaves the store as it is and carries the
bytes of the stored line from its offset on; a write changes only the line of
its block, and there only the bytes `[offset, offset+size)`, which become the
packet's data. -/
theorem handleFunctional_frame (c : SimpleCache) (pkt : Packet)
    (hk : pkt.kind = PacketKind.read ∨ pkt.kind = PacketKind.write) :
    ∃ c1 pkt1, c.handleFunctional pkt = Except.ok (c1, pkt1) ∧
      (c1.blocked = c.blocked ∧ c1.waitingPortId = c.waitingPortId ∧
        c1.originalPacket = c.originalPacket ∧ c1.hits = c.hits ∧ c1.misses = c.misses ∧
        c1.missLatency = c.missLatency ∧ c1.completed = c.completed ∧
        c1.events = c.events ∧ c1.cpuPorts = c.cpuPorts ∧
        c1.memPort.sentReq = c.memPort.sentReq ∧
        c1.memPort.blockedPacket = c.memPort.blockedPacket ∧
        CacheStore.keys c1.cacheStore = CacheStore.keys c.cacheStore) ∧
      (c1.memPort.sentFunctional = c.memPort.sentFunctional ++ [pkt] ↔
        CacheStore.find c.cacheStore (pkt.getBlockAddr c.blockSize) = none) ∧
      (CacheStore.find c.cacheStore (pkt.getBlockAddr c.blockSize) = none →
        c1.cacheStore = c.cacheStore ∧ pkt1 = pkt) ∧
      (∀ line, CacheStore.find c.cacheStore (pkt.getBlockAddr c.blockSize) = some line →
        c1.memPort = c.memPort ∧
        (pkt.kind = PacketKind.read → c1.cacheStore = c.cacheStore ∧
          pkt1 = (pkt.setDataFromBlock line c.blockSize).makeResponse) ∧
        (pkt.kind = PacketKind.write → pkt1 = pkt.makeResponse ∧
          (∀ a, a ≠ pkt.getBlockAddr c.blockSize →
            CacheStore.find c1.cacheStore a = CacheStore.find c.cacheStore a) ∧
          ∃ line1, CacheStore.find c1.cacheStore (pkt.getBlockAddr c.blockSize) = some line1 ∧
            line1.length = c.blockSize ∧
            ∀ i, i < c.blockSize →
              line1.getD i 0 =
                (if pkt.getOffset c.blockSize ≤ i ∧ i < pkt.getOffset c.blockSize + pkt.size then
                  pkt.data.getD (i - pkt.getOffset c.blockSize) 0 else line.getD i 0))) := by
  have hlist : ∀ (l : List Packet) (x : Packet), l ≠ l ++ [x] := by
    intro l x h
    have := congrArg List.length h
    simp at this
  cases hf : CacheStore.find c.cacheStore (pkt.getBlockAddr c.blockSize) with
  | none =>
    refine ⟨{ c with memPort := c.memPort.sendFunctional pkt }, pkt, ?_, ?_, ?_, ?_, ?_⟩
    · simp [handleFunctional, accessFunctional_miss c pkt hf]
    · simp [MemSidePort.sendFunctional]
    · simp [MemSidePort.sendFunctional]
    · intro _
      exact ⟨rfl, rfl⟩
    · intro line hl
      exact absurd hl (by simp)
  | some l =>
    have hkey : pkt.getBlockAddr c.blockSize ∈ CacheStore.keys c.cacheStore :=
      (CacheStore.find_isSome_iff _ _).mp (by rw [hf]; rfl)
    rcases hk with hk | hk
    · have hw : pkt.isWrite = false := by simp [Packet.isWrite, hk]
      have hr : pkt.isRead = true := by simp [Packet.isRead, hk]
      refine ⟨c, (pkt.setDataFromBlock l c.blockSize).makeResponse, ?_, ?_, ?_, ?_, ?_⟩
      · simp [handleFunctional, accessFunctional_hit_read c pkt l hf hw hr]
      · simp
      · simp [hlist]
      · intro h
        exact absurd h (by simp)
      · intro line hl
        have hll : l = line := Option.some.inj hl
        subst hll
        refine ⟨rfl, fun _ => ⟨rfl, rfl⟩, fun hkw => ?_⟩
        rw [hk] at hkw
        exact absurd hkw (by decide)
    · have hw : pkt.isWrite = true := by simp [Packet.isWrite, hk]
      refine ⟨{ c with cacheStore := CacheStore.setLine c.cacheStore (pkt.getBlockAddr c.blockSize) (pkt.writeDataToBlock l c.blockSize) },
        pkt.makeResponse, ?_, ?_, ?_, ?_, ?_⟩
      · simp [handleFunctional, accessFunctional_hit_write c pkt l hf hw]
      · simp [CacheStore.keys_setLine]
      · simp [hlist]
      · intro h
        exact absurd h (by simp)
      · intro line hl
        have hll : l = line := Option.some.inj hl
        subst hll
        refine ⟨rfl, fun hkr => ?_, fun _ => ⟨rfl, fun a ha => ?_, ?_⟩⟩
        · rw [hk] at hkr
          exact absurd hkr (by decide)
        · exact CacheStore.find_setLine_ne _ _ _ _ ha
        · refine ⟨pkt.writeDataToBlock l c.blockSize, CacheStore.find_setLine_self _ _ _ hkey,
            Packet.length_writeDataToBlock _ _ _, fun i hi => ?_⟩
          exact getD_writeDataToBlock pkt l c.blockSize i hi

/-- Witness of C9: a functional two-byte write to address 5 while the full
two-line cache holds block 4. -/
theorem handleFunctional_frame_witness :
    (demoSmallWrite.kind = PacketKind.read ∨ demoSmallWrite.kind = PacketKind.write) ∧
      demoFull.handleFunctional demoSmallWrite =
        Except.ok (demoFullWritten, demoSmallWrite.makeResponse) ∧
      CacheStore.find demoFullWritten.cacheStore 4 = some [5, 9, 8, 8] ∧
      ∃ c1 pkt1, demoFull.handleFunctional demoSmallWrite = Except.ok (c1, pkt1) ∧
        c1.blocked = demoFull.blocked ∧ c1.hits = demoFull.hits ∧ c1.misses = demoFull.misses ∧
        CacheStore.keys c1.cacheStore = CacheStore.keys demoFull.cacheStore :=
  ⟨Or.inr rfl, rfl, rfl, by
    obtain ⟨c1, pkt1, h, hfr, _⟩ := handleFunctional_frame demoFull demoSmallWrite (Or.inr rfl)
    exact ⟨c1, pkt1, h, hfr.1, hfr.2.2.2.1, hfr.2.2.2.2.1, hfr.2.2.2.2.2.2.2.2.2.2.2⟩⟩

end SimpleCache

end Gem5

namespace Gem5

namespace SimpleCache

/-! ## C10: the statistics count -/

/-- C10 as stated fails: after port 0 has sent the write of block 0 and the
scheduler has run the access, the miss is counted but no reply has been sent:
`hits + misses` is 1 and no access is completed. -/
theorem stats_count_ahead_in_miss_wait :
    Reachable demoParams demoMissWait ∧ demoMissWait.hits + demoMissWait.misses = 1 ∧
      demoMissWait.completed = 0 ∧
      demoMissWait.hits + demoMissWait.misses ≠ demoMissWait.completed :=
  ⟨⟨[Event.cpuReq 0 demoWrite, Event.fire demoEnv], rfl⟩, rfl, rfl, by decide⟩

/-- C10, amended: in every reachable state `hits + misses` equals the number
of replies handed over by `sendResponse`, plus one while a counted miss waits
for the memory side, that is while the controller is busy with no access event
scheduled. In particular the two numbers agree whenever the controller is idle
or its access is still scheduled. -/
theorem stats_count (params : SimpleCacheParams) (c : SimpleCache)
    (h : Reachable params c) :
    c.hits + c.misses = c.completed + (if c.blocked = true ∧ c.events = [] then 1 else 0) ∧
      (c.blocked = false ∨ c.events ≠ [] → c.hits + c.misses = c.completed) := by
  have hcount := (coherent_of_reachable params c h).count
  refine ⟨hcount, fun hidle => ?_⟩
  have hno : ¬ (c.blocked = true ∧ c.events = []) := by
    rintro ⟨hb, he⟩
    rcases hidle with h1 | h1
    · rw [hb] at h1
      exact absurd h1 (by simp)
    · exact h1 he
  simpa [hno] using hcount

/-- Witness of C10, amended: the state in which the write of block 0 waits for
the memory side. -/
theorem stats_count_witness :
    Reachable demoParams demoMissWait ∧
      (demoMissWait.hits + demoMissWait.misses =
          demoMissWait.completed +
            (if demoMissWait.blocked = true ∧ demoMissWait.events = [] then 1 else 0) ∧
        (demoMissWait.blocked = false ∨ demoMissWait.events ≠ [] →
          demoMissWait.hits + demoMissWait.misses = demoMissWait.completed)) :=
  ⟨⟨[Event.cpuReq 0 demoWrite, Event.fire demoEnv], rfl⟩,
    stats_count demoParams demoMissWait ⟨[Event.cpuReq 0 demoWrite, Event.fire demoEnv], rfl⟩⟩

end SimpleCache

end Gem5

namespace Gem5

/-! ## C12, C13: the ports -/

/-- C12: a retry handler called on a port that holds the blocked packet `pkt`
(`recvRespRetry` on a CPU-side port, `recvReqRetry` on the memory-side port)
returns and offers exactly `pkt` to the peer once: the trace of offers grows by
`pkt`, and the blocked slot is empty afterwards if the peer accepted and holds
`pkt` again if it refused. `sendPacket` called on a port with an empty slot
returns, offers the packet once, and leaves the packet in the slot if and only
if the peer refused it. -/
theorem retry_conserves_blocked_packet (pkt : Packet) (accepted : Bool) :
    (∀ p : CPUSidePort, p.blockedPacket = some pkt →
      ∃ p1, p.recvRespRetry accepted = Except.ok p1 ∧ p1.sentResp = p.sentResp ++ [pkt] ∧
        p1.blockedPacket = (if accepted then none else some pkt)) ∧
    (∀ m : MemSidePort, m.blockedPacket = some pkt →
      ∃ m1, m.recvReqRetry accepted = Except.ok m1 ∧ m1.sentReq = m.sentReq ++ [pkt] ∧
        m1.blockedPacket = (if accepted then none else some pkt)) ∧
    (∀ p : CPUSidePort, p.blockedPacket = none →
      ∃ p1, p.sendPacket pkt accepted = Except.ok p1 ∧ p1.sentResp = p.sentResp ++ [pkt] ∧
        (p1.blockedPacket = some pkt ↔ accepted = false) ∧
        (p1.blockedPacket = none ↔ accepted = true)) ∧
    (∀ m : MemSidePort, m.blockedPacket = none →
      ∃ m1, m.sendPacket pkt accepted = Except.ok m1 ∧ m1.sentReq = m.sentReq ++ [pkt] ∧
        (m1.blockedPacket = some pkt ↔ accepted = false) ∧
        (m1.blockedPacket = none ↔ accepted = true)) := by
  refine ⟨fun p hp => ?_, fun m hm => ?_, fun p hp => ?_, fun m hm => ?_⟩
  · cases accepted <;>
      simp [CPUSidePort.recvRespRetry, CPUSidePort.sendPacket, CPUSidePort.trySendRetry, hp]
    split <;> simp
  · cases accepted <;> simp [MemSidePort.recvReqRetry, MemSidePort.sendPacket, hm]
  · cases accepted <;> simp [CPUSidePort.sendPacket, hp]
  · cases accepted <;> simp [MemSidePort.sendPacket, hm]

/-- C13: `trySendRetry` emits a retry notification if and only if `needRetry`
is set and the port holds no blocked packet. In that case exactly one
notification is emitted and `needRetry` is cleared, with the rest of the port
as it was; in every other case the port is unchanged and nothing is emitted. -/
theorem trySendRetry_emits_iff (p : CPUSidePort) :
    (p.trySendRetry.retries = p.retries + 1 ↔ (p.needRetry = true ∧ p.blockedPacket = none)) ∧
    (p.needRetry = true ∧ p.blockedPacket = none →
      p.trySendRetry = { p with needRetry := false, retries := p.retries + 1 }) ∧
    (¬ (p.needRetry = true ∧ p.blockedPacket = none) → p.trySendRetry = p) := by
  unfold CPUSidePort.trySendRetry
  by_cases h : p.needRetry = true ∧ p.blockedPacket = none
  · simp [h]
  · simp only [h, if_false, not_false_eq_true, true_implies, false_implies, and_true, iff_false]
    omega

end Gem5

namespace Gem5

namespace SimpleCache

/-! ## C15: the hit path -/

theorem sendResponse_returns (c : SimpleCache) (pkt : Packet) (env : Env) (p : CPUSidePort)
    (hb : c.blocked = true) (hw : 0 ≤ c.waitingPortId)
    (hp : c.cpuPorts[c.waitingPortId.toNat]? = some p) (hfree : p.blockedPacket = none) :
    ∃ c1, c.sendResponse pkt env = Except.ok c1 := by
  have hlt : ¬ c.waitingPortId < 0 := by omega
  unfold sendResponse
  cases hacc : env.cpuAccepts <;>
    simp [hb, hlt, hp, CPUSidePort.sendPacket, hfree, hacc]

/-- C15: let a read or write request hit in `accessTiming` (its block address
is stored with line `line`). When the call returns, `hits` has grown by exactly
one and `misses` is unchanged; the memory-side port is untouched; the stored
block addresses and every other line are unchanged; a read leaves the store as
it is, a write replaces the bytes `[offset, offset+size)` of the hit line by
the packet's data and keeps its other bytes; the one packet handed to the
waiting port is the request marked as a response (for a read, carrying the
bytes of the line); and the controller is idle: `blocked = false`,
`waitingPortId = -1`. The call returns whenever the controller is busy and the
waiting port exists and holds no blocked packet. -/
theorem accessTiming_hit (c : SimpleCache) (pkt : Packet) (env : Env) (line : List Nat)
    (hk : pkt.kind = PacketKind.read ∨ pkt.kind = PacketKind.write)
    (hhit : CacheStore.find c.cacheStore (pkt.getBlockAddr c.blockSize) = some line) :
    (∀ c1, c.accessTiming pkt env = Except.ok c1 →
      c1.hits = c.hits + 1 ∧ c1.misses = c.misses ∧ c1.memPort = c.memPort ∧
      c1.originalPacket = c.originalPacket ∧
      CacheStore.keys c1.cacheStore = CacheStore.keys c.cacheStore ∧
      (∀ a, a ≠ pkt.getBlockAddr c.blockSize →
        CacheStore.find c1.cacheStore a = CacheStore.find c.cacheStore a) ∧
      (pkt.kind = PacketKind.read → c1.cacheStore = c.cacheStore) ∧
      (pkt.kind = PacketKind.write →
        ∃ line1, CacheStore.find c1.cacheStore (pkt.getBlockAddr c.blockSize) = some line1 ∧
          ∀ i, i < c.blockSize →
            line1.getD i 0 =
              (if pkt.getOffset c.blockSize ≤ i ∧ i < pkt.getOffset c.blockSize + pkt.size then
                pkt.data.getD (i - pkt.getOffset c.blockSize) 0 else line.getD i 0)) ∧
      (∃ p reply, c.cpuPorts[c.waitingPortId.toNat]? = some p ∧
        (c1.cpuPorts[c.waitingPortId.toNat]?).map CPUSidePort.sentResp =
          some (p.sentResp ++ [reply]) ∧
        reply.isResponse = true ∧ reply.addr = pkt.addr ∧ reply.size = pkt.size ∧
        reply.kind = pkt.kind ∧
        (pkt.kind = PacketKind.write → reply = pkt.makeResponse) ∧
        (pkt.kind = PacketKind.read →
          reply = (pkt.setDataFromBlock line c.blockSize).makeResponse)) ∧
      c1.blocked = false ∧ c1.waitingPortId = -1 ∧ c1.completed = c.completed + 1) ∧
    (c.blocked = true → 0 ≤ c.waitingPortId →
      ∀ p, c.cpuPorts[c.waitingPortId.toNat]? = some p → p.blockedPacket = none →
        ∃ c1, c.accessTiming pkt env = Except.ok c1) := by
  have hkey : pkt.getBlockAddr c.blockSize ∈ CacheStore.keys c.cacheStore :=
    (CacheStore.find_isSome_iff _ _).mp (by rw [hhit]; rfl)
  rcases hk with hk | hk
  · have hw : pkt.isWrite = false := by simp [Packet.isWrite, hk]
    have hr : pkt.isRead = true := by simp [Packet.isRead, hk]
    rw [accessTiming_of_hit c c pkt _ env (accessFunctional_hit_read c pkt line hhit hw hr)]
    refine ⟨fun c1 h => ?_, fun hb hwp p hp hfree => sendResponse_returns _ _ env p hb hwp hp hfree⟩
    have hfr := sendResponse_frame _ c1 _ env h
    obtain ⟨p, hp, hp1⟩ := sendResponse_reply _ c1 _ env h
    obtain ⟨_, _, _, hm, ho, hst, _, hh, hmi, _, _, hco, hb1, hw1, _⟩ := hfr
    refine ⟨hh, hmi, hm, ho, by rw [hst], fun a _ => by rw [hst], fun _ => hst, fun hkw => ?_,
      ⟨p, _, hp, hp1, rfl, rfl, rfl, rfl, fun hkw => ?_, fun _ => rfl⟩, hb1, hw1, hco⟩
    · rw [hk] at hkw
      exact absurd hkw (by decide)
    · rw [hk] at hkw
      exact absurd hkw (by decide)
  · have hw : pkt.isWrite = true := by simp [Packet.isWrite, hk]
    rw [accessTiming_of_hit c _ pkt _ env (accessFunctional_hit_write c pkt line hhit hw)]
    refine ⟨fun c1 h => ?_, fun hb hwp p hp hfree => sendResponse_returns _ _ env p hb hwp hp hfree⟩
    have hfr := sendResponse_frame _ c1 _ env h
    obtain ⟨p, hp, hp1⟩ := sendResponse_reply _ c1 _ env h
    obtain ⟨_, _, _, hm, ho, hst, _, hh, hmi, _, _, hco, hb1, hw1, _⟩ := hfr
    refine ⟨hh, hmi, hm, ho, ?_, fun a ha => ?_, fun hkr => ?_, fun _ => ?_,
      ⟨p, _, hp, hp1, rfl, rfl, rfl, rfl, fun _ => rfl, fun hkr => ?_⟩, hb1, hw1, hco⟩
    · rw [hst]
      exact CacheStore.keys_setLine _ _ _
    · rw [hst]
      exact CacheStore.find_setLine_ne _ _ _ _ ha
    · rw [hk] at hkr
      exact absurd hkr (by decide)
    · refine ⟨pkt.writeDataToBlock line c.blockSize, ?_, fun i hi => ?_⟩
      · rw [hst]
        exact CacheStore.find_setLine_self _ _ _ hkey
      · rw [List.getD_eq_getElem?_getD, Packet.getElem?_writeDataToBlock pkt line c.blockSize i hi]
        rfl
    · rw [hk] at hkr
      exact absurd hkr (by decide)

/-- Witness of C15: the read of block 0 that port 1 sent after the write hits. -/
theorem accessTiming_hit_witness :
    (demoRead.kind = PacketKind.read ∨ demoRead.kind = PacketKind.write) ∧
      CacheStore.find demoReadPending.cacheStore (demoRead.getBlockAddr demoReadPending.blockSize) =
        some [1, 2, 3, 4] ∧
      demoReadPending.blocked = true ∧ demoReadPending.waitingPortId = 1 ∧
      ∃ c1, demoReadPending.accessTiming demoRead demoEnv = Except.ok c1 ∧
        c1.hits = demoReadPending.hits + 1 ∧ c1.misses = demoReadPending.misses ∧
        c1.memPort = demoReadPending.memPort ∧ c1.blocked = false ∧ c1.waitingPortId = -1 :=
  ⟨Or.inl rfl, rfl, rfl, rfl, by
    have h := accessTiming_hit demoReadPending demoRead demoEnv [1, 2, 3, 4] (Or.inl rfl) rfl
    obtain ⟨c1, hc1⟩ := h.2 rfl (by decide) demoPort1 rfl rfl
    obtain ⟨hh, hmi, hm, _, _, _, _, _, _, hb, hw, _⟩ := h.1 c1 hc1
    exact ⟨c1, hc1, hh, hmi, hm, hb, hw⟩⟩

end SimpleCache

end Gem5

namespace Gem5

namespace SimpleCache

/-! ## C11: when retry notifications are emitted -/

theorem map_set_same {α β : Type} (f : α → β) (l : List α) (i : Nat) (x y : α)
    (h : l[i]? = some y) (hf : f x = f y) : (l.set i x).map f = l.map f := by
  apply List.ext_getElem?
  intro j
  simp only [List.getElem?_map, List.getElem?_set]
  by_cases hij : i = j
  · subst hij
    have hlt : i < l.length := (List.getElem?_eq_some.mp h).1
    simp [hlt, h, hf]
  · simp [hij]

theorem recvTimingReq_retryCounts (c c1 : SimpleCache) (i : Nat) (pkt : Packet) (b : Bool)
    (h : c.recvTimingReq i pkt = Except.ok (c1, b)) : c1.retryCounts = c.retryCounts := by
  unfold recvTimingReq at h
  split at h
  · simp at h
  · rename_i p hp
    have hset : (c.cpuPorts.set i { p with needRetry := true }).map CPUSidePort.retries =
        c.cpuPorts.map CPUSidePort.retries := map_set_same _ _ _ _ p hp rfl
    split at h
    · simp only [Except.ok.injEq, Prod.mk.injEq] at h
      rw [← h.1]
      exact hset
    · unfold handleRequest at h
      cases hb : c.blocked with
      | true =>
        simp only [hb, if_true, Bool.false_eq_true, if_false, Except.ok.injEq,
          Prod.mk.injEq] at h
        rw [← h.1]
        exact hset
      | false =>
        simp only [hb, Bool.false_eq_true, if_false] at h
        by_cases hw : c.waitingPortId = -1
        · simp only [hw, ne_eq, not_true_eq_false, if_false, if_true, Except.ok.injEq,
            Prod.mk.injEq] at h
          rw [← h.1]
          rfl
        · simp [hw] at h

/-- C11 as stated fails: in a state reached by an execution that follows the
port protocol the controller is busy with the request of port 1. Port 0, which
holds a refused response and has been refused a request, is asked for its
response; `recvRespRetry` resends it and then emits a retry notification,
while the controller is still busy. -/
theorem retry_emitted_while_busy :
    (construct demoParams).run demoBusyEvents = some demoBusy ∧
      demoBusy.follows (Event.cpuRetry 0 demoEnv) = true ∧
      demoBusy.exec (Event.cpuRetry 0 demoEnv) = Except.ok demoBusyRetried ∧
      demoBusy.blocked = true ∧ demoBusy.events = [(1, demoReadAt 4)] ∧
      demoBusyRetried.blocked = true ∧
      demoBusy.retryCounts = [0, 0] ∧ demoBusyRetried.retryCounts = [1, 0] :=
  ⟨rfl, rfl, rfl, rfl, rfl, rfl, rfl, rfl⟩

/-- C11, amended: a step of the controller that emits a retry notification to
a CPU-side port is either a `recvRespRetry` (the port's blocked response has
just been resent, whatever the controller is doing), or a step that ran
`sendResponse`: it handed over one reply and left the controller idle. No
other step emits a notification: not an accepted or refused request, not a
miss, not a retry of the memory side, not a functional access. -/
theorem retry_emission_points (c c1 : SimpleCache) (ev : Event)
    (h : c.exec ev = Except.ok c1) (hne : c1.retryCounts ≠ c.retryCounts) :
    (∃ i env, ev = Event.cpuRetry i env) ∨
      (c1.blocked = false ∧ c1.completed = c.completed + 1) := by
  cases ev with
  | cpuReq i pkt =>
    simp only [exec] at h
    cases hr : c.recvTimingReq i pkt with
    | error e => simp [hr] at h
    | ok r =>
      obtain ⟨c2, b⟩ := r
      simp only [hr, Except.ok.injEq] at h
      subst h
      exact absurd (recvTimingReq_retryCounts c c2 i pkt b hr) hne
  | fire env =>
    simp only [exec] at h
    cases hev : c.events with
    | nil =>
      simp only [hev, Except.ok.injEq] at h
      subst h
      exact absurd rfl hne
    | cons e rest =>
      obtain ⟨d, pkt⟩ := e
      simp only [hev] at h
      rcases accessTiming_ok _ c1 pkt env h with ⟨c0, pkt1, ha, hs⟩ | ⟨q, o, hs⟩
      · have hfr := accessFunctional_frame _ c0 pkt pkt1 true ha
        obtain ⟨_, _, _, _, _, _, _, _, _, _, _, hco, hb, _, _⟩ := sendResponse_frame _ c1 _ env hs
        right
        refine ⟨hb, ?_⟩
        rw [hco, hfr]
      · obtain ⟨m, _, hc1⟩ := memPortSendPacket_ok _ c1 q _ hs
        subst hc1
        exact absurd rfl hne
  | memResp pkt env =>
    simp only [exec] at h
    cases hr : (c.answered pkt).handleResponse pkt env with
    | error e => simp [hr] at h
    | ok r =>
      obtain ⟨c2, b⟩ := r
      simp only [hr, Except.ok.injEq] at h
      subst h
      obtain ⟨c0, c3, reply, hi, hs, _, _, _, _, hco3, _⟩ := handleResponse_ok _ c2 pkt env b hr
      obtain ⟨_, _, _, _, _, _, _, _, _, _, _, hco, hb, _, _⟩ := sendResponse_frame _ c2 _ env hs
      have hco0 := (insert_frame _ c0 pkt env hi).2.2.2.2.2.2.2.2.2.2.2.2
      right
      refine ⟨hb, ?_⟩
      rw [hco, hco3, hco0]
      rfl
  | cpuRetry i env => exact Or.inl ⟨i, env, rfl⟩
  | memRetry env =>
    simp only [exec, recvReqRetry] at h
    cases hm : c.memPort.recvReqRetry env.memAccepts with
    | error f => simp [hm] at h
    | ok m =>
      simp only [hm, Except.ok.injEq] at h
      subst h
      exact absurd rfl hne
  | functional pkt =>
    simp only [exec] at h
    cases hr : c.handleFunctional pkt with
    | error e => simp [hr] at h
    | ok r =>
      obtain ⟨c2, p2⟩ := r
      simp only [hr, Except.ok.injEq] at h
      subst h
      obtain ⟨store, sf, h1⟩ := handleFunctional_ok c c2 pkt p2 hr
      rw [h1] at hne
      exact absurd rfl hne

/-- Witness of C11, amended: port 1 was refused while the read of port 0 waited
for the memory side; the response arrives, `sendResponse` replies to port 0 and
then notifies port 1, with the controller idle. -/
theorem retry_emission_points_witness :
    demoWaiting.exec (Event.memResp (demoResp 0 [1, 2, 3, 4]) demoEnv) = Except.ok demoWaitingDone ∧
      demoWaiting.retryCounts = [0, 0] ∧ demoWaitingDone.retryCounts = [0, 1] ∧
      ((∃ i env, Event.memResp (demoResp 0 [1, 2, 3, 4]) demoEnv = Event.cpuRetry i env) ∨
        (demoWaitingDone.blocked = false ∧
          demoWaitingDone.completed = demoWaiting.completed + 1)) :=
  ⟨rfl, rfl, rfl,
    retry_emission_points demoWaiting demoWaitingDone
      (Event.memResp (demoResp 0 [1, 2, 3, 4]) demoEnv) rfl (by decide)⟩

end SimpleCache

end Gem5

namespace Gem5

namespace SimpleCache

/-! ## C16: sending on the memory side while blocked -/

/-- C16 fails on the code: the execution `demoRefusedEvents` follows the port
protocol (the memory side answers every forwarded request once and refuses one
packet, the writeback of the evicted block 4). It leaves the writeback in the
blocked slot of the memory-side port with the read of block 12 scheduled. The
scheduler may run that access, and the miss calls `MemSidePort::sendPacket`
while the port holds the writeback: the call stops with "Should never try to
send if blocked!". -/
theorem memSide_send_while_blocked :
    (construct demoParams).run demoRefusedEvents = some demoRefused ∧
      demoRefused.memPort.blockedPacket =
        some { addr := 4, size := 4, kind := PacketKind.writeback, isResponse := false,
               data := [5, 6, 7, 8] } ∧
      demoRefused.memPort.awaiting = [] ∧
      demoRefused.follows (Event.fire demoEnv) = true ∧
      demoRefused.exec (Event.fire demoEnv) =
        Except.error (Fault.sendWhileBlocked,
          { demoRefusedAccess with misses := demoRefusedAccess.misses + 1, missTime := demoEnv.now }) ∧
      (construct demoParams).run (demoRefusedEvents ++ [Event.fire demoEnv]) = none :=
  ⟨rfl, rfl, rfl, rfl, rfl, rfl⟩

/-! ## C19: a spanning request that hits -/

/-- C19 fails on the code: block 4 is stored and the four-byte read at address
6 runs over its end. The timing access is a hit that returns: it counts one
hit and hands the reply to port 0, and the functional and the direct access
return as well. No access stops with a fatal error; the bytes the reply
carries from past the end of the line are outside the stored line. -/
theorem spanning_hit_not_fatal :
    (construct demoParams).run demoSpanEvents = some demoSpanPending ∧
      CacheStore.find demoSpanPending.cacheStore
        (demoSpanning.getBlockAddr demoSpanPending.blockSize) = some [5, 6, 7, 8] ∧
      demoSpanning.addr - demoSpanning.getBlockAddr demoSpanPending.blockSize + demoSpanning.size >
        demoSpanPending.blockSize ∧
      demoSpanPending.exec (Event.fire demoEnv) = Except.ok demoSpanDone ∧
      demoSpanDone.hits = demoSpanPending.hits + 1 ∧ demoSpanDone.blocked = false ∧
      (demoSpanDone.cpuPorts[0]?).map CPUSidePort.sentResp =
        some [(demoResp 4 [5, 6, 7, 8]),
          { addr := 6, size := 4, kind := PacketKind.read, isResponse := true,
            data := [7, 8, 0, 0] }] ∧
      demoSpanPending.handleFunctional demoSpanning =
        Except.ok (demoSpanPending,
          { addr := 6, size := 4, kind := PacketKind.read, isResponse := true,
            data := [7, 8, 0, 0] }) ∧
      demoSpanPending.accessFunctional demoSpanning =
        Except.ok (demoSpanPending,
          { addr := 6, size := 4, kind := PacketKind.read, isResponse := false,
            data := [7, 8, 0, 0] }, true) :=
  ⟨rfl, rfl, by decide, rfl, rfl, rfl, rfl, rfl, rfl⟩

end SimpleCache

end Gem5

namespace Gem5

namespace SimpleCache

/-! ## The handlers, seen from the ports and the request in flight -/

theorem portIds_getElem (c : SimpleCache) (n : Nat)
    (h : c.portIds = (List.range n).map Int.ofNat) (i : Nat) (p : CPUSidePort)
    (hp : c.cpuPorts[i]? = some p) : p.id = Int.ofNat i ∧ i < n := by
  have h1 : (c.portIds)[i]? = some p.id := by simp [portIds, hp]
  rw [h] at h1
  rw [List.getElem?_map] at h1
  by_cases hi : i < n
  · rw [List.getElem?_range hi] at h1
    simp only [Option.map_some', Option.some.injEq] at h1
    exact ⟨h1.symm, hi⟩
  · rw [List.getElem?_eq_none (by rw [List.length_range]; omega)] at h1
    simp at h1

theorem portIds_length (c : SimpleCache) (n : Nat)
    (h : c.portIds = (List.range n).map Int.ofNat) : c.cpuPorts.length = n := by
  have := congrArg List.length h
  simpa [portIds] using this

/-- A returning `recvTimingReq` on port `i`: the port exists, and either the
request is refused and only `needRetry` of the port is set, or the controller
was idle with no waiting port recorded, the port held no blocked packet, and
the request is accepted. -/
theorem recvTimingReq_effect (c c1 : SimpleCache) (i : Nat) (pkt : Packet) (b : Bool)
    (h : c.recvTimingReq i pkt = Except.ok (c1, b)) :
    ∃ p, c.cpuPorts[i]? = some p ∧
      ((b = false ∧ c1 = { c with cpuPorts := c.cpuPorts.set i { p with needRetry := true } }) ∨
        (b = true ∧ c.blocked = false ∧ c.waitingPortId = -1 ∧ p.blockedPacket = none ∧
          c1 = { c with blocked := true, waitingPortId := p.id,
                        events := c.events ++ [(c.latency, pkt)] })) := by
  unfold recvTimingReq at h
  split at h
  · simp at h
  · rename_i p hp
    refine ⟨p, hp, ?_⟩
    split at h
    · simp only [Except.ok.injEq, Prod.mk.injEq] at h
      exact Or.inl ⟨h.2.symm, h.1.symm⟩
    · rename_i hfree
      unfold handleRequest at h
      cases hb : c.blocked with
      | true =>
        simp only [hb, if_true, Bool.false_eq_true, if_false, Except.ok.injEq,
          Prod.mk.injEq] at h
        refine Or.inl ⟨h.2.symm, ?_⟩
        rw [← h.1]
      | false =>
        simp only [hb, Bool.false_eq_true, if_false] at h
        by_cases hw : c.waitingPortId = -1
        · simp only [hw, ne_eq, not_true_eq_false, if_false, if_true, Except.ok.injEq,
            Prod.mk.injEq] at h
          have hbp : p.blockedPacket = none := by
            cases hq : p.blockedPacket with
            | none => rfl
            | some q => exact absurd (Or.inl (by simp [hq])) hfree
          refine Or.inr ⟨h.2.symm, rfl, hw, hbp, ?_⟩
          rw [← h.1]
        · simp [hw] at h

/-- A returning `accessTiming`, in full: a hit answered by `sendResponse`, or a
miss that forwards the aligned block-sized packet itself, or a miss that
records the read or write request and forwards the block-sized read. -/
theorem accessTiming_effect (c c1 : SimpleCache) (pkt : Packet) (env : Env)
    (h : c.accessTiming pkt env = Except.ok c1) :
    (∃ c0 pkt1, c.accessFunctional pkt = Except.ok (c0, pkt1, true) ∧
        sendResponse { c0 with hits := c0.hits + 1 } pkt1.makeResponse env = Except.ok c1) ∨
      (CacheStore.find c.cacheStore (pkt.getBlockAddr c.blockSize) = none ∧
        ((pkt.addr = pkt.getBlockAddr c.blockSize ∧ pkt.size = c.blockSize ∧
            memPortSendPacket { c with misses := c.misses + 1, missTime := env.now } pkt
              env.memAccepts = Except.ok c1) ∨
          ((pkt.kind = PacketKind.read ∨ pkt.kind = PacketKind.write) ∧
            memPortSendPacket
              { c with misses := c.misses + 1, missTime := env.now, originalPacket := some pkt }
              (c.upgradePacket pkt) env.memAccepts = Except.ok c1))) := by
  cases hf : CacheStore.find c.cacheStore (pkt.getBlockAddr c.blockSize) with
  | some line =>
    left
    unfold accessTiming at h
    cases ha : c.accessFunctional pkt with
    | error e => simp [ha] at h
    | ok r =>
      obtain ⟨c0, pkt1, hit⟩ := r
      have hhit : hit = true := by
        unfold accessFunctional at ha
        simp only [hf] at ha
        split at ha
        · simp only [Except.ok.injEq, Prod.mk.injEq] at ha
          exact ha.2.2.symm
        · split at ha
          · simp only [Except.ok.injEq, Prod.mk.injEq] at ha
            exact ha.2.2.symm
          · simp at ha
      subst hhit
      simp only [ha, if_true] at h
      exact ⟨c0, pkt1, rfl, h⟩
  | none =>
    right
    refine ⟨rfl, ?_⟩
    by_cases ha : pkt.addr = pkt.getBlockAddr c.blockSize ∧ pkt.size = c.blockSize
    · left
      rw [accessTiming_miss_forward c pkt env hf ha] at h
      exact ⟨ha.1, ha.2, h⟩
    · right
      by_cases hspan : pkt.addr - pkt.getBlockAddr c.blockSize + pkt.size > c.blockSize
      · rw [accessTiming_miss_span c pkt env hf hspan] at h
        simp at h
      · cases hn : pkt.needsResponse with
        | false =>
          simp only [accessTiming, accessFunctional_miss c pkt hf] at h
          simp [ha, hspan, hn] at h
        | true =>
          have hreq : pkt.isResponse = false := by
            simp only [Packet.needsResponse, Bool.and_eq_true, Bool.not_eq_true'] at hn
            exact hn.1
          have hnwb : pkt.kind ≠ PacketKind.writeback := by
            simp only [Packet.needsResponse, Bool.and_eq_true, Bool.not_eq_true',
              decide_eq_false_iff_not] at hn
            exact hn.2
          have hk : pkt.kind = PacketKind.read ∨ pkt.kind = PacketKind.write := by
            cases hkind : pkt.kind with
            | read => exact Or.inl rfl
            | write => exact Or.inr rfl
            | writeback => exact absurd hkind hnwb
            | other =>
              simp only [accessTiming, accessFunctional_miss c pkt hf] at h
              simp [ha, hspan, hn, Packet.isWrite, Packet.isRead, hkind] at h
          rw [accessTiming_miss_upgrade c pkt env hf ha (by omega) hk hreq] at h
          exact ⟨hk, h⟩

end SimpleCache

end Gem5

namespace Gem5

namespace SimpleCache

theorem sendResponse_portIds (c c1 : SimpleCache) (pkt : Packet) (env : Env)
    (h : c.sendResponse pkt env = Except.ok c1) : c1.portIds = c.portIds := by
  obtain ⟨_, _, p, p1, hg, hs, hc⟩ := sendResponse_ok c c1 pkt env h
  obtain ⟨_, _, hid, _⟩ := CPUSidePort.sendPacket_state p p1 pkt _ hs
  subst hc
  simp only [portIds, List.map_map]
  have hfun : (CPUSidePort.id ∘ CPUSidePort.trySendRetry) = CPUSidePort.id := by
    funext q
    exact (CPUSidePort.trySendRetry_sentResp q).2.1
  rw [hfun]
  exact map_set_same _ _ _ _ p hg hid

/-- What a returning `handleResponse` leaves: the controller is idle, no
original packet is kept, and the events, the block size, the capacity and the
port ids are as before. -/
theorem handleResponse_effect (c c1 : SimpleCache) (pkt : Packet) (env : Env) (b : Bool)
    (h : c.handleResponse pkt env = Except.ok (c1, b)) :
    c1.blocked = false ∧ c1.waitingPortId = -1 ∧ c1.originalPacket = none ∧
      c1.events = c.events ∧ c1.blockSize = c.blockSize ∧ c1.capacity = c.capacity ∧
      c1.portIds = c.portIds := by
  cases ho : c.originalPacket with
  | none =>
    obtain ⟨_, _, c0, hi, hs⟩ := handleResponse_plain_ok c c1 pkt env b ho h
    obtain ⟨_, hbs, hcap, _, ho0, _, hports, _, _, _, _, hev, _⟩ := insert_frame c c0 pkt env hi
    obtain ⟨_, hbs1, hcap1, _, ho1, _, _, _, _, _, hev1, _, hb1, hw1, _⟩ :=
      sendResponse_frame _ c1 _ env hs
    have hids := sendResponse_portIds _ c1 _ env hs
    refine ⟨hb1, hw1, ?_, ?_, ?_, ?_, ?_⟩
    · rw [ho1]
      exact ho0.trans ho
    · rw [hev1]
      exact hev
    · rw [hbs1]
      exact hbs
    · rw [hcap1]
      exact hcap
    · rw [hids]
      simp only [portIds]
      rw [hports]
  | some o =>
    obtain ⟨_, _, c0, c3, o1, hi, ha, hs⟩ := handleResponse_upgrade_ok c c1 pkt o env b ho h
    obtain ⟨_, hbs, hcap, _, ho0, _, hports, _, _, _, _, hev, _⟩ := insert_frame c c0 pkt env hi
    have hfr := accessFunctional_frame _ c3 o o1 true ha
    obtain ⟨_, hbs1, hcap1, _, ho1, _, _, _, _, _, hev1, _, hb1, hw1, _⟩ :=
      sendResponse_frame _ c1 _ env hs
    have hids := sendResponse_portIds _ c1 _ env hs
    refine ⟨hb1, hw1, ho1, ?_, ?_, ?_, ?_⟩
    · rw [hev1, hfr]
      exact hev
    · rw [hbs1, hfr]
      exact hbs
    · rw [hcap1, hfr]
      exact hcap
    · rw [hids]
      simp only [portIds]
      rw [hfr]
      simp only
      rw [hports]

/-- A returning `recvRespRetry` on port `i`: the port held a blocked packet,
and only that port changes, keeping its id. -/
theorem recvRespRetry_effect (c c1 : SimpleCache) (i : Nat) (env : Env)
    (h : c.recvRespRetry i env = Except.ok c1) :
    ∃ p p1 pkt, c.cpuPorts[i]? = some p ∧ p.blockedPacket = some pkt ∧ p1.id = p.id ∧
      c1 = { c with cpuPorts := c.cpuPorts.set i p1 } := by
  unfold recvRespRetry at h
  split at h
  · simp at h
  · rename_i p hp
    cases hr : p.recvRespRetry env.cpuAccepts with
    | error f => simp [hr] at h
    | ok p1 =>
      simp only [hr, Except.ok.injEq] at h
      unfold CPUSidePort.recvRespRetry at hr
      cases hb : p.blockedPacket with
      | none => simp [hb] at hr
      | some pkt =>
        simp only [hb] at hr
        cases hs : CPUSidePort.sendPacket { p with blockedPacket := none } pkt env.cpuAccepts with
        | error f => simp [hs] at hr
        | ok p2 =>
          simp only [hs, Except.ok.injEq] at hr
          obtain ⟨_, _, hid, _⟩ := CPUSidePort.sendPacket_state _ p2 pkt _ hs
          refine ⟨p, p1, pkt, hp, hb, ?_, h.symm⟩
          rw [← hr, (CPUSidePort.trySendRetry_sentResp p2).2.1, hid]

theorem handleFunctional_keys (c c1 : SimpleCache) (pkt pkt1 : Packet)
    (h : c.handleFunctional pkt = Except.ok (c1, pkt1)) :
    CacheStore.keys c1.cacheStore = CacheStore.keys c.cacheStore := by
  unfold handleFunctional at h
  cases ha : c.accessFunctional pkt with
  | error e => simp [ha] at h
  | ok r =>
    obtain ⟨c0, p0, hit⟩ := r
    have hk := (accessFunctional_store c c0 pkt p0 hit ha).1
    simp only [ha] at h
    cases hit with
    | true =>
      simp only [if_true, Except.ok.injEq, Prod.mk.injEq] at h
      rw [← h.1]
      exact hk
    | false =>
      simp only [Bool.false_eq_true, if_false, Except.ok.injEq, Prod.mk.injEq] at h
      rw [← h.1]
      exact hk

end SimpleCache

end Gem5

namespace Gem5

namespace SimpleCache

/-! ## The links between controller, ports and request in flight are kept -/

theorem tracked_construct (params : SimpleCacheParams) : Tracked params (construct params) where
  ids := by
    simp only [portIds, construct, List.map_map]
    rfl
  busyIff := by simp [construct]
  waiting := fun h => by simp [construct] at h
  original := fun o h => by simp [construct] at h
  memFree := fun h => absurd rfl h
  flight := fun req h => by
    rcases h with h | h
    · simp [construct] at h
    · simp [construct] at h

theorem getElem?_set_port (l : List CPUSidePort) (i j : Nat) (p x q : CPUSidePort)
    (hp : l[i]? = some p) (hq : l[j]? = some q) (hx : x.blockedPacket = p.blockedPacket) :
    ∃ q1, (l.set i x)[j]? = some q1 ∧ q1.blockedPacket = q.blockedPacket := by
  by_cases hij : i = j
  · subst hij
    have hlt : i < l.length := (List.getElem?_eq_some.mp hp).1
    refine ⟨x, List.getElem?_set_self hlt, ?_⟩
    rw [hx]
    rw [hp] at hq
    rw [Option.some.inj hq]
  · exact ⟨q, by rw [List.getElem?_set_ne hij]; exact hq, rfl⟩

theorem tracked_cpuReq (params : SimpleCacheParams) (c c1 : SimpleCache) (i : Nat)
    (pkt : Packet) (b : Bool) (ht : Tracked params c)
    (h : c.recvTimingReq i pkt = Except.ok (c1, b)) : Tracked params c1 := by
  obtain ⟨p, hp, hcase⟩ := recvTimingReq_effect c c1 i pkt b h
  rcases hcase with ⟨_, h1⟩ | ⟨_, hb, hw, hfree, h1⟩
  · subst h1
    refine ⟨?_, ht.busyIff, fun hbl => ?_, ht.original, ht.memFree, ht.flight⟩
    · have := map_set_same CPUSidePort.id c.cpuPorts i { p with needRetry := true } p hp rfl
      simp only [portIds]
      rw [this]
      exact ht.ids
    · obtain ⟨h0, q, hq, hqf⟩ := ht.waiting hbl
      obtain ⟨q1, hq1, hq1f⟩ := getElem?_set_port c.cpuPorts i c.waitingPortId.toNat p
        { p with needRetry := true } q hp hq rfl
      exact ⟨h0, q1, hq1, hq1f.trans hqf⟩
  · obtain ⟨hid, _⟩ := portIds_getElem c _ ht.ids i p hp
    have hnoorig : c.originalPacket = none := by
      cases ho : c.originalPacket with
      | none => rfl
      | some o =>
        have := (ht.original o ho).1
        rw [hb] at this
        exact absurd this (by simp)
    subst h1
    refine ⟨ht.ids, ?_, fun _ => ?_, fun o ho => ?_, ht.memFree, ht.flight⟩
    · show true = true ↔ p.id ≠ -1
      rw [hid]
      simp only [true_iff]
      intro h2
      have : (0 : Int) ≤ Int.ofNat i := Int.ofNat_nonneg i
      omega
    · show 0 ≤ p.id ∧ ∃ q, c.cpuPorts[p.id.toNat]? = some q ∧ q.blockedPacket = none
      rw [hid]
      exact ⟨Int.ofNat_nonneg i, p, by simpa using hp, hfree⟩
    · have ho2 : c.originalPacket = some o := ho
      rw [hnoorig] at ho2
      exact absurd ho2 (by simp)

theorem tracked_sendResponse (params : SimpleCacheParams) (c c1 : SimpleCache) (pkt : Packet)
    (env : Env) (h : c.sendResponse pkt env = Except.ok c1)
    (hids : c.portIds = (List.range params.port_cpu_side_connection_count).map Int.ofNat)
    (ho : c.originalPacket = none) (hc1 : Coherent c1) : Tracked params c1 := by
  obtain ⟨_, _, _, _, ho1, _, _, _, _, _, _, _, hb1, hw1, _⟩ := sendResponse_frame c c1 pkt env h
  have haw : c1.memPort.awaiting = [] := by
    by_contra hne
    have := (hc1.awaitingBusy hne).1
    rw [hb1] at this
    exact absurd this (by simp)
  refine ⟨?_, ?_, fun hbl => ?_, fun o hoo => ?_, fun hne => absurd haw hne, fun req hf => ?_⟩
  · rw [sendResponse_portIds c c1 pkt env h]
    exact hids
  · rw [hb1, hw1]
    simp
  · rw [hb1] at hbl
    exact absurd hbl (by simp)
  · rw [ho1, ho] at hoo
    exact absurd hoo (by simp)
  · exfalso
    rcases hf with hf | ⟨hf1, hf2⟩
    · rw [haw] at hf
      simp at hf
    · have := (hc1.blockedReq req hf1 hf2).1
      rw [hb1] at this
      exact absurd this (by simp)

end SimpleCache

end Gem5

namespace Gem5

namespace SimpleCache

theorem upgradePacket_aligned (c : SimpleCache) (pkt : Packet) :
    (c.upgradePacket pkt).addr = (c.upgradePacket pkt).getBlockAddr c.blockSize := by
  simp only [upgradePacket, Packet.getBlockAddr]
  rw [blockAddr_aligned]
  rfl

/-- The links after a miss has offered the packet `q` to the memory side. -/
theorem tracked_forward (params : SimpleCacheParams) (c c2 c1 : SimpleCache) (q : Packet)
    (env : Env) (ht : Tracked params c) (hb : c.blocked = true)
    (haw : c.memPort.awaiting = [])
    (hs : c2.memPortSendPacket q env.memAccepts = Except.ok c1)
    (hports : c2.cpuPorts = c.cpuPorts) (hbl : c2.blocked = c.blocked)
    (hw : c2.waitingPortId = c.waitingPortId) (hm : c2.memPort = c.memPort)
    (hbs : c2.blockSize = c.blockSize) (hst : c2.cacheStore = c.cacheStore)
    (hev : c2.events = [])
    (horig : ∀ o, c2.originalPacket = some o →
      (o.kind = PacketKind.read ∨ o.kind = PacketKind.write) ∧
        o.getBlockAddr c.blockSize = q.addr)
    (hq : q.addr = q.getBlockAddr c.blockSize ∧ q.size = c.blockSize ∧
      CacheStore.find c.cacheStore q.addr = none) : Tracked params c1 := by
  obtain ⟨m, hsp, hc1⟩ := memPortSendPacket_ok c2 c1 q _ hs
  obtain ⟨_, _, _, hbp1⟩ := MemSidePort.sendPacket_ok _ _ _ _ hsp
  have haw1 := MemSidePort.sendPacket_awaiting _ _ _ _ hsp
  rw [hm, haw] at haw1
  subst hc1
  have hreq : ∀ req, inFlight { c2 with memPort := m } req → req = q := by
    intro req hf
    rcases hf with hf | ⟨hf1, _⟩
    · have hf' : req ∈ m.awaiting := hf
      rw [haw1] at hf'
      split at hf'
      · simpa using hf'
      · simp at hf'
    · have hf' : m.blockedPacket = some req := hf1
      rw [hbp1] at hf'
      split at hf'
      · simp at hf'
      · exact (Option.some.inj hf').symm
  refine ⟨?_, ?_, fun hbl2 => ?_, fun o ho => ?_, fun hne => ?_, fun req hf => ?_⟩
  · simp only [portIds]
    rw [hports]
    exact ht.ids
  · show c2.blocked = true ↔ c2.waitingPortId ≠ -1
    rw [hbl, hw]
    exact ht.busyIff
  · show 0 ≤ c2.waitingPortId ∧ ∃ p, c2.cpuPorts[c2.waitingPortId.toNat]? = some p ∧ _
    rw [hw, hports]
    exact ht.waiting hb
  · have ho2 : c2.originalPacket = some o := ho
    exact ⟨by show c2.blocked = true; rw [hbl]; exact hb, hev, (horig o ho2).1⟩
  · show m.blockedPacket = none
    have hne' : m.awaiting ≠ [] := hne
    rw [hbp1]
    rw [haw1] at hne'
    cases hacc : env.memAccepts with
    | true => simp
    | false => simp [hacc] at hne'
  · rw [hreq req hf]
    refine ⟨?_, ?_, ?_, fun o ho => ?_⟩
    · show q.addr = q.getBlockAddr c2.blockSize
      rw [hbs]
      exact hq.1
    · show q.size = c2.blockSize
      rw [hbs]
      exact hq.2.1
    · show CacheStore.find c2.cacheStore q.addr = none
      rw [hst]
      exact hq.2.2
    · have ho2 : c2.originalPacket = some o := ho
      show o.getBlockAddr c2.blockSize = q.addr
      rw [hbs]
      exact (horig o ho2).2

theorem tracked_fire (params : SimpleCacheParams) (c c1 : SimpleCache) (env : Env)
    (hc : Coherent c) (ht : Tracked params c) (hc1 : Coherent c1)
    (hf : c.follows (Event.fire env) = true) (h : c.exec (Event.fire env) = Except.ok c1) :
    Tracked params c1 := by
  cases hev : c.events with
  | nil => simp [follows, hev] at hf
  | cons e rest =>
    obtain ⟨d, pkt⟩ := e
    have hne : c.events ≠ [] := by simp [hev]
    have hrest : rest = [] := by
      have := hc.eventsLe
      rw [hev] at this
      simp only [List.length_cons] at this
      exact List.length_eq_zero.mp (by omega)
    have hb : c.blocked = true := hc.eventsBusy hne
    have haw : c.memPort.awaiting = [] := by
      by_contra hn
      exact hne (hc.awaitingBusy hn).2
    have hnoorig : c.originalPacket = none := by
      cases ho : c.originalPacket with
      | none => rfl
      | some o => exact absurd (ht.original o ho).2.1 hne
    simp only [exec, hev] at h
    subst hrest
    rcases accessTiming_effect _ c1 pkt env h with ⟨c0, pkt1, ha, hs⟩ | ⟨hmiss, hfw | ⟨hk, hup⟩⟩
    · have hfr := accessFunctional_frame _ c0 pkt pkt1 true ha
      refine tracked_sendResponse params _ c1 _ env hs ?_ ?_ hc1
      · simp only [portIds]
        rw [hfr]
        exact ht.ids
      · rw [hfr]
        exact hnoorig
    · obtain ⟨hal, hsz, hsend⟩ := hfw
      refine tracked_forward params c _ c1 pkt env ht hb haw hsend rfl rfl rfl rfl rfl rfl rfl
        (fun o ho => ?_) ⟨hal, hsz, ?_⟩
      · have ho2 : c.originalPacket = some o := ho
        rw [hnoorig] at ho2
        exact absurd ho2 (by simp)
      · rw [hal]
        exact hmiss
    · refine tracked_forward params c _ c1 _ env ht hb haw hup rfl rfl rfl rfl rfl rfl rfl
        (fun o ho => ?_) ⟨upgradePacket_aligned _ pkt, rfl, hmiss⟩
      have ho2 : some pkt = some o := ho
      rw [← Option.some.inj ho2]
      exact ⟨hk, rfl⟩

theorem tracked_memResp (params : SimpleCacheParams) (c c1 : SimpleCache) (pkt : Packet)
    (env : Env) (ht : Tracked params c) (hc1 : Coherent c1)
    (h : c.exec (Event.memResp pkt env) = Except.ok c1) : Tracked params c1 := by
  simp only [exec] at h
  cases hr : (c.answered pkt).handleResponse pkt env with
  | error e => simp [hr] at h
  | ok r =>
    obtain ⟨c2, b⟩ := r
    simp only [hr, Except.ok.injEq] at h
    subst h
    obtain ⟨hb1, hw1, ho1, _, _, _, hids⟩ := handleResponse_effect _ c2 pkt env b hr
    have haw : c2.memPort.awaiting = [] := by
      by_contra hne
      have := (hc1.awaitingBusy hne).1
      rw [hb1] at this
      exact absurd this (by simp)
    refine ⟨?_, ?_, fun hbl => ?_, fun o hoo => ?_, fun hne => absurd haw hne, fun req hf => ?_⟩
    · rw [hids]
      exact ht.ids
    · rw [hb1, hw1]
      simp
    · rw [hb1] at hbl
      exact absurd hbl (by simp)
    · rw [ho1] at hoo
      exact absurd hoo (by simp)
    · exfalso
      rcases hf with hf | ⟨hf1, hf2⟩
      · rw [haw] at hf
        simp at hf
      · have := (hc1.blockedReq req hf1 hf2).1
        rw [hb1] at this
        exact absurd this (by simp)

theorem tracked_cpuRetry (params : SimpleCacheParams) (c c1 : SimpleCache) (i : Nat) (env : Env)
    (ht : Tracked params c) (h : c.recvRespRetry i env = Except.ok c1) : Tracked params c1 := by
  obtain ⟨p, p1, pkt, hp, hbp, hid, h1⟩ := recvRespRetry_effect c c1 i env h
  subst h1
  refine ⟨?_, ht.busyIff, fun hbl => ?_, ht.original, ht.memFree, ht.flight⟩
  · have := map_set_same CPUSidePort.id c.cpuPorts i p1 p hp hid
    simp only [portIds]
    rw [this]
    exact ht.ids
  · obtain ⟨h0, q, hq, hqf⟩ := ht.waiting hbl
    have hij : i ≠ c.waitingPortId.toNat := by
      intro hij
      rw [hij, hq] at hp
      rw [Option.some.inj hp, hbp] at hqf
      exact absurd hqf (by simp)
    exact ⟨h0, q, by rw [List.getElem?_set_ne hij]; exact hq, hqf⟩

theorem tracked_memRetry (params : SimpleCacheParams) (c c1 : SimpleCache) (env : Env)
    (ht : Tracked params c) (h : c.recvReqRetry env = Except.ok c1) : Tracked params c1 := by
  unfold recvReqRetry MemSidePort.recvReqRetry at h
  cases hbp : c.memPort.blockedPacket with
  | none => simp [hbp] at h
  | some p =>
    simp only [hbp] at h
    cases hs : MemSidePort.sendPacket { c.memPort with blockedPacket := none } p env.memAccepts with
    | error f => simp [hs] at h
    | ok m =>
      simp only [hs, Except.ok.injEq] at h
      obtain ⟨_, _, _, hbp1⟩ := MemSidePort.sendPacket_ok _ _ _ _ hs
      have haw1 := MemSidePort.sendPacket_awaiting _ _ _ _ hs
      have haw : c.memPort.awaiting = [] := by
        by_contra hne
        have := ht.memFree hne
        rw [hbp] at this
        exact absurd this (by simp)
      simp only [haw] at haw1
      subst h
      have hreq : ∀ req, inFlight { c with memPort := m } req → c.inFlight req := by
        intro req hf
        rcases hf with hf | ⟨hf1, hf2⟩
        · have hf' : req ∈ m.awaiting := hf
          rw [haw1] at hf'
          split at hf'
          · rename_i hcond
            have : req = p := by simpa using hf'
            exact Or.inr ⟨by rw [this]; exact hbp, by rw [this]; exact hcond.2⟩
          · simp at hf'
        · have hf' : m.blockedPacket = some req := hf1
          rw [hbp1] at hf'
          split at hf'
          · simp at hf'
          · have : p = req := Option.some.inj hf'
            exact Or.inr ⟨by rw [← this]; exact hbp, hf2⟩
      refine ⟨ht.ids, ht.busyIff, ht.waiting, ht.original, fun hne => ?_,
        fun req hf => ht.flight req (hreq req hf)⟩
      show m.blockedPacket = none
      have hne' : m.awaiting ≠ [] := hne
      rw [hbp1]
      rw [haw1] at hne'
      cases hacc : env.memAccepts with
      | true => simp
      | false => simp [hacc] at hne'

theorem tracked_functional (params : SimpleCacheParams) (c c1 : SimpleCache) (pkt pkt1 : Packet)
    (ht : Tracked params c) (h : c.handleFunctional pkt = Except.ok (c1, pkt1)) :
    Tracked params c1 := by
  have hkeys := handleFunctional_keys c c1 pkt pkt1 h
  obtain ⟨store, sf, h1⟩ := handleFunctional_ok c c1 pkt pkt1 h
  rw [h1] at hkeys
  have hk : CacheStore.keys store = CacheStore.keys c.cacheStore := hkeys
  subst h1
  refine ⟨ht.ids, ht.busyIff, ht.waiting, ht.original, ht.memFree, fun req hf => ?_⟩
  have hf' : c.inFlight req := hf
  obtain ⟨h1, h2, h3, h4⟩ := ht.flight req hf'
  refine ⟨h1, h2, ?_, h4⟩
  show CacheStore.find store req.addr = none
  rw [CacheStore.find_eq_none_iff, hk, ← CacheStore.find_eq_none_iff]
  exact h3

theorem tracked_exec (params : SimpleCacheParams) (c c1 : SimpleCache) (ev : Event)
    (hc : Coherent c) (ht : Tracked params c) (hf : c.follows ev = true)
    (h : c.exec ev = Except.ok c1) : Tracked params c1 := by
  have hc1 : Coherent c1 := coherent_exec c c1 ev hc hf h
  cases ev with
  | cpuReq i pkt =>
    simp only [exec] at h
    cases hr : c.recvTimingReq i pkt with
    | error e => simp [hr] at h
    | ok r =>
      obtain ⟨c2, b⟩ := r
      simp only [hr, Except.ok.injEq] at h
      subst h
      exact tracked_cpuReq params c c2 i pkt b ht hr
  | fire env => exact tracked_fire params c c1 env hc ht hc1 hf h
  | memResp pkt env => exact tracked_memResp params c c1 pkt env ht hc1 h
  | cpuRetry i env => exact tracked_cpuRetry params c c1 i env ht h
  | memRetry env => exact tracked_memRetry params c c1 env ht h
  | functional pkt =>
    simp only [exec] at h
    cases hr : c.handleFunctional pkt with
    | error e => simp [hr] at h
    | ok r =>
      obtain ⟨c2, p2⟩ := r
      simp only [hr, Except.ok.injEq] at h
      subst h
      exact tracked_functional params c c2 pkt p2 ht hr

theorem tracked_run (params : SimpleCacheParams) (evs : List Event) (c c1 : SimpleCache)
    (hc : Coherent c) (ht : Tracked params c) (h : c.run evs = some c1) :
    Tracked params c1 := by
  induction evs generalizing c with
  | nil =>
    simp only [run, Option.some.injEq] at h
    exact h ▸ ht
  | cons ev rest ih =>
    simp only [run] at h
    cases hf : c.follows ev with
    | false => simp [hf] at h
    | true =>
      simp only [hf, if_true] at h
      cases he : c.exec ev with
      | error e => simp [he] at h
      | ok c2 =>
        simp only [he] at h
        exact ih c2 (coherent_exec c c2 ev hc hf he) (tracked_exec params c c2 ev hc ht hf he) h

theorem tracked_of_reachable (params : SimpleCacheParams) (c : SimpleCache)
    (h : Reachable params c) : Tracked params c := by
  obtain ⟨evs, hrun⟩ := h
  exact tracked_run params evs _ c (coherent_construct params) (tracked_construct params) hrun

end SimpleCache

end Gem5

namespace Gem5

namespace SimpleCache

/-! ## When `handleResponse` returns -/

theorem handleResponse_of_plain (c c0 c1 : SimpleCache) (pkt : Packet) (env : Env)
    (hb : c.blocked = true) (hi : c.insert pkt env = Except.ok c0)
    (ho : c.originalPacket = none)
    (hs : sendResponse { c0 with missLatency := c0.missLatency ++ [env.now - c0.missTime] } pkt env =
      Except.ok c1) :
    c.handleResponse pkt env = Except.ok (c1, true) := by
  have ho0 : c0.originalPacket = none := by
    rw [(insert_frame c c0 pkt env hi).2.2.2.2.1, ho]
  unfold handleResponse
  simp only [hb, Bool.true_eq_false, if_false, hi]
  split
  · rename_i orig heq
    have : c0.originalPacket = some orig := heq
    rw [ho0] at this
    exact absurd this (by simp)
  · rw [hs]

theorem handleResponse_of_upgrade (c c0 c3 c1 : SimpleCache) (pkt o o1 : Packet) (env : Env)
    (hb : c.blocked = true) (hi : c.insert pkt env = Except.ok c0)
    (ho : c.originalPacket = some o)
    (ha : accessFunctional { c0 with missLatency := c0.missLatency ++ [env.now - c0.missTime] } o =
      Except.ok (c3, o1, true))
    (hs : sendResponse { c3 with originalPacket := none } o1.makeResponse env = Except.ok c1) :
    c.handleResponse pkt env = Except.ok (c1, true) := by
  have ho0 : c0.originalPacket = some o := by
    rw [(insert_frame c c0 pkt env hi).2.2.2.2.1, ho]
  unfold handleResponse
  simp only [hb, Bool.true_eq_false, if_false, hi]
  split
  · rename_i orig heq
    have h1 : c0.originalPacket = some orig := heq
    rw [ho0] at h1
    have h2 : o = orig := Option.some.inj h1
    subst h2
    simp only [ha, Bool.true_eq_false, if_false]
    rw [hs]
  · rename_i heq
    have h1 : c0.originalPacket = none := heq
    rw [ho0] at h1
    exact absurd h1 (by simp)

theorem evict_error (c s : SimpleCache) (env : Env) (f : Fault)
    (h : c.evict env = Except.error (f, s)) :
    f = Fault.noVictim ∨ f = Fault.sendWhileBlocked := by
  unfold evict at h
  cases hg : c.cacheStore[env.rnd % c.cacheStore.length]? with
  | none =>
    simp only [hg, Except.error.injEq, Prod.mk.injEq] at h
    exact Or.inl h.1.symm
  | some block =>
    simp only [hg] at h
    cases hs : c.memPortSendPacket (c.writebackPacket block) env.memAccepts with
    | error e =>
      obtain ⟨f2, s2⟩ := e
      simp only [hs, Except.error.injEq, Prod.mk.injEq] at h
      have := (memPortSendPacket_error c s2 _ _ f2 hs).1
      rw [← h.1]
      exact Or.inr this
    | ok c2 => simp [hs] at h

theorem insert_error (c s : SimpleCache) (pkt : Packet) (env : Env) (f : Fault)
    (ha : pkt.addr = pkt.getBlockAddr c.blockSize) (hr : pkt.isResponse = true)
    (hf : CacheStore.find c.cacheStore pkt.addr = none)
    (h : c.insert pkt env = Except.error (f, s)) :
    f = Fault.noVictim ∨ f = Fault.sendWhileBlocked := by
  unfold insert at h
  simp only [← ha, ne_eq, not_true_eq_false, if_false, hf, Option.isSome_none,
    Bool.false_eq_true, hr, Bool.true_eq_false] at h
  by_cases hfull : c.cacheStore.length ≥ c.capacity
  · simp only [hfull, if_true] at h
    cases he : c.evict env with
    | error e =>
      obtain ⟨f2, s2⟩ := e
      simp only [he, Except.error.injEq, Prod.mk.injEq] at h
      rw [← h.1]
      exact evict_error c s2 env f2 he
    | ok c2 => simp [he] at h
  · simp [hfull] at h

theorem follows_memResp_answers (c : SimpleCache) (r : Packet) (env : Env)
    (hf : c.follows (Event.memResp r env) = true) :
    ∃ req, req ∈ c.memPort.awaiting ∧ r.addr = req.addr ∧ r.size = req.size ∧
      r.isResponse = true := by
  simp only [follows, List.any_eq_true] at hf
  obtain ⟨req, hmem, hans⟩ := hf
  simp only [answers, Bool.and_eq_true, decide_eq_true_eq] at hans
  exact ⟨req, hmem, hans.1.1.1.1, hans.1.1.1.2, hans.1.2⟩

theorem getBlockAddr_congr (p q : Packet) (blkSize : Nat) (h : p.addr = q.addr) :
    p.getBlockAddr blkSize = q.getBlockAddr blkSize := by
  simp [Packet.getBlockAddr, h]

/-- The facts about an arriving response in a state where the links hold: it
is a response for one whole aligned block that is not stored, the block of the
original packet if one is kept; the controller is busy; and the memory-side
port holds no blocked packet. -/
theorem memResp_facts (params : SimpleCacheParams) (c : SimpleCache) (r : Packet) (env : Env)
    (hc : Coherent c) (ht : Tracked params c)
    (hf : c.follows (Event.memResp r env) = true) :
    r.addr = r.getBlockAddr c.blockSize ∧ r.size = c.blockSize ∧
      CacheStore.find c.cacheStore r.addr = none ∧ r.isResponse = true ∧
      (∀ o, c.originalPacket = some o → o.getBlockAddr c.blockSize = r.addr) ∧
      c.blocked = true ∧ c.events = [] ∧ c.memPort.blockedPacket = none := by
  obtain ⟨req, hmem, hadr, hsz, hresp⟩ := follows_memResp_answers c r env hf
  obtain ⟨h1, h2, h3, h4⟩ := ht.flight req (Or.inl hmem)
  have hne : c.memPort.awaiting ≠ [] := List.ne_nil_of_mem hmem
  obtain ⟨hb, hev⟩ := hc.awaitingBusy hne
  refine ⟨?_, ?_, ?_, hresp, fun o ho => ?_, hb, hev, ht.memFree hne⟩
  · rw [getBlockAddr_congr r req _ hadr, hadr]
    exact h1
  · rw [hsz]
    exact h2
  · rw [hadr]
    exact h3
  · rw [hadr]
    exact h4 o ho

end SimpleCache

end Gem5

namespace Gem5

namespace SimpleCache

/-! ## C17: the waiting port holds no blocked packet -/

/-- C17: in every reachable state in which the controller is busy, the waiting
port `cpuPorts[waitingPortId]` exists and holds no blocked packet. So
`sendResponse`, called in any state with the same busy flag, waiting port id
and ports (the states `accessTiming` and `handleResponse` call it in), returns:
its call of `CPUSidePort::sendPacket` does not take the branch "Should never
try to send if blocked!". -/
theorem waiting_port_not_blocked (params : SimpleCacheParams) (c : SimpleCache)
    (h : Reachable params c) (hb : c.blocked = true) :
    0 ≤ c.waitingPortId ∧ c.waitingPortId.toNat < c.cpuPorts.length ∧
      (∃ p, c.cpuPorts[c.waitingPortId.toNat]? = some p ∧ p.blockedPacket = none) ∧
      ∀ c2 : SimpleCache, c2.blocked = true → c2.waitingPortId = c.waitingPortId →
        c2.cpuPorts = c.cpuPorts → ∀ pkt env, ∃ c1, c2.sendResponse pkt env = Except.ok c1 := by
  have ht := tracked_of_reachable params c h
  obtain ⟨h0, p, hp, hfree⟩ := ht.waiting hb
  refine ⟨h0, (List.getElem?_eq_some.mp hp).1, ⟨p, hp, hfree⟩, fun c2 hb2 hw2 hports pkt env => ?_⟩
  exact sendResponse_returns c2 pkt env p hb2 (by rw [hw2]; exact h0)
    (by rw [hw2, hports]; exact hp) hfree

/-- Witness of C17: the state in which the write of port 0 waits for the
memory side. -/
theorem waiting_port_not_blocked_witness :
    Reachable demoParams demoMissWait ∧ demoMissWait.blocked = true ∧
      demoMissWait.waitingPortId = 0 ∧
      (0 ≤ demoMissWait.waitingPortId ∧
        demoMissWait.waitingPortId.toNat < demoMissWait.cpuPorts.length ∧
        (∃ p, demoMissWait.cpuPorts[demoMissWait.waitingPortId.toNat]? = some p ∧
          p.blockedPacket = none) ∧
        ∀ c2 : SimpleCache, c2.blocked = true → c2.waitingPortId = demoMissWait.waitingPortId →
          c2.cpuPorts = demoMissWait.cpuPorts →
          ∀ pkt env, ∃ c1, c2.sendResponse pkt env = Except.ok c1) :=
  ⟨⟨[Event.cpuReq 0 demoWrite, Event.fire demoEnv], rfl⟩, rfl, rfl,
    waiting_port_not_blocked demoParams demoMissWait
      ⟨[Event.cpuReq 0 demoWrite, Event.fire demoEnv], rfl⟩ rfl⟩

/-! ## C20: the controller state invariant -/

/-- C20: in every reachable state `blocked` is set exactly when
`waitingPortId` is not -1, and then `waitingPortId` is the index of one of the
CPU-side ports, whose number is the configured one; an original packet is kept
only while the controller is busy. Consequently `handleRequest` returns for
every request (its assertion `waitingPortId == -1` holds whenever it is
reached); while an access event is scheduled, which is when `accessTiming`
runs, no original packet is kept; and at most one access is scheduled or
waiting for the memory side, and only while the controller is busy. -/
theorem controller_state_invariant (params : SimpleCacheParams) (c : SimpleCache)
    (h : Reachable params c) :
    (c.blocked = true ↔ c.waitingPortId ≠ -1) ∧
      (c.blocked = true → 0 ≤ c.waitingPortId ∧ c.waitingPortId.toNat < c.cpuPorts.length) ∧
      c.cpuPorts.length = params.port_cpu_side_connection_count ∧
      (c.originalPacket ≠ none → c.blocked = true) ∧
      (∀ pkt port_id, ∃ r, c.handleRequest pkt port_id = Except.ok r) ∧
      (c.events ≠ [] → c.originalPacket = none) ∧
      c.events.length + c.memPort.awaiting.length ≤ 1 ∧
      (c.blocked = false → c.events = [] ∧ c.memPort.awaiting = []) := by
  have ht := tracked_of_reachable params c h
  have hc := coherent_of_reachable params c h
  refine ⟨ht.busyIff, fun hb => ?_, portIds_length c _ ht.ids, fun ho => ?_, fun pkt port_id => ?_,
    fun hne => ?_, ?_, fun hb => ⟨?_, ?_⟩⟩
  · obtain ⟨h0, p, hp, _⟩ := ht.waiting hb
    exact ⟨h0, (List.getElem?_eq_some.mp hp).1⟩
  · cases hoo : c.originalPacket with
    | none => exact absurd hoo ho
    | some o => exact (ht.original o hoo).1
  · unfold handleRequest
    cases hb : c.blocked with
    | true => simp
    | false =>
      have hw : c.waitingPortId = -1 := by
        by_contra hne
        have := ht.busyIff.mpr hne
        rw [hb] at this
        exact absurd this (by simp)
      simp [hw]
  · cases hoo : c.originalPacket with
    | none => rfl
    | some o => exact absurd (ht.original o hoo).2.1 hne
  · have h1 := hc.eventsLe
    have h2 := hc.awaitingLe
    by_cases hne : c.memPort.awaiting = []
    · rw [hne]
      simpa using h1
    · have := (hc.awaitingBusy hne).2
      rw [this]
      simpa using h2
  · by_contra hne
    have := hc.eventsBusy hne
    rw [hb] at this
    exact absurd this (by simp)
  · by_contra hne
    have := (hc.awaitingBusy hne).1
    rw [hb] at this
    exact absurd this (by simp)

/-- Witness of C20: the state in which the write of port 0 waits for the
memory side. -/
theorem controller_state_invariant_witness :
    Reachable demoParams demoMissWait ∧
      ((demoMissWait.blocked = true ↔ demoMissWait.waitingPortId ≠ -1) ∧
        (demoMissWait.blocked = true → 0 ≤ demoMissWait.waitingPortId ∧
          demoMissWait.waitingPortId.toNat < demoMissWait.cpuPorts.length) ∧
        demoMissWait.cpuPorts.length = demoParams.port_cpu_side_connection_count ∧
        (demoMissWait.originalPacket ≠ none → demoMissWait.blocked = true) ∧
        (∀ pkt port_id, ∃ r, demoMissWait.handleRequest pkt port_id = Except.ok r) ∧
        (demoMissWait.events ≠ [] → demoMissWait.originalPacket = none) ∧
        demoMissWait.events.length + demoMissWait.memPort.awaiting.length ≤ 1 ∧
        (demoMissWait.blocked = false →
          demoMissWait.events = [] ∧ demoMissWait.memPort.awaiting = [])) :=
  ⟨⟨[Event.cpuReq 0 demoWrite, Event.fire demoEnv], rfl⟩,
    controller_state_invariant demoParams demoMissWait
      ⟨[Event.cpuReq 0 demoWrite, Event.fire demoEnv], rfl⟩⟩

end SimpleCache

end Gem5

namespace Gem5

namespace SimpleCache

/-! ## C18: the response matches the miss in flight -/

/-- The access of the original packet after the insertion of its block hits. -/
theorem original_hits_after_insert (c c0 : SimpleCache) (r o : Packet) (env : Env)
    (hk : o.kind = PacketKind.read ∨ o.kind = PacketKind.write)
    (hblk : o.getBlockAddr c.blockSize = r.addr)
    (hi : c.insert r env = Except.ok c0) :
    ∃ (c3 : SimpleCache) (o1 : Packet),
      accessFunctional { c0 with missLatency := c0.missLatency ++ [env.now - c0.missTime] } o =
        Except.ok (c3, o1, true) ∧
      c3.cpuPorts = c0.cpuPorts ∧ c3.blocked = c0.blocked ∧ c3.waitingPortId = c0.waitingPortId ∧
      c3.completed = c0.completed := by
  have hbs0 : c0.blockSize = c.blockSize := (insert_frame c c0 r env hi).2.1
  have hfind : CacheStore.find
      ({ c0 with missLatency := c0.missLatency ++ [env.now - c0.missTime] } : SimpleCache).cacheStore
      (o.getBlockAddr
        ({ c0 with missLatency := c0.missLatency ++ [env.now - c0.missTime] } : SimpleCache).blockSize) =
      some (r.writeDataToBlock (List.replicate c.blockSize 0) c.blockSize) := by
    show CacheStore.find c0.cacheStore (o.getBlockAddr c0.blockSize) = _
    rw [hbs0, hblk]
    exact insert_find_self c c0 r env hi
  rcases hk with hk | hk
  · have hw : o.isWrite = false := by simp [Packet.isWrite, hk]
    have hr : o.isRead = true := by simp [Packet.isRead, hk]
    exact ⟨_, _, accessFunctional_hit_read _ o _ hfind hw hr, rfl, rfl, rfl, rfl⟩
  · have hw : o.isWrite = true := by simp [Packet.isWrite, hk]
    exact ⟨_, _, accessFunctional_hit_write _ o _ hfind hw, rfl, rfl, rfl, rfl⟩

/-- C18: in every reachable state, when the memory side delivers the response
`r` to the request in flight, `r` is a response whose address is block-aligned
and not stored, so `insert` does not stop at one of its assertions (the only
ways it can fail to return are the victim search and the writeback); and when
an original packet is kept, its access after any returning `insert`, with or
without an eviction, is a hit, so `handleResponse` does not take the branch
"Should always hit after inserting". -/
theorem response_matches_miss (params : SimpleCacheParams) (c : SimpleCache) (r : Packet)
    (env : Env) (h : Reachable params c)
    (hf : c.follows (Event.memResp r env) = true) :
    r.addr = r.getBlockAddr c.blockSize ∧ CacheStore.find c.cacheStore r.addr = none ∧
      r.isResponse = true ∧
      (∀ f s, (c.answered r).insert r env = Except.error (f, s) →
        f = Fault.noVictim ∨ f = Fault.sendWhileBlocked) ∧
      (∀ o, c.originalPacket = some o → ∀ c0, (c.answered r).insert r env = Except.ok c0 →
        ∃ (c3 : SimpleCache) (o1 : Packet),
          accessFunctional { c0 with missLatency := c0.missLatency ++ [env.now - c0.missTime] }
            o = Except.ok (c3, o1, true)) := by
  have ht := tracked_of_reachable params c h
  have hc := coherent_of_reachable params c h
  obtain ⟨hal, _, habs, hresp, horig, _, _, _⟩ := memResp_facts params c r env hc ht hf
  refine ⟨hal, habs, hresp, fun f s he => ?_, fun o ho c0 hi => ?_⟩
  · exact insert_error (c.answered r) s r env f hal hresp habs he
  · obtain ⟨c3, o1, ha, _⟩ := original_hits_after_insert (c.answered r) c0 r o env
      (ht.original o ho).2.2 (horig o ho) hi
    exact ⟨c3, o1, ha⟩

/-- Witness of C18: block 4 is delivered for the pending two-byte write to
address 5. -/
theorem response_matches_miss_witness :
    Reachable demoParams (demoRun [Event.cpuReq 0 demoSmallWrite, Event.fire demoEnv]) ∧
      (demoRun [Event.cpuReq 0 demoSmallWrite, Event.fire demoEnv]).follows
        (Event.memResp demoFetched demoEnv) = true ∧
      (demoRun [Event.cpuReq 0 demoSmallWrite, Event.fire demoEnv]).originalPacket =
        some demoSmallWrite ∧
      demoFetched.addr = demoFetched.getBlockAddr
        (demoRun [Event.cpuReq 0 demoSmallWrite, Event.fire demoEnv]).blockSize ∧
      CacheStore.find (demoRun [Event.cpuReq 0 demoSmallWrite, Event.fire demoEnv]).cacheStore
        demoFetched.addr = none ∧
      demoFetched.isResponse = true :=
  ⟨⟨[Event.cpuReq 0 demoSmallWrite, Event.fire demoEnv], rfl⟩, rfl, rfl,
    (response_matches_miss demoParams (demoRun [Event.cpuReq 0 demoSmallWrite, Event.fire demoEnv])
      demoFetched demoEnv ⟨[Event.cpuReq 0 demoSmallWrite, Event.fire demoEnv], rfl⟩ rfl).1,
    (response_matches_miss demoParams (demoRun [Event.cpuReq 0 demoSmallWrite, Event.fire demoEnv])
      demoFetched demoEnv ⟨[Event.cpuReq 0 demoSmallWrite, Event.fire demoEnv], rfl⟩ rfl).2.1,
    (response_matches_miss demoParams (demoRun [Event.cpuReq 0 demoSmallWrite, Event.fire demoEnv])
      demoFetched demoEnv ⟨[Event.cpuReq 0 demoSmallWrite, Event.fire demoEnv], rfl⟩ rfl).2.2.1⟩

end SimpleCache

end Gem5

namespace Gem5

namespace SimpleCache

/-! ## C14: completing a miss -/

/-- C14 as stated fails: a cache whose size is less than one line has capacity
0. After the read of block 0 has missed and has been accepted by the memory
side, the controller is busy with waiting port 0, and the response is
block-aligned and not stored; but `handleResponse` does not return: the victim
search of `insert` has nothing to evict. -/
theorem miss_completion_stuck_without_capacity :
    (construct demoTinyParams).run [Event.cpuReq 0 (demoReadAt 0), Event.fire demoEnv] =
        some demoTinyWait ∧
      demoTinyWait.capacity = 0 ∧ demoTinyWait.blocked = true ∧ demoTinyWait.events = [] ∧
      demoTinyWait.waitingPortId = 0 ∧
      demoTinyWait.follows (Event.memResp (demoResp 0 [1, 2, 3, 4]) demoEnv) = true ∧
      (demoResp 0 [1, 2, 3, 4]).addr = (demoResp 0 [1, 2, 3, 4]).getBlockAddr demoTinyWait.blockSize ∧
      CacheStore.find demoTinyWait.cacheStore (demoResp 0 [1, 2, 3, 4]).addr = none ∧
      (demoTinyWait.answered (demoResp 0 [1, 2, 3, 4])).handleResponse (demoResp 0 [1, 2, 3, 4])
          demoEnv =
        Except.error (Fault.noVictim, demoTinyWait.answered (demoResp 0 [1, 2, 3, 4])) ∧
      demoTinyWait.exec (Event.memResp (demoResp 0 [1, 2, 3, 4]) demoEnv) =
        Except.error (Fault.noVictim, demoTinyWait.answered (demoResp 0 [1, 2, 3, 4])) :=
  ⟨rfl, rfl, rfl, rfl, rfl, rfl, by decide, rfl, rfl, rfl⟩

/-- C14, amended: in a cache with capacity at least 1, in every reachable
state in which the memory side delivers the response `r` to the miss in
flight (the controller is busy, waiting for the memory side, with waiting port
`waitingPortId`), `handleResponse` returns `true`. Afterwards `blocked =
false`, `waitingPortId = -1` and `originalPacket` is empty; exactly one reply
has been handed over, to the port recorded as waiting, and without a pending
upgrade it is `r` itself; and without a pending upgrade the store holds `r`'s
address with the line written from `r`, which is `r`'s data when `r` carries
`blockSize` bytes. -/
theorem miss_completion (params : SimpleCacheParams) (c : SimpleCache) (r : Packet) (env : Env)
    (h : Reachable params c) (hcap : 1 ≤ c.capacity)
    (hf : c.follows (Event.memResp r env) = true) :
    ∃ c1, (c.answered r).handleResponse r env = Except.ok (c1, true) ∧
      c.exec (Event.memResp r env) = Except.ok c1 ∧
      c1.blocked = false ∧ c1.waitingPortId = -1 ∧ c1.originalPacket = none ∧
      c1.completed = c.completed + 1 ∧
      (∃ p reply, c.cpuPorts[c.waitingPortId.toNat]? = some p ∧
        (c1.cpuPorts[c.waitingPortId.toNat]?).map CPUSidePort.sentResp =
          some (p.sentResp ++ [reply]) ∧
        (c.originalPacket = none → reply = r)) ∧
      (c.originalPacket = none →
        CacheStore.find c1.cacheStore r.addr =
          some (r.writeDataToBlock (List.replicate c.blockSize 0) c.blockSize) ∧
        (r.data.length = r.size → CacheStore.find c1.cacheStore r.addr = some r.data)) := by
  have ht := tracked_of_reachable params c h
  have hc := coherent_of_reachable params c h
  obtain ⟨hal, hsz, habs, hresp, horig, hb, _, hmfree⟩ := memResp_facts params c r env hc ht hf
  obtain ⟨hw0, p, hp, hpfree⟩ := ht.waiting hb
  have hroom : (c.answered r).cacheStore.length < (c.answered r).capacity ∨
      ((c.answered r).cacheStore ≠ [] ∧ (c.answered r).memPort.blockedPacket = none) := by
    show c.cacheStore.length < c.capacity ∨ (c.cacheStore ≠ [] ∧ c.memPort.blockedPacket = none)
    by_cases hlt : c.cacheStore.length < c.capacity
    · exact Or.inl hlt
    · refine Or.inr ⟨?_, hmfree⟩
      intro hnil
      rw [hnil] at hlt
      simp at hlt
      omega
  obtain ⟨c0, hi⟩ := insert_returns (c.answered r) r env hal hresp habs hroom
  obtain ⟨_, hbs0, _, hb0, ho0, hw0', hports0, _, _, _, _, _, hco0⟩ :=
    insert_frame (c.answered r) c0 r env hi
  have hfind0 := insert_find_self (c.answered r) c0 r env hi
  have hexec : ∀ c1, (c.answered r).handleResponse r env = Except.ok (c1, true) →
      c.exec (Event.memResp r env) = Except.ok c1 := by
    intro c1 h1
    simp [exec, h1]
  cases ho : c.originalPacket with
  | none =>
    obtain ⟨c1, hs⟩ := sendResponse_returns
      { c0 with missLatency := c0.missLatency ++ [env.now - c0.missTime] } r env p
      (hb0.trans hb) (by show 0 ≤ c0.waitingPortId; rw [hw0']; exact hw0)
      (by show c0.cpuPorts[c0.waitingPortId.toNat]? = some p; rw [hw0', hports0]; exact hp) hpfree
    have hres := handleResponse_of_plain (c.answered r) c0 c1 r env hb hi ho hs
    obtain ⟨_, _, _, _, ho1, hst1, _, _, _, _, _, hco1, hb1, hw1, _⟩ :=
      sendResponse_frame _ c1 _ env hs
    obtain ⟨p2, hp2, hrep⟩ := sendResponse_reply _ c1 _ env hs
    simp only [hw0', hports0] at hp2 hrep
    have hline : CacheStore.find c1.cacheStore r.addr =
        some (r.writeDataToBlock (List.replicate c.blockSize 0) c.blockSize) := by
      rw [hst1]
      exact hfind0
    refine ⟨c1, hres, hexec c1 hres, hb1, hw1, ?_, ?_, ⟨p2, r, hp2, hrep, fun _ => rfl⟩,
      fun _ => ⟨hline, fun hlen => ?_⟩⟩
    · rw [ho1]
      exact ho0.trans ho
    · rw [hco1]
      show c0.completed + 1 = c.completed + 1
      rw [hco0]
      rfl
    · rw [hline, Packet.writeDataToBlock_full r _ c.blockSize hal hsz hlen]
  | some o =>
    obtain ⟨c3, o1, ha, hports3, hb3, hw3, hco3⟩ := original_hits_after_insert (c.answered r) c0 r o
      env (ht.original o ho).2.2 (horig o ho) hi
    obtain ⟨c1, hs⟩ := sendResponse_returns { c3 with originalPacket := none } o1.makeResponse env p
      (by show c3.blocked = true; rw [hb3, hb0]; exact hb)
      (by show 0 ≤ c3.waitingPortId; rw [hw3, hw0']; exact hw0)
      (by show c3.cpuPorts[c3.waitingPortId.toNat]? = some p
          rw [hw3, hw0', hports3, hports0]; exact hp) hpfree
    have hres := handleResponse_of_upgrade (c.answered r) c0 c3 c1 r o o1 env hb hi ho ha hs
    obtain ⟨_, _, _, _, ho1, _, _, _, _, _, _, hco1, hb1, hw1, _⟩ :=
      sendResponse_frame _ c1 _ env hs
    obtain ⟨p2, hp2, hrep⟩ := sendResponse_reply _ c1 _ env hs
    simp only [hw3, hw0', hports3, hports0] at hp2 hrep
    refine ⟨c1, hres, hexec c1 hres, hb1, hw1, ho1, ?_, ⟨p2, o1.makeResponse, hp2, hrep, fun hn => ?_⟩,
      fun hn => ?_⟩
    · rw [hco1]
      show c3.completed + 1 = c.completed + 1
      rw [hco3, hco0]
      rfl
    · exact absurd hn (by simp)
    · exact absurd hn (by simp)

/-- Witness of C14, amended: the response to the write of block 0 arrives in
the two-line cache. -/
theorem miss_completion_witness :
    Reachable demoParams demoMissWait ∧ 1 ≤ demoMissWait.capacity ∧
      demoMissWait.follows (Event.memResp demoWrite.makeResponse demoEnv) = true ∧
      demoMissWait.exec (Event.memResp demoWrite.makeResponse demoEnv) = Except.ok demoWritten ∧
      ∃ c1, (demoMissWait.answered demoWrite.makeResponse).handleResponse demoWrite.makeResponse
          demoEnv = Except.ok (c1, true) ∧
        c1.blocked = false ∧ c1.waitingPortId = -1 ∧ c1.originalPacket = none :=
  ⟨⟨[Event.cpuReq 0 demoWrite, Event.fire demoEnv], rfl⟩, by decide, rfl, rfl, by
    obtain ⟨c1, h1, _, h3, h4, h5, _⟩ := miss_completion demoParams demoMissWait
      demoWrite.makeResponse demoEnv ⟨[Event.cpuReq 0 demoWrite, Event.fire demoEnv], rfl⟩
      (by decide) rfl
    exact ⟨c1, h1, h3, h4, h5⟩⟩

end SimpleCache

end Gem5
